import Mathlib

/-! The NIF reader of components/nif/niffile.cpp.

A shallow embedding of `Nif::Reader` : the factory table, `versionToString`, `getString` and the
decode driver `Reader::parse`, written as explicit state passing over the bytes still to be read.
Exceptions are outcomes that keep the state reached when they were thrown, because the reader
writes through references into the `NIFFile` it was built from. The collision objects of
components/nif/physics.hpp follow the reader.
-/

set_option autoImplicit false

namespace Nif

/-! ## Primitive stream reader -/

/-- The bytes still to be consumed; every element is read modulo 256. -/
abbrev Bytes := List Nat

/-- Modelled from the spec: std::string contents are bytes; a byte b is the character with code b % 256. -/
def toText (bs : Bytes) : String :=
  String.mk (bs.map (fun b => Char.ofNat (b % 256)))

/-- Modelled from the spec: NIFStream (nifstream.hpp) is not among the sources. An 8-bit read; a short
read fails (TruncatedStream). -/
def getU8 : Bytes → Option (Nat × Bytes)
  | b0 :: rest => some (b0 % 256, rest)
  | _ => none

/-- Modelled from the spec: a little-endian unsigned 16-bit read; a short read fails. -/
def getU16 : Bytes → Option (Nat × Bytes)
  | b0 :: b1 :: rest => some (b0 % 256 + 256 * (b1 % 256), rest)
  | _ => none

/-- Modelled from the spec: a little-endian unsigned 32-bit read; a short read fails. -/
def getU32 : Bytes → Option (Nat × Bytes)
  | b0 :: b1 :: b2 :: b3 :: rest =>
      some (b0 % 256 + 256 * (b1 % 256) + 65536 * (b2 % 256) + 16777216 * (b3 % 256), rest)
  | _ => none

/-- Modelled from the spec: a little-endian signed (two's complement) 32-bit read; a short read fails. -/
def getI32 (s : Bytes) : Option (Int × Bytes) :=
  match getU32 s with
  | none => none
  | some (v, rest) => some (if v < 2147483648 then (v : Int) else (v : Int) - 4294967296, rest)

/-- Modelled from the spec: a bulk read of count homogeneous values with the element reader get; the
count is supplied by the caller, and a short read fails. -/
def readVector {α : Type} (get : Bytes → Option (α × Bytes)) : Nat → Bytes → Option (List α × Bytes)
  | 0, s => some ([], s)
  | n + 1, s =>
      match get s with
      | none => none
      | some (x, s1) =>
          match readVector get n s1 with
          | none => none
          | some (xs, s2) => some (x :: xs, s2)

/-- Modelled from the spec: a string of exactly length bytes; a short read fails. -/
def readChars (length : Nat) (s : Bytes) : Option (String × Bytes) :=
  if length ≤ s.length then some (toText (s.take length), s.drop length) else none

/-- Modelled from the spec: a length-prefixed string with a 32-bit size (the width used by the record
type table, the string pool and inline record type names). -/
def getSizedString (s : Bytes) : Option (String × Bytes) :=
  match getU32 s with
  | none => none
  | some (n, s1) => readChars n s1

/-- Modelled from the spec: a length-prefixed string with an 8-bit size (Bethesda export strings). -/
def getExportString (s : Bytes) : Option (String × Bytes) :=
  match getU8 s with
  | none => none
  | some (n, s1) => readChars n s1

/-- Modelled from the spec: getSizedStrings(vec, size) reads exactly size length-prefixed strings. -/
def getSizedStrings (size : Nat) (s : Bytes) : Option (List String × Bytes) :=
  readVector getSizedString size s

/-- Modelled from the spec: the header text line, i.e. the bytes before the first line feed (10),
which is consumed as well; without a line feed the line is the whole remaining input. -/
def getVersionString (s : Bytes) : String × Bytes :=
  (toText (s.takeWhile (fun b => b % 256 != 10)), (s.dropWhile (fun b => b % 256 != 10)).drop 1)

/-- Modelled from the spec: NIFStream::generateVersion packs major.minor.patch.revision into 32 bits,
most significant component first, so that packed versions compare like the four components. -/
def generateVersion (major minor patch rev : Nat) : Nat :=
  major * 16777216 + minor * 65536 + patch * 256 + rev

/-- The std::string member starts_with: a case-sensitive test on the leading characters. -/
def startsWith (s p : String) : Bool :=
  p.data.isPrefixOf s.data

/-! ## Record type registry -/

/-- Modelled from the spec: record.hpp, which declares the enumeration, is not among the sources; the
"closed enumeration" of discriminants is taken to be RC_MISSING (the value the record loop asserts
against, niffile.cpp:485) together with every discriminant named in makeFactory. -/
inductive RecordType where
  | RC_MISSING
  | RC_NiNode
  | RC_AvoidNode
  | RC_NiBillboardNode
  | RC_NiBSAnimationNode
  | RC_NiBSParticleNode
  | RC_NiCollisionSwitch
  | RC_NiSortAdjustNode
  | RC_RootCollisionNode
  | RC_NiSwitchNode
  | RC_NiFltAnimationNode
  | RC_NiLODNode
  | RC_NiSequenceStreamHelper
  | RC_NiSequence
  | RC_NiControllerSequence
  | RC_NiCamera
  | RC_NiAlphaAccumulator
  | RC_NiClusterAccumulator
  | RC_NiAlphaController
  | RC_NiBSPArrayController
  | RC_NiFlipController
  | RC_NiGeomMorpherController
  | RC_NiKeyframeController
  | RC_NiLookAtController
  | RC_NiMaterialColorController
  | RC_NiParticleSystemController
  | RC_NiPathController
  | RC_NiRollController
  | RC_NiUVController
  | RC_NiVisController
  | RC_NiControllerManager
  | RC_NiTextureTransformController
  | RC_NiMultiTargetTransformController
  | RC_BSMaterialEmittanceMultController
  | RC_BSRefractionFirePeriodController
  | RC_BSRefractionStrengthController
  | RC_BSEffectShaderPropertyColorController
  | RC_BSEffectShaderPropertyFloatController
  | RC_BSLightingShaderPropertyColorController
  | RC_BSLightingShaderPropertyFloatController
  | RC_bhkBlendController
  | RC_NiBlendBoolInterpolator
  | RC_NiBlendFloatInterpolator
  | RC_NiBlendPoint3Interpolator
  | RC_NiBlendTransformInterpolator
  | RC_NiBoolInterpolator
  | RC_NiBoolTimelineInterpolator
  | RC_NiColorInterpolator
  | RC_NiFloatInterpolator
  | RC_NiPoint3Interpolator
  | RC_NiTransformInterpolator
  | RC_NiColorData
  | RC_NiFloatData
  | RC_NiKeyframeData
  | RC_NiMorphData
  | RC_NiPalette
  | RC_NiPixelData
  | RC_NiPosData
  | RC_NiSourceTexture
  | RC_NiUVData
  | RC_NiVisData
  | RC_NiBoolData
  | RC_NiDefaultAVObjectPalette
  | RC_BSShaderTextureSet
  | RC_NiLight
  | RC_NiTextureEffect
  | RC_NiExtraData
  | RC_NiStringExtraData
  | RC_NiTextKeyExtraData
  | RC_NiVertWeightsExtraData
  | RC_NiBinaryExtraData
  | RC_NiBooleanExtraData
  | RC_NiColorExtraData
  | RC_NiFloatExtraData
  | RC_NiFloatsExtraData
  | RC_NiIntegerExtraData
  | RC_NiIntegersExtraData
  | RC_NiVectorExtraData
  | RC_NiStringPalette
  | RC_BSBound
  | RC_BSMultiBound
  | RC_BSMultiBoundOBB
  | RC_BSMultiBoundSphere
  | RC_BSFurnitureMarker
  | RC_BSInvMarker
  | RC_BSBehaviorGraphExtraData
  | RC_BSXFlags
  | RC_NiParticles
  | RC_NiParticlesData
  | RC_NiLines
  | RC_NiLinesData
  | RC_NiSkinData
  | RC_NiSkinInstance
  | RC_NiSkinPartition
  | RC_NiTriShape
  | RC_NiTriShapeData
  | RC_NiTriStrips
  | RC_NiTriStripsData
  | RC_BSDismemberSkinInstance
  | RC_BSTriShape
  | RC_BSLODTriShape
  | RC_NiGravity
  | RC_NiParticleColorModifier
  | RC_NiParticleGrowFade
  | RC_NiParticleRotation
  | RC_NiPlanarCollider
  | RC_NiSphericalCollider
  | RC_NiCollisionObject
  | RC_bhkCollisionObject
  | RC_bhkHingeConstraint
  | RC_bhkLimitedHingeConstraint
  | RC_bhkRagdollConstraint
  | RC_bhkRigidBody
  | RC_bhkRigidBodyT
  | RC_bhkBoxShape
  | RC_bhkCapsuleShape
  | RC_bhkCompressedMeshShape
  | RC_bhkCompressedMeshShapeData
  | RC_bhkConvexTransformShape
  | RC_bhkConvexVerticesShape
  | RC_bhkListShape
  | RC_bhkMoppBvTreeShape
  | RC_bhkNiTriStripsShape
  | RC_bhkPackedNiTriStripsShape
  | RC_hkPackedNiTriStripsData
  | RC_bhkSimpleShapePhantom
  | RC_bhkSphereShape
  | RC_NiAlphaProperty
  | RC_NiDitherProperty
  | RC_NiFogProperty
  | RC_NiMaterialProperty
  | RC_NiShadeProperty
  | RC_NiSpecularProperty
  | RC_NiStencilProperty
  | RC_NiTexturingProperty
  | RC_NiVertexColorProperty
  | RC_NiWireframeProperty
  | RC_NiZBufferProperty
  | RC_BSShaderProperty
  | RC_BSShaderPPLightingProperty
  | RC_BSShaderNoLightingProperty
  | RC_BSLightingShaderProperty
  | RC_BSEffectShaderProperty
  deriving DecidableEq, Repr

open RecordType

/-- A factory-table cell: construct<NodeType, recordType>, kept as the C++ class instantiated and the
discriminant written into recType (niffile.cpp:39-45). -/
structure CreateRecord where
  nodeType : String
  recordType : RecordType
  deriving DecidableEq, Repr

/-- The initializer list of makeFactory (niffile.cpp:50-313), entry by entry and in source order. -/
def makeFactory : List (String × CreateRecord) :=
  [ ("NiNode", CreateRecord.mk "NiNode" RC_NiNode)
  , ("AvoidNode", CreateRecord.mk "NiNode" RC_AvoidNode)
  , ("NiBillboardNode", CreateRecord.mk "NiBillboardNode" RC_NiBillboardNode)
  , ("NiBSAnimationNode", CreateRecord.mk "NiNode" RC_NiBSAnimationNode)
  , ("NiBSParticleNode", CreateRecord.mk "NiNode" RC_NiBSParticleNode)
  , ("NiCollisionSwitch", CreateRecord.mk "NiNode" RC_NiCollisionSwitch)
  , ("NiSortAdjustNode", CreateRecord.mk "NiSortAdjustNode" RC_NiSortAdjustNode)
  , ("RootCollisionNode", CreateRecord.mk "NiNode" RC_RootCollisionNode)
  , ("BSBlastNode", CreateRecord.mk "BSRangeNode" RC_NiNode)
  , ("BSDamageStage", CreateRecord.mk "BSRangeNode" RC_NiNode)
  , ("BSFadeNode", CreateRecord.mk "NiNode" RC_NiNode)
  , ("BSLeafAnimNode", CreateRecord.mk "NiNode" RC_NiNode)
  , ("BSMultiBoundNode", CreateRecord.mk "BSMultiBoundNode" RC_NiNode)
  , ("BSOrderedNode", CreateRecord.mk "BSOrderedNode" RC_NiNode)
  , ("BSRangeNode", CreateRecord.mk "BSRangeNode" RC_NiNode)
  , ("BSTreeNode", CreateRecord.mk "BSTreeNode" RC_NiNode)
  , ("BSValueNode", CreateRecord.mk "BSValueNode" RC_NiNode)
  , ("NiSwitchNode", CreateRecord.mk "NiSwitchNode" RC_NiSwitchNode)
  , ("NiFltAnimationNode", CreateRecord.mk "NiFltAnimationNode" RC_NiFltAnimationNode)
  , ("NiLODNode", CreateRecord.mk "NiLODNode" RC_NiLODNode)
  , ("NiSequenceStreamHelper", CreateRecord.mk "NiSequenceStreamHelper" RC_NiSequenceStreamHelper)
  , ("NiSequence", CreateRecord.mk "NiSequence" RC_NiSequence)
  , ("NiControllerSequence", CreateRecord.mk "NiControllerSequence" RC_NiControllerSequence)
  , ("NiCamera", CreateRecord.mk "NiCamera" RC_NiCamera)
  , ("NiAlphaAccumulator", CreateRecord.mk "NiAlphaAccumulator" RC_NiAlphaAccumulator)
  , ("NiClusterAccumulator", CreateRecord.mk "NiClusterAccumulator" RC_NiClusterAccumulator)
  , ("NiAlphaController", CreateRecord.mk "NiAlphaController" RC_NiAlphaController)
  , ("NiBSPArrayController", CreateRecord.mk "NiBSPArrayController" RC_NiBSPArrayController)
  , ("NiFlipController", CreateRecord.mk "NiFlipController" RC_NiFlipController)
  , ("NiGeomMorpherController", CreateRecord.mk "NiGeomMorpherController" RC_NiGeomMorpherController)
  , ("NiKeyframeController", CreateRecord.mk "NiKeyframeController" RC_NiKeyframeController)
  , ("NiLookAtController", CreateRecord.mk "NiLookAtController" RC_NiLookAtController)
  , ("NiMaterialColorController", CreateRecord.mk "NiMaterialColorController" RC_NiMaterialColorController)
  , ("NiParticleSystemController", CreateRecord.mk "NiParticleSystemController" RC_NiParticleSystemController)
  , ("NiPathController", CreateRecord.mk "NiPathController" RC_NiPathController)
  , ("NiRollController", CreateRecord.mk "NiRollController" RC_NiRollController)
  , ("NiUVController", CreateRecord.mk "NiUVController" RC_NiUVController)
  , ("NiVisController", CreateRecord.mk "NiVisController" RC_NiVisController)
  , ("NiControllerManager", CreateRecord.mk "NiControllerManager" RC_NiControllerManager)
  , ("NiTransformController", CreateRecord.mk "NiKeyframeController" RC_NiKeyframeController)
  , ("NiTextureTransformController", CreateRecord.mk "NiTextureTransformController" RC_NiTextureTransformController)
  , ("NiMultiTargetTransformController", CreateRecord.mk "NiMultiTargetTransformController" RC_NiMultiTargetTransformController)
  , ("BSMaterialEmittanceMultController", CreateRecord.mk "NiFloatInterpController" RC_BSMaterialEmittanceMultController)
  , ("BSRefractionFirePeriodController", CreateRecord.mk "NiSingleInterpController" RC_BSRefractionFirePeriodController)
  , ("BSRefractionStrengthController", CreateRecord.mk "NiFloatInterpController" RC_BSRefractionStrengthController)
  , ("BSEffectShaderPropertyColorController", CreateRecord.mk "BSEffectShaderPropertyColorController" RC_BSEffectShaderPropertyColorController)
  , ("BSEffectShaderPropertyFloatController", CreateRecord.mk "BSEffectShaderPropertyFloatController" RC_BSEffectShaderPropertyFloatController)
  , ("BSLightingShaderPropertyColorController", CreateRecord.mk "BSEffectShaderPropertyColorController" RC_BSLightingShaderPropertyColorController)
  , ("BSLightingShaderPropertyFloatController", CreateRecord.mk "BSEffectShaderPropertyFloatController" RC_BSLightingShaderPropertyFloatController)
  , ("bhkBlendController", CreateRecord.mk "bhkBlendController" RC_bhkBlendController)
  , ("NiBlendBoolInterpolator", CreateRecord.mk "NiBlendBoolInterpolator" RC_NiBlendBoolInterpolator)
  , ("NiBlendFloatInterpolator", CreateRecord.mk "NiBlendFloatInterpolator" RC_NiBlendFloatInterpolator)
  , ("NiBlendPoint3Interpolator", CreateRecord.mk "NiBlendPoint3Interpolator" RC_NiBlendPoint3Interpolator)
  , ("NiBlendTransformInterpolator", CreateRecord.mk "NiBlendTransformInterpolator" RC_NiBlendTransformInterpolator)
  , ("NiBoolInterpolator", CreateRecord.mk "NiBoolInterpolator" RC_NiBoolInterpolator)
  , ("NiBoolTimelineInterpolator", CreateRecord.mk "NiBoolInterpolator" RC_NiBoolTimelineInterpolator)
  , ("NiColorInterpolator", CreateRecord.mk "NiColorInterpolator" RC_NiColorInterpolator)
  , ("NiFloatInterpolator", CreateRecord.mk "NiFloatInterpolator" RC_NiFloatInterpolator)
  , ("NiPoint3Interpolator", CreateRecord.mk "NiPoint3Interpolator" RC_NiPoint3Interpolator)
  , ("NiTransformInterpolator", CreateRecord.mk "NiTransformInterpolator" RC_NiTransformInterpolator)
  , ("NiColorData", CreateRecord.mk "NiColorData" RC_NiColorData)
  , ("NiFloatData", CreateRecord.mk "NiFloatData" RC_NiFloatData)
  , ("NiKeyframeData", CreateRecord.mk "NiKeyframeData" RC_NiKeyframeData)
  , ("NiMorphData", CreateRecord.mk "NiMorphData" RC_NiMorphData)
  , ("NiPalette", CreateRecord.mk "NiPalette" RC_NiPalette)
  , ("NiPixelData", CreateRecord.mk "NiPixelData" RC_NiPixelData)
  , ("NiPosData", CreateRecord.mk "NiPosData" RC_NiPosData)
  , ("NiSourceTexture", CreateRecord.mk "NiSourceTexture" RC_NiSourceTexture)
  , ("NiUVData", CreateRecord.mk "NiUVData" RC_NiUVData)
  , ("NiVisData", CreateRecord.mk "NiVisData" RC_NiVisData)
  , ("NiBoolData", CreateRecord.mk "NiBoolData" RC_NiBoolData)
  , ("NiDefaultAVObjectPalette", CreateRecord.mk "NiDefaultAVObjectPalette" RC_NiDefaultAVObjectPalette)
  , ("NiTransformData", CreateRecord.mk "NiKeyframeData" RC_NiKeyframeData)
  , ("BSShaderTextureSet", CreateRecord.mk "BSShaderTextureSet" RC_BSShaderTextureSet)
  , ("NiAmbientLight", CreateRecord.mk "NiLight" RC_NiLight)
  , ("NiDirectionalLight", CreateRecord.mk "NiLight" RC_NiLight)
  , ("NiPointLight", CreateRecord.mk "NiPointLight" RC_NiLight)
  , ("NiSpotLight", CreateRecord.mk "NiSpotLight" RC_NiLight)
  , ("NiTextureEffect", CreateRecord.mk "NiTextureEffect" RC_NiTextureEffect)
  , ("NiExtraData", CreateRecord.mk "NiExtraData" RC_NiExtraData)
  , ("NiStringExtraData", CreateRecord.mk "NiStringExtraData" RC_NiStringExtraData)
  , ("NiTextKeyExtraData", CreateRecord.mk "NiTextKeyExtraData" RC_NiTextKeyExtraData)
  , ("NiVertWeightsExtraData", CreateRecord.mk "NiVertWeightsExtraData" RC_NiVertWeightsExtraData)
  , ("NiBinaryExtraData", CreateRecord.mk "NiBinaryExtraData" RC_NiBinaryExtraData)
  , ("NiBooleanExtraData", CreateRecord.mk "NiBooleanExtraData" RC_NiBooleanExtraData)
  , ("NiColorExtraData", CreateRecord.mk "NiVectorExtraData" RC_NiColorExtraData)
  , ("NiFloatExtraData", CreateRecord.mk "NiFloatExtraData" RC_NiFloatExtraData)
  , ("NiFloatsExtraData", CreateRecord.mk "NiFloatsExtraData" RC_NiFloatsExtraData)
  , ("NiIntegerExtraData", CreateRecord.mk "NiIntegerExtraData" RC_NiIntegerExtraData)
  , ("NiIntegersExtraData", CreateRecord.mk "NiIntegersExtraData" RC_NiIntegersExtraData)
  , ("NiVectorExtraData", CreateRecord.mk "NiVectorExtraData" RC_NiVectorExtraData)
  , ("NiStringPalette", CreateRecord.mk "NiStringPalette" RC_NiStringPalette)
  , ("BSBound", CreateRecord.mk "BSBound" RC_BSBound)
  , ("BSMultiBound", CreateRecord.mk "BSMultiBound" RC_BSMultiBound)
  , ("BSMultiBoundOBB", CreateRecord.mk "BSMultiBoundOBB" RC_BSMultiBoundOBB)
  , ("BSMultiBoundSphere", CreateRecord.mk "BSMultiBoundSphere" RC_BSMultiBoundSphere)
  , ("BSFurnitureMarker", CreateRecord.mk "BSFurnitureMarker" RC_BSFurnitureMarker)
  , ("BSFurnitureMarkerNode", CreateRecord.mk "BSFurnitureMarker" RC_BSFurnitureMarker)
  , ("BSInvMarker", CreateRecord.mk "BSInvMarker" RC_BSInvMarker)
  , ("BSBehaviorGraphExtraData", CreateRecord.mk "BSBehaviorGraphExtraData" RC_BSBehaviorGraphExtraData)
  , ("BSXFlags", CreateRecord.mk "NiIntegerExtraData" RC_BSXFlags)
  , ("NiAutoNormalParticles", CreateRecord.mk "NiParticles" RC_NiParticles)
  , ("NiAutoNormalParticlesData", CreateRecord.mk "NiParticlesData" RC_NiParticlesData)
  , ("NiLines", CreateRecord.mk "NiLines" RC_NiLines)
  , ("NiLinesData", CreateRecord.mk "NiLinesData" RC_NiLinesData)
  , ("NiParticles", CreateRecord.mk "NiParticles" RC_NiParticles)
  , ("NiParticlesData", CreateRecord.mk "NiParticlesData" RC_NiParticlesData)
  , ("NiRotatingParticles", CreateRecord.mk "NiParticles" RC_NiParticles)
  , ("NiRotatingParticlesData", CreateRecord.mk "NiRotatingParticlesData" RC_NiParticlesData)
  , ("NiSkinData", CreateRecord.mk "NiSkinData" RC_NiSkinData)
  , ("NiSkinInstance", CreateRecord.mk "NiSkinInstance" RC_NiSkinInstance)
  , ("NiSkinPartition", CreateRecord.mk "NiSkinPartition" RC_NiSkinPartition)
  , ("NiTriShape", CreateRecord.mk "NiTriShape" RC_NiTriShape)
  , ("NiTriShapeData", CreateRecord.mk "NiTriShapeData" RC_NiTriShapeData)
  , ("NiTriStrips", CreateRecord.mk "NiTriStrips" RC_NiTriStrips)
  , ("NiTriStripsData", CreateRecord.mk "NiTriStripsData" RC_NiTriStripsData)
  , ("BSDismemberSkinInstance", CreateRecord.mk "BSDismemberSkinInstance" RC_BSDismemberSkinInstance)
  , ("BSTriShape", CreateRecord.mk "BSTriShape" RC_BSTriShape)
  , ("BSLODTriShape", CreateRecord.mk "BSLODTriShape" RC_BSLODTriShape)
  , ("NiGravity", CreateRecord.mk "NiGravity" RC_NiGravity)
  , ("NiParticleColorModifier", CreateRecord.mk "NiParticleColorModifier" RC_NiParticleColorModifier)
  , ("NiParticleGrowFade", CreateRecord.mk "NiParticleGrowFade" RC_NiParticleGrowFade)
  , ("NiParticleRotation", CreateRecord.mk "NiParticleRotation" RC_NiParticleRotation)
  , ("NiPlanarCollider", CreateRecord.mk "NiPlanarCollider" RC_NiPlanarCollider)
  , ("NiSphericalCollider", CreateRecord.mk "NiSphericalCollider" RC_NiSphericalCollider)
  , ("NiCollisionObject", CreateRecord.mk "NiCollisionObject" RC_NiCollisionObject)
  , ("bhkCollisionObject", CreateRecord.mk "bhkCollisionObject" RC_bhkCollisionObject)
  , ("bhkPCollisionObject", CreateRecord.mk "bhkCollisionObject" RC_bhkCollisionObject)
  , ("bhkSPCollisionObject", CreateRecord.mk "bhkCollisionObject" RC_bhkCollisionObject)
  , ("bhkHingeConstraint", CreateRecord.mk "bhkHingeConstraint" RC_bhkHingeConstraint)
  , ("bhkLimitedHingeConstraint", CreateRecord.mk "bhkLimitedHingeConstraint" RC_bhkLimitedHingeConstraint)
  , ("bhkRagdollConstraint", CreateRecord.mk "bhkRagdollConstraint" RC_bhkRagdollConstraint)
  , ("bhkRigidBody", CreateRecord.mk "bhkRigidBody" RC_bhkRigidBody)
  , ("bhkRigidBodyT", CreateRecord.mk "bhkRigidBody" RC_bhkRigidBodyT)
  , ("bhkBoxShape", CreateRecord.mk "bhkBoxShape" RC_bhkBoxShape)
  , ("bhkCapsuleShape", CreateRecord.mk "bhkCapsuleShape" RC_bhkCapsuleShape)
  , ("bhkCompressedMeshShape", CreateRecord.mk "bhkCompressedMeshShape" RC_bhkCompressedMeshShape)
  , ("bhkCompressedMeshShapeData", CreateRecord.mk "bhkCompressedMeshShapeData" RC_bhkCompressedMeshShapeData)
  , ("bhkConvexTransformShape", CreateRecord.mk "bhkConvexTransformShape" RC_bhkConvexTransformShape)
  , ("bhkConvexVerticesShape", CreateRecord.mk "bhkConvexVerticesShape" RC_bhkConvexVerticesShape)
  , ("bhkListShape", CreateRecord.mk "bhkListShape" RC_bhkListShape)
  , ("bhkMoppBvTreeShape", CreateRecord.mk "bhkMoppBvTreeShape" RC_bhkMoppBvTreeShape)
  , ("bhkNiTriStripsShape", CreateRecord.mk "bhkNiTriStripsShape" RC_bhkNiTriStripsShape)
  , ("bhkPackedNiTriStripsShape", CreateRecord.mk "bhkPackedNiTriStripsShape" RC_bhkPackedNiTriStripsShape)
  , ("hkPackedNiTriStripsData", CreateRecord.mk "hkPackedNiTriStripsData" RC_hkPackedNiTriStripsData)
  , ("bhkSimpleShapePhantom", CreateRecord.mk "bhkSimpleShapePhantom" RC_bhkSimpleShapePhantom)
  , ("bhkSphereShape", CreateRecord.mk "bhkSphereShape" RC_bhkSphereShape)
  , ("bhkTransformShape", CreateRecord.mk "bhkConvexTransformShape" RC_bhkConvexTransformShape)
  , ("NiAlphaProperty", CreateRecord.mk "NiAlphaProperty" RC_NiAlphaProperty)
  , ("NiDitherProperty", CreateRecord.mk "NiDitherProperty" RC_NiDitherProperty)
  , ("NiFogProperty", CreateRecord.mk "NiFogProperty" RC_NiFogProperty)
  , ("NiMaterialProperty", CreateRecord.mk "NiMaterialProperty" RC_NiMaterialProperty)
  , ("NiShadeProperty", CreateRecord.mk "NiShadeProperty" RC_NiShadeProperty)
  , ("NiSpecularProperty", CreateRecord.mk "NiSpecularProperty" RC_NiSpecularProperty)
  , ("NiStencilProperty", CreateRecord.mk "NiStencilProperty" RC_NiStencilProperty)
  , ("NiTexturingProperty", CreateRecord.mk "NiTexturingProperty" RC_NiTexturingProperty)
  , ("NiVertexColorProperty", CreateRecord.mk "NiVertexColorProperty" RC_NiVertexColorProperty)
  , ("NiWireframeProperty", CreateRecord.mk "NiWireframeProperty" RC_NiWireframeProperty)
  , ("NiZBufferProperty", CreateRecord.mk "NiZBufferProperty" RC_NiZBufferProperty)
  , ("BSShaderProperty", CreateRecord.mk "BSShaderProperty" RC_BSShaderProperty)
  , ("BSShaderPPLightingProperty", CreateRecord.mk "BSShaderPPLightingProperty" RC_BSShaderPPLightingProperty)
  , ("BSShaderNoLightingProperty", CreateRecord.mk "BSShaderNoLightingProperty" RC_BSShaderNoLightingProperty)
  , ("BSLightingShaderProperty", CreateRecord.mk "BSLightingShaderProperty" RC_BSLightingShaderProperty)
  , ("BSEffectShaderProperty", CreateRecord.mk "BSEffectShaderProperty" RC_BSEffectShaderProperty)
  ]

/-- The static factories map built once from makeFactory (niffile.cpp:316); find is a lookup by
exact key. -/
def factories : List (String × CreateRecord) := makeFactory

/-! ## Data model -/

/-- The part of a Record the driver touches: the C++ class instantiated by the factory, the
discriminant, the type name found in the file and the file-order index. Variant fields belong to
the record catalog and are not represented. -/
structure Record where
  nodeType : String
  recType : RecordType
  recName : String
  recIndex : Nat
  deriving DecidableEq, Repr

/-- The call entry->second() of a factory cell (niffile.cpp:39-45): a fresh record of class NodeType
whose recType is the table's discriminant; recName and recIndex are placeholders here, both are
overwritten by the record loop before the record is stored. -/
def construct (c : CreateRecord) : Record :=
  Record.mk c.nodeType c.recordType "" 0

/-- What is thrown out of Reader::parse, one constructor per throw site with the data that site puts
into the exception (the file name, passed at every site, is left out).
truncatedStream is the primitive reader's short-read failure; recordRead and recordPost stand for
any exception escaping Record::read and Record::post; undefinedBehaviour is the unchecked vector
access recTypes[recTypeIndices[i]] leaving the vector, or a null record being dereferenced. -/
inductive NifError where
  | invalidHeader (head : String)
  | unsupportedVersion (version : String)
  | bigEndian
  | hashedRecordTypes
  | blankRecordType (index : Nat)
  | unknownRecordType (rec : String)
  | truncatedStream
  | recordRead
  | recordPost
  | undefinedBehaviour
  deriving DecidableEq, Repr

/-- The message string built at each throw site of Reader::parse. -/
def NifError.message : NifError → String
  | .invalidHeader head => "Invalid NIF header: " ++ head
  | .unsupportedVersion version => "Unsupported NIF version: " ++ version
  | .bigEndian => "Big endian NIF files are unsupported"
  | .hashedRecordTypes => "Hashed record types are unsupported"
  | .blankRecordType index => "Record type is blank (index " ++ toString index ++ ")"
  | .unknownRecordType rec => "Unknown record type " ++ rec
  | .truncatedStream => ""
  | .recordRead => ""
  | .recordPost => ""
  | .undefinedBehaviour => ""

/-- The lines Reader::parse writes to the log (Debug::Warning, and Debug::Verbose for readingRecord),
each with the values streamed into it. -/
inductive LogLine where
  | unsupportedVersion (version : String)
  | nonZeroSeparator (rec : String) (index : Nat)
  | readingRecord (rec : String) (index : Nat)
  | rootNotRecord (root : Nat) (idx : Int)
  deriving DecidableEq, Repr

/-- Instrumentation: the order in which the record loop, the root loop and the post loop perform their
observable steps. separator is the 4-byte read of niffile.cpp:469, find the registry lookup of
line 473, read and post the two record hooks, root the resolution of one root entry. -/
inductive Call where
  | separator (index : Nat)
  | find (index : Nat) (rec : String)
  | read (index : Nat)
  | root (index : Nat)
  | post (index : Nat)
  deriving DecidableEq, Repr

/-- The state Reader::parse works on. The first eight fields are the NIFFile members the Reader holds
by reference (constructor, niffile.cpp:27-37), so a write to them is a write to the file object;
mStrings is the Reader's own string table; nif is the input not yet consumed; recTypes and
recTypeIndices are the two locals of parse; log and calls are the log output and the
instrumentation. -/
structure Reader where
  mVersion : Nat
  mUserVersion : Nat
  mBethVersion : Nat
  mFilename : String
  mHash : List Nat
  mRecords : List (Option Record)
  mRoots : List (Option Nat)
  mUseSkinning : Bool
  mStrings : List String
  nif : Bytes
  recTypes : List String
  recTypeIndices : List Nat
  log : List LogLine
  calls : List Call
  deriving DecidableEq, Repr

/-- What lies outside niffile.cpp: the version constants of niffile.hpp, Files::getHash, and the two
hooks of the record catalog. recordRead gets the record, the version triple, the string table and
the remaining input and returns the input left after the record body, or none when it throws;
recordPost gets the record, the record sequence and the skinning flag and returns the new flag, or
none when it throws. -/
structure Env where
  VER_MW : Nat
  VER_OB_OLD : Nat
  VER_OB : Nat
  VER_BGS : Nat
  getHash : String → Bytes → List Nat
  recordRead : Record → Nat → Nat → Nat → List String → Bytes → Option Bytes
  recordPost : Record → List (Option Record) → Bool → Option Bool

/-- Either parse returned, or it threw; both keep the state reached. -/
inductive Outcome where
  | done (r : Reader)
  | thrown (e : NifError) (r : Reader)
  deriving DecidableEq, Repr

/-- Sequencing of statements: an exception skips everything after it. -/
def Outcome.andThen (o : Outcome) (f : Reader → Outcome) : Outcome :=
  match o with
  | .done r => f r
  | .thrown e r => .thrown e r

/-- The state in which the outcome ended. -/
def Outcome.state : Outcome → Reader
  | .done r => r
  | .thrown _ r => r

/-- The exception, if one was thrown. -/
def Outcome.error : Outcome → Option NifError
  | .done _ => none
  | .thrown e _ => some e

/-- A read from the stream followed by the rest of the statement sequence: a short read throws, a
successful one advances the input. -/
def consume {α : Type} (get : Bytes → Option (α × Bytes)) (k : α → Reader → Outcome)
    (r : Reader) : Outcome :=
  match get r.nif with
  | none => .thrown .truncatedStream r
  | some (x, rest) => k x { r with nif := rest }

/-- The std::vector member resize: keep the first n elements, pad with the default value. -/
def resize {α : Type} (l : List α) (n : Nat) (fill : α) : List α :=
  l.take n ++ List.replicate (n - l.length) fill

/-! ## Reader -/

namespace Reader

/-- Reader::versionToString (niffile.cpp:318-328). -/
def versionToString (version : Nat) : String :=
  let major := (version >>> 24) &&& 0xFF
  let minor := (version >>> 16) &&& 0xFF
  let patch := (version >>> 8) &&& 0xFF
  let rev := version &&& 0xFF
  toString major ++ "." ++ toString minor ++ "." ++ toString patch ++ "." ++ toString rev

/-- Reader::getString (niffile.cpp:533-538); none is the std::out_of_range thrown by vector::at. -/
def getString (mStrings : List String) (index : Nat) : Option String :=
  if index = 4294967295 then some "" else mStrings[index]?

/-- The two banners of niffile.cpp:339-342. -/
def verStrings : List String :=
  ["NetImmerse File Format", "Gamebryo File Format"]

/-- The test supportedHeader of niffile.cpp:343-344. -/
def supportedHeader (head : String) : Bool :=
  verStrings.any (fun verString => startsWith head verString)

/-- The array supportedVers of niffile.cpp:352-355. -/
def supportedVers (K : Env) : List Nat :=
  [generateVersion 4 0 0 0, K.VER_MW]

/-- The test supportedVersion of niffile.cpp:356-357. -/
def supportedVersion (K : Env) (version : Nat) : Bool :=
  (supportedVers K).contains version

/-- The capability flags of niffile.cpp:368-376. -/
def hasEndianness (version : Nat) : Bool := decide (version ≥ generateVersion 20 0 0 4)

def hasUserVersion (version : Nat) : Bool := decide (version ≥ generateVersion 10 0 1 8)

def hasRecTypeListings (version : Nat) : Bool := decide (version ≥ generateVersion 5 0 0 1)

def hasRecTypeHashes (version : Nat) : Bool := decide (version = generateVersion 20 3 1 2)

def hasRecordSizes (version : Nat) : Bool := decide (version ≥ generateVersion 20 2 0 5)

def hasGroups (version : Nat) : Bool := decide (version ≥ generateVersion 5 0 0 6)

def hasStringTable (version : Nat) : Bool := decide (version ≥ generateVersion 20 1 0 1)

def hasRecordSeparators (version : Nat) : Bool :=
  decide (version ≥ generateVersion 10 0 0 0) && decide (version < generateVersion 10 2 0 0)

/-- The flag hasBSStreamHeader of niffile.cpp:400-407. -/
def hasBSStreamHeader (K : Env) (version userVersion : Nat) : Bool :=
  if version = K.VER_OB_OLD then true
  else if userVersion ≥ 3 ∧ version ≥ generateVersion 10 1 0 0 then
    if version ≤ K.VER_OB ∨ version = K.VER_BGS then
      decide (userVersion ≤ 11 ∨ version ≥ K.VER_OB)
    else false
  else false

/-- Lines 332-346: the file hash is appended, the header line is read and checked. -/
def readHeader (K : Env) (r : Reader) : Outcome :=
  let r := { r with mHash := r.mHash ++ K.getHash r.mFilename r.nif }
  let head := getVersionString r.nif
  let r := { r with nif := head.2 }
  if supportedHeader head.1 then .done r
  else .thrown (.invalidHeader head.1) r

/-- Lines 348-366: the packed version is read into mVersion and checked against supportedVers. -/
def readVersion (K : Env) (sLoadUnsupportedFiles writeDebugLog : Bool) (r : Reader) : Outcome :=
  consume getU32 (fun version r =>
    let r := { r with mVersion := version }
    if supportedVersion K r.mVersion then .done r
    else if !sLoadUnsupportedFiles then
      .thrown (.unsupportedVersion (versionToString r.mVersion)) r
    else if writeDebugLog then
      .done { r with log := r.log ++ [LogLine.unsupportedVersion (versionToString r.mVersion)] }
    else .done r) r

/-- Lines 383-391: the endianness byte, 1 unless the version has one. -/
def readEndianness (r : Reader) : Outcome :=
  consume (fun s => if hasEndianness r.mVersion then getU8 s else some (1, s)) (fun endianness r =>
    if endianness = 0 then .thrown .bigEndian r else .done r) r

/-- Lines 393-394. -/
def readUserVersion (r : Reader) : Outcome :=
  if hasUserVersion r.mVersion then
    consume getU32 (fun userVersion r => .done { r with mUserVersion := userVersion }) r
  else .done r

/-- Line 396: mRecords.resize(nif.get of a 32-bit count). -/
def readRecordCount (r : Reader) : Outcome :=
  consume getU32 (fun count r => .done { r with mRecords := resize r.mRecords count none }) r

/-- Lines 398-421: the Bethesda stream header; the strings are read and dropped. -/
def readBSStreamHeader (K : Env) (r : Reader) : Outcome :=
  if hasBSStreamHeader K r.mVersion r.mUserVersion then
    consume getU32 (fun bethVersion r =>
      let r := { r with mBethVersion := bethVersion }
      consume getExportString (fun _ r =>
        consume (fun s => if r.mBethVersion ≥ 131 then (getU32 s).map (fun p => ((), p.2))
                          else (getExportString s).map (fun p => ((), p.2))) (fun _ r =>
          consume getExportString (fun _ r =>
            if r.mBethVersion ≥ 103 then consume getExportString (fun _ r => .done r) r
            else .done r) r) r) r) r
  else .done r

/-- Lines 423-433: the record type table and one 16-bit type index per record. -/
def readRecTypes (r : Reader) : Outcome :=
  if hasRecTypeListings r.mVersion then
    if hasRecTypeHashes r.mVersion then .thrown .hashedRecordTypes r
    else
      consume getU16 (fun size r =>
        consume (getSizedStrings size) (fun names r =>
          let r := { r with recTypes := names }
          consume (readVector getU16 r.mRecords.length) (fun indices r =>
            .done { r with recTypeIndices := indices }) r) r) r
  else .done r

/-- Lines 435-439: the record sizes are read and dropped. -/
def readRecordSizes (r : Reader) : Outcome :=
  if hasRecordSizes r.mVersion then
    consume (readVector getU32 r.mRecords.length) (fun _ r => .done r) r
  else .done r

/-- Lines 441-447: the string table. -/
def readStringTable (r : Reader) : Outcome :=
  if hasStringTable r.mVersion then
    consume getU32 (fun stringNum r =>
      consume getU32 (fun _ r =>
        consume (getSizedStrings stringNum) (fun strings r =>
          .done { r with mStrings := strings }) r) r) r
  else .done r

/-- Lines 449-453: the groups are read and dropped. -/
def readGroups (r : Reader) : Outcome :=
  if hasGroups r.mVersion then
    consume getU32 (fun size r => consume (readVector getU32 size) (fun _ r => .done r) r) r
  else .done r

/-- Line 459: the type name of record i with the input left after it, from the type table or inline
(a length-prefixed string: inline names exist only below 5.0.0.1). -/
def recordTypeName (i : Nat) (r : Reader) : Except NifError (String × Bytes) :=
  if hasRecTypeListings r.mVersion then
    match r.recTypeIndices[i]? with
    | none => .error .undefinedBehaviour
    | some t =>
        match r.recTypes[t]? with
        | none => .error .undefinedBehaviour
        | some rec => .ok (rec, r.nif)
  else
    match getSizedString r.nif with
    | none => .error .truncatedStream
    | some (rec, rest) => .ok (rec, rest)

/-- Lines 467-471: the record separator and its warning. -/
def recordSeparator (i : Nat) (rec : String) (k : Reader → Outcome) (r : Reader) : Outcome :=
  if hasRecordSeparators r.mVersion && !startsWith rec "bhk" then
    consume getI32 (fun separator r =>
      let r := { r with calls := r.calls ++ [Call.separator i] }
      if separator ≠ 0 then k { r with log := r.log ++ [LogLine.nonZeroSeparator rec i] }
      else k r) r
  else k r

/-- Lines 457-490: one pass of the record loop, for index i. -/
def readRecord (K : Env) (writeDebugLog : Bool) (i : Nat) (r : Reader) : Outcome :=
  match recordTypeName i r with
  | .error e => .thrown e r
  | .ok (rec, rest) =>
    let r := { r with nif := rest }
    if rec = "" then .thrown (.blankRecordType i) r
    else
      recordSeparator i rec (fun r =>
        let r := { r with calls := r.calls ++ [Call.find i rec] }
        match factories.lookup rec with
        | none => .thrown (.unknownRecordType rec) r
        | some entry =>
            let made := construct entry
            let r :=
              if !supportedVersion K r.mVersion && writeDebugLog then
                { r with log := r.log ++ [LogLine.readingRecord rec i] }
              else r
            let made := { made with recName := rec, recIndex := i }
            let r := { r with calls := r.calls ++ [Call.read i] }
            match K.recordRead made r.mVersion r.mUserVersion r.mBethVersion r.mStrings r.nif with
            | none => .thrown .recordRead r
            | some rest => .done { r with nif := rest, mRecords := r.mRecords.set i (some made) }) r

/-- The loop of line 455, for the n indices from i on; n is mRecords.size() minus i, which no pass
changes. -/
def recordLoop (K : Env) (writeDebugLog : Bool) : Nat → Nat → Reader → Outcome
  | 0, _, r => .done r
  | n + 1, i, r => (readRecord K writeDebugLog i r).andThen (recordLoop K writeDebugLog n (i + 1))

/-- Lines 496-508: one pass of the root loop. A root is kept as the index of the record it points
to, none being nullptr. -/
def readRoot (i : Nat) (r : Reader) : Outcome :=
  consume getI32 (fun idx r =>
    let r := { r with calls := r.calls ++ [Call.root i] }
    if idx ≥ 0 ∧ idx.toNat < r.mRecords.length then
      .done { r with mRoots := r.mRoots.set i (some idx.toNat) }
    else
      .done { r with mRoots := r.mRoots.set i none,
                     log := r.log ++ [LogLine.rootNotRecord (i + 1) idx] }) r

/-- The loop of line 494, for the n indices from i on. -/
def rootLoop : Nat → Nat → Reader → Outcome
  | 0, _, r => .done r
  | n + 1, i, r => (readRoot i r).andThen (rootLoop n (i + 1))

/-- Lines 492-508: the root count and the root loop. -/
def readRoots (r : Reader) : Outcome :=
  consume getU32 (fun count r =>
    let r := { r with mRoots := resize r.mRoots count none }
    rootLoop r.mRoots.length 0 r) r

/-- One pass of the loop of lines 511-512, on the record at position i. -/
def postRecord (K : Env) (i : Nat) (r : Reader) : Outcome :=
  match r.mRecords[i]? with
  | some (some record) =>
      let r := { r with calls := r.calls ++ [Call.post i] }
      match K.recordPost record r.mRecords r.mUseSkinning with
      | none => .thrown .recordPost r
      | some skinning => .done { r with mUseSkinning := skinning }
  | _ => .thrown .undefinedBehaviour r

/-- The loop of lines 511-512, for the n positions from i on. -/
def postLoop (K : Env) : Nat → Nat → Reader → Outcome
  | 0, _, r => .done r
  | n + 1, i, r => (postRecord K i r).andThen (postLoop K n (i + 1))

/-- Lines 330-394: everything parse does before it reads the record count. -/
def decodeHeader (K : Env) (sLoadUnsupportedFiles writeDebugLog : Bool) (r : Reader)
    (stream : Bytes) : Outcome :=
  (readHeader K { r with nif := stream, recTypes := [], recTypeIndices := [] }).andThen fun r =>
  (readVersion K sLoadUnsupportedFiles writeDebugLog r).andThen fun r =>
  (readEndianness r).andThen readUserVersion

/-- Lines 398-453: the optional sections between the record count and the record loop. -/
def decodeSections (K : Env) (r : Reader) : Outcome :=
  (readBSStreamHeader K r).andThen fun r =>
  (readRecTypes r).andThen fun r =>
  (readRecordSizes r).andThen fun r =>
  (readStringTable r).andThen readGroups

/-- Lines 455-490: the record loop over all of mRecords. -/
def decodeRecords (K : Env) (writeDebugLog : Bool) (r : Reader) : Outcome :=
  recordLoop K writeDebugLog r.mRecords.length 0 r

/-- Lines 510-512: the post-processing loop over all of mRecords. -/
def postRecords (K : Env) (r : Reader) : Outcome :=
  postLoop K r.mRecords.length 0 r

/-- Reader::parse (niffile.cpp:330-513), with the two static toggles as arguments. -/
def parse (K : Env) (sLoadUnsupportedFiles writeDebugLog : Bool) (r : Reader)
    (stream : Bytes) : Outcome :=
  (decodeHeader K sLoadUnsupportedFiles writeDebugLog r stream).andThen fun r =>
  (readRecordCount r).andThen fun r =>
  (decodeSections K r).andThen fun r =>
  (decodeRecords K writeDebugLog r).andThen fun r =>
  (readRoots r).andThen (postRecords K)

/-- Lines 330-490: parse up to the end of the record loop. -/
def decodeGraph (K : Env) (sLoadUnsupportedFiles writeDebugLog : Bool) (r : Reader)
    (stream : Bytes) : Outcome :=
  (decodeHeader K sLoadUnsupportedFiles writeDebugLog r stream).andThen fun r =>
  (readRecordCount r).andThen fun r =>
  (decodeSections K r).andThen (decodeRecords K writeDebugLog)

/-- Lines 330-490, stopped when the record loop is about to start its pass for index i. -/
def decodeUpTo (K : Env) (sLoadUnsupportedFiles writeDebugLog : Bool) (r : Reader)
    (stream : Bytes) (i : Nat) : Outcome :=
  (decodeHeader K sLoadUnsupportedFiles writeDebugLog r stream).andThen fun r =>
  (readRecordCount r).andThen fun r =>
  (decodeSections K r).andThen (recordLoop K writeDebugLog i 0)

/-- Lines 393-513: what parse does once the endianness check has passed. -/
def afterEndianness (K : Env) (writeDebugLog : Bool) (r : Reader) : Outcome :=
  (readUserVersion r).andThen fun r =>
  (readRecordCount r).andThen fun r =>
  (decodeSections K r).andThen fun r =>
  (decodeRecords K writeDebugLog r).andThen fun r =>
  (readRoots r).andThen (postRecords K)

/-- Lines 368-513: what parse does once the version check has passed. -/
def afterVersion (K : Env) (writeDebugLog : Bool) (r : Reader) : Outcome :=
  (readEndianness r).andThen (afterEndianness K writeDebugLog)

/-- The root entry stored for a root index idx read from the file, against n records
(lines 498-507). -/
def rootEntry (n : Nat) (idx : Int) : Option Nat :=
  if idx ≥ 0 ∧ idx.toNat < n then some idx.toNat else none

end Reader

/-! ## A concrete environment and inputs -/

/-- Modelled from the spec: niffile.hpp is not among the sources. The version constants are the
"Morrowind" format 4.0.0.2 named in the comments of makeFactory, 10.0.1.2, 20.0.0.5 and 20.2.0.7;
the hash is left empty, every record body is empty and no post hook changes the skinning flag. -/
def plainEnv : Env :=
  Env.mk (generateVersion 4 0 0 2) (generateVersion 10 0 1 2) (generateVersion 20 0 0 5)
    (generateVersion 20 2 0 7) (fun _ _ => []) (fun _ _ _ _ _ s => some s) (fun _ _ b => some b)

/-- A freshly constructed NIFFile with its Reader: every counter zero, every container empty. -/
def freshReader : Reader :=
  Reader.mk 0 0 0 "" [] [] [] false [] [] [] [] [] []

/-- The bytes of a text. -/
def bytesOf (t : String) : Bytes :=
  t.data.map Char.toNat

/-- The four little-endian bytes of a 32-bit value. -/
def le32 (v : Nat) : Bytes :=
  [v % 256, v / 256 % 256, v / 65536 % 256, v / 16777216 % 256]

/-- The two little-endian bytes of a 16-bit value. -/
def le16 (v : Nat) : Bytes :=
  [v % 256, v / 256 % 256]

/-- A text with its 32-bit length in front. -/
def sized (t : String) : Bytes :=
  le32 t.length ++ bytesOf t

/-- A 4.0.0.2 file: the banner line, the version, the record count, the records (inline type
names, empty bodies), the root count and the root indices. -/
def morrowindFile (names : List String) (roots : List Nat) : Bytes :=
  bytesOf "NetImmerse File Format, Version 4.0.0.2" ++ [10] ++ le32 (generateVersion 4 0 0 2)
    ++ le32 names.length ++ (names.map sized).flatten
    ++ le32 roots.length ++ (roots.map le32).flatten

/-- A 10.0.1.0 file (type table, groups, record separators): one NiNode preceded by the separator
7, and one root entry with index 5. -/
def separatorFile : Bytes :=
  bytesOf "Gamebryo File Format, Version 10.0.1.0" ++ [10] ++ le32 (generateVersion 10 0 1 0)
    ++ le32 1 ++ le16 1 ++ sized "NiNode" ++ le16 0 ++ le32 0
    ++ le32 7 ++ le32 1 ++ le32 5

/-- A 4.0.0.2 file of three records whose root indices are 0, 3 (the record count) and 2. -/
def rootsFile : Bytes :=
  morrowindFile ["NiNode", "NiCamera", "NiNode"] [0, 3, 2]

/-- A 4.0.0.2 file of two records, the second with an empty type name. -/
def blankFile : Bytes :=
  morrowindFile ["NiNode", ""] []

/-- A 4.0.0.2 file whose sole record has the type name NotARealRecordType. -/
def unknownFile : Bytes :=
  morrowindFile ["NotARealRecordType"] []

/-- A 4.0.0.2 file of two records, the second with the type name NotARealRecordType. -/
def unknownSecondFile : Bytes :=
  morrowindFile ["NiNode", "NotARealRecordType"] []

/-- A 20.0.0.4 file cut after its endianness byte, which is 0 (big endian). -/
def bigEndianFile : Bytes :=
  bytesOf "Gamebryo File Format, Version 20.0.0.4" ++ [10] ++ le32 (generateVersion 20 0 0 4)
    ++ [0]

/-- The calls that are record hooks. -/
def Call.isHook : Call → Bool
  | .read _ => true
  | .post _ => true
  | _ => false

/-! ## Frames: which fields a group of statements can write -/

/-- The fields written by the statements before the record count (lines 330-394). -/
def Reader.headerFrame (r r1 : Reader) : Prop :=
  ∃ hash nif version log userVersion recTypes recTypeIndices,
    r1 = { r with mHash := hash, nif := nif, mVersion := version, log := log,
                  mUserVersion := userVersion, recTypes := recTypes,
                  recTypeIndices := recTypeIndices }

/-- The fields written by the optional sections (lines 398-453). -/
def Reader.sectionFrame (r r1 : Reader) : Prop :=
  ∃ bethVersion nif recTypes recTypeIndices strings,
    r1 = { r with mBethVersion := bethVersion, nif := nif, recTypes := recTypes,
                  recTypeIndices := recTypeIndices, mStrings := strings }

/-- The fields written by the record loop (lines 455-490); the record sequence keeps its size. -/
def Reader.recordFrame (r r1 : Reader) : Prop :=
  ∃ nif calls log records,
    r1 = { r with nif := nif, calls := calls, log := log, mRecords := records } ∧
      records.length = r.mRecords.length

/-- The fields written by the root loop (lines 494-508); the root list keeps its size. -/
def Reader.rootFrame (r r1 : Reader) : Prop :=
  ∃ nif calls log roots,
    r1 = { r with nif := nif, calls := calls, log := log, mRoots := roots } ∧
      roots.length = r.mRoots.length

/-- The fields written by the post-processing loop (lines 510-512). -/
def Reader.postFrame (r r1 : Reader) : Prop :=
  ∃ calls skinning, r1 = { r with calls := calls, mUseSkinning := skinning }


/-- The fields written between the version check and the record type table: the endianness byte, the
user version, the record count and the Bethesda stream header (lines 383-421). -/
def Reader.earlyFrame (r r1 : Reader) : Prop :=
  ∃ nif userVersion records bethVersion,
    r1 = { r with nif := nif, mUserVersion := userVersion, mRecords := records,
                  mBethVersion := bethVersion }

/-- The fields written by the record type table, the record sizes, the string table and the groups
(lines 423-453). -/
def Reader.tableFrame (r r1 : Reader) : Prop :=
  ∃ nif recTypes recTypeIndices strings,
    r1 = { r with nif := nif, recTypes := recTypes, recTypeIndices := recTypeIndices,
                  mStrings := strings }

/-- The fields written by anything after the Bethesda stream header (lines 423-513). -/
def Reader.lateFrame (r r1 : Reader) : Prop :=
  ∃ nif recTypes recTypeIndices strings calls log records roots skinning,
    r1 = { r with nif := nif, recTypes := recTypes, recTypeIndices := recTypeIndices,
                  mStrings := strings, calls := calls, log := log, mRecords := records,
                  mRoots := roots, mUseSkinning := skinning }

/-- Nothing but the input has moved. -/
def Reader.inputFrame (r r1 : Reader) : Prop :=
  ∃ nif, r1 = { r with nif := nif }

/-! ## Parse split around one section -/

namespace Reader

/-- Lines 330-396: parse up to and including the record count. -/
def decodeToSections (K : Env) (sLoadUnsupportedFiles writeDebugLog : Bool) (r : Reader)
    (stream : Bytes) : Outcome :=
  (decodeHeader K sLoadUnsupportedFiles writeDebugLog r stream).andThen readRecordCount

/-- Lines 330-421: parse up to and including the Bethesda stream header. -/
def decodeToRecTypes (K : Env) (sLoadUnsupportedFiles writeDebugLog : Bool) (r : Reader)
    (stream : Bytes) : Outcome :=
  (decodeToSections K sLoadUnsupportedFiles writeDebugLog r stream).andThen
    (readBSStreamHeader K)

/-- Lines 330-439: parse up to and including the record sizes. -/
def decodeToStringTable (K : Env) (sLoadUnsupportedFiles writeDebugLog : Bool) (r : Reader)
    (stream : Bytes) : Outcome :=
  (decodeToRecTypes K sLoadUnsupportedFiles writeDebugLog r stream).andThen fun r =>
  (readRecTypes r).andThen readRecordSizes

/-- Lines 449-513: what parse does after the string table. -/
def afterStringTable (K : Env) (writeDebugLog : Bool) (r : Reader) : Outcome :=
  (readGroups r).andThen fun r =>
  (decodeRecords K writeDebugLog r).andThen fun r =>
  (readRoots r).andThen (postRecords K)

/-- Lines 435-513: what parse does after the record type table. -/
def afterRecTypes (K : Env) (writeDebugLog : Bool) (r : Reader) : Outcome :=
  (readRecordSizes r).andThen fun r =>
  (readStringTable r).andThen (afterStringTable K writeDebugLog)

/-- Lines 423-513: what parse does after the Bethesda stream header. -/
def afterBSStreamHeader (K : Env) (writeDebugLog : Bool) (r : Reader) : Outcome :=
  (readRecTypes r).andThen (afterRecTypes K writeDebugLog)

end Reader

/-- A 20.2.0.7 file with user version 12, no records and no roots: it has a Bethesda stream header
(Bethesda version 100, three empty export strings), an empty type table and an empty string
table. -/
def bethesdaFile : Bytes :=
  bytesOf "Gamebryo File Format, Version 20.2.0.7" ++ [10] ++ le32 (generateVersion 20 2 0 7)
    ++ [1] ++ le32 12 ++ le32 0
    ++ le32 100 ++ [0] ++ [0] ++ [0]
    ++ le16 0 ++ le32 0 ++ le32 0 ++ le32 0 ++ le32 0

/-- A file of the given packed version (between 20.0.0.5 and 20.2.0.4) with user version 0, no
records, an empty type table, no groups and no roots; pool is what stands where the string table
would be. -/
def stringGateFile (version : Nat) (pool : Bytes) : Bytes :=
  bytesOf "Gamebryo File Format" ++ [10] ++ le32 version ++ [1] ++ le32 0 ++ le32 0
    ++ le16 0 ++ pool ++ le32 0 ++ le32 0

/-- The bytes of the string table holding foo and bar: the count 2, the maximal length 3, the two
strings. -/
def fooBarPool : Bytes :=
  le32 2 ++ le32 3 ++ sized "foo" ++ sized "bar"

/-! ## Outcomes up to the log -/

/-- The reader with its log output dropped. -/
def Reader.eraseLog (r : Reader) : Reader :=
  { r with log := [] }

/-- The outcome with the log output of its state dropped. -/
def Outcome.eraseLog : Outcome → Outcome
  | .done r => .done r.eraseLog
  | .thrown e r => .thrown e r.eraseLog

/-- A statement sequence that never reads the log: started with another log it ends in the same
outcome up to the log. -/
def LogBlind (f : Reader → Outcome) : Prop :=
  ∀ (r : Reader) (log : List LogLine), (f { r with log := log }).eraseLog = (f r).eraseLog

/-- Lines 455-513: what parse does from the pass of the record loop for index i on, n passes being
left. -/
def Reader.decodeFrom (K : Env) (writeDebugLog : Bool) (n i : Nat) (r : Reader) : Outcome :=
  (Reader.recordLoop K writeDebugLog n i r).andThen fun r =>
  (Reader.readRoots r).andThen (Reader.postRecords K)

/-- Lines 473-489: what a pass of the record loop does after the separator, for the type name rec:
the registry lookup, the construction, the read hook and the store. -/
def Reader.storeRecord (K : Env) (writeDebugLog : Bool) (i : Nat) (rec : String) (r : Reader) :
    Outcome :=
  let r := { r with calls := r.calls ++ [Call.find i rec] }
  match factories.lookup rec with
  | none => .thrown (.unknownRecordType rec) r
  | some entry =>
      let made := construct entry
      let r :=
        if !Reader.supportedVersion K r.mVersion && writeDebugLog then
          { r with log := r.log ++ [LogLine.readingRecord rec i] }
        else r
      let made := { made with recName := rec, recIndex := i }
      let r := { r with calls := r.calls ++ [Call.read i] }
      match K.recordRead made r.mVersion r.mUserVersion r.mBethVersion r.mStrings r.nif with
      | none => .thrown .recordRead r
      | some rest => .done { r with nif := rest, mRecords := r.mRecords.set i (some made) }

/-- The file separatorFile with the separator of its record replaced by v. -/
def separatorFileWith (v : Nat) : Bytes :=
  bytesOf "Gamebryo File Format, Version 10.0.1.0" ++ [10] ++ le32 (generateVersion 10 0 1 0)
    ++ le32 1 ++ le16 1 ++ sized "NiNode" ++ le16 0 ++ le32 0
    ++ le32 v ++ le32 1 ++ le32 5

/-- A 20.3.1.2 file cut after its record count: endianness byte 1, user version 12, three records
declared. -/
def hashedFile : Bytes :=
  bytesOf "Gamebryo File Format, Version 20.3.1.2" ++ [10] ++ le32 (generateVersion 20 3 1 2)
    ++ [1] ++ le32 12 ++ le32 3

/-! ## Collision objects (components/nif/physics.hpp) -/

/-- Modelled from the spec: RecordPtrT (recordptr.hpp) is not among the sources. A reference holds
the index read from the file and, once resolved, a link into the record sequence; a link is a
validated index, none meaning no link. -/
structure RecordPtr where
  index : Int
  link : Option Nat
  deriving DecidableEq, Repr

/-- Modelled from the spec: post on a reference resolves "pointer to record at index i" into a
checked link, an index i being valid iff 0 <= i < N; it is a function of the index and the record
set alone. -/
def RecordPtr.post (nif : Reader) (p : RecordPtr) : RecordPtr :=
  { p with link := if 0 ≤ p.index ∧ p.index.toNat < nif.mRecords.length then some p.index.toNat
                   else none }

/-- NiCollisionObject (physics.hpp:374-381): the node that references this object. -/
structure NiCollisionObject where
  mTarget : RecordPtr
  deriving DecidableEq, Repr

/-- NiCollisionObject::post (physics.hpp:380). -/
def NiCollisionObject.post (nif : Reader) (o : NiCollisionObject) : NiCollisionObject :=
  { o with mTarget := o.mTarget.post nif }

/-- The Havok collision object of physics.hpp:384-395, derived from NiCollisionObject. -/
structure bhkCollisionObject extends NiCollisionObject where
  mFlags : Nat
  mBody : RecordPtr
  deriving DecidableEq, Repr

/-- The member bhkCollisionObject::post (physics.hpp:390-394): the base post, then the body. -/
def bhkCollisionObject.post (nif : Reader) (o : bhkCollisionObject) : bhkCollisionObject :=
  let o := { o with toNiCollisionObject := o.toNiCollisionObject.post nif }
  { o with mBody := o.mBody.post nif }

/-- The vendor node names of makeFactory lines 70-78 that share the discriminant of NiNode. -/
def vendorNodeNames : List String :=
  ["BSBlastNode", "BSDamageStage", "BSFadeNode", "BSLeafAnimNode", "BSMultiBoundNode",
    "BSOrderedNode", "BSRangeNode", "BSTreeNode", "BSValueNode"]

/-- A 4.0.0.2 file whose sole record has the vendor type name BSFadeNode. -/
def fadeNodeFile : Bytes :=
  morrowindFile ["BSFadeNode"] []

/-! ## The textual form of a version -/

/-- The character of a decimal digit d. -/
def decimalDigit (d : Nat) : Char :=
  Char.ofNat (48 + d)

/-- The decimal rendering of a byte as the claim words it: no padding and no leading zeros, so one
digit below 10, two below 100 and three from 100 on. -/
def decimalOfByte (b : Nat) : String :=
  if b < 10 then String.mk [decimalDigit b]
  else if b < 100 then String.mk [decimalDigit (b / 10), decimalDigit (b % 10)]
  else String.mk [decimalDigit (b / 100), decimalDigit (b / 10 % 10), decimalDigit (b % 10)]

/-- The number a decimal rendering stands for: the digits read from the left, each character taken
as its distance from the character 0. -/
def byteOfDecimal (s : String) : Nat :=
  s.data.foldl (fun acc c => acc * 10 + (c.toNat - 48)) 0

/-! ## Inputs with a record type table -/

/-- A 10.0.1.0 file whose type table holds the single name NiNode while the type index of its sole
record is 5; no groups, separator 0, no roots. -/
def tableIndexFile : Bytes :=
  bytesOf "Gamebryo File Format, Version 10.0.1.0" ++ [10] ++ le32 (generateVersion 10 0 1 0)
    ++ le32 1 ++ le16 1 ++ sized "NiNode" ++ le16 5 ++ le32 0
    ++ le32 0 ++ le32 0

/-- The Bethesda stream header of Bethesda version 100 with three empty export strings. -/
def bethesdaHeader : Bytes :=
  le32 100 ++ [0] ++ [0] ++ [0]

/-- What follows the Bethesda stream header in bethesdaNodeFile: the type table with the single name
NiNode and the type index 0, one record size, an empty string table, no groups, the record (its
body is empty) and no roots. -/
def bethesdaNodeTail : Bytes :=
  le16 1 ++ sized "NiNode" ++ le16 0 ++ le32 0 ++ le32 0 ++ le32 0 ++ le32 0 ++ le32 0

/-- A 20.2.0.7 file with user version 12 and one NiNode record: the record count 1 stands between
the user version and the Bethesda stream header. -/
def bethesdaNodeFile : Bytes :=
  bytesOf "Gamebryo File Format, Version 20.2.0.7" ++ [10] ++ le32 (generateVersion 20 2 0 7)
    ++ [1] ++ le32 12 ++ le32 1 ++ bethesdaHeader ++ bethesdaNodeTail

/-! ## The strict layout -/

namespace Reader

/-- One record of the layout the claim words for strict mode: an inline type name, then the record
made for that name. -/
def strictRecord (K : Env) (writeDebugLog : Bool) (i : Nat) (r : Reader) : Outcome :=
  match getSizedString r.nif with
  | none => .thrown .truncatedStream r
  | some (name, rest) =>
      if name = "" then .thrown (.blankRecordType i) { r with nif := rest }
      else storeRecord K writeDebugLog i name { r with nif := rest }

/-- The n records of the strict layout from index i on. -/
def strictLoop (K : Env) (writeDebugLog : Bool) : Nat → Nat → Reader → Outcome
  | 0, _, r => .done r
  | n + 1, i, r =>
      (strictRecord K writeDebugLog i r).andThen (strictLoop K writeDebugLog n (i + 1))

/-- The layout the claim words for strict mode, after the packed version: the 32-bit record count,
the records each starting with an inline type name, the 32-bit root count and the root indices;
the post-processing pass follows. -/
def strictBody (K : Env) (writeDebugLog : Bool) (r : Reader) : Outcome :=
  (readRecordCount r).andThen fun r =>
  (strictLoop K writeDebugLog r.mRecords.length 0 r).andThen fun r =>
  (readRoots r).andThen (postRecords K)

/-- The layout the claim words for strict mode: the banner line, the packed version (checked with
the permissive-load toggle off), then strictBody. -/
def strictLayout (K : Env) (writeDebugLog : Bool) (r : Reader) (stream : Bytes) : Outcome :=
  (readHeader K { r with nif := stream, recTypes := [], recTypeIndices := [] }).andThen fun r =>
  (readVersion K false writeDebugLog r).andThen (strictBody K writeDebugLog)

end Reader

/-- Two statement sequences that end in the same outcome up to the log, from every state. -/
def SameUpToLog (f g : Reader → Outcome) : Prop :=
  ∀ r : Reader, (f r).eraseLog = (g r).eraseLog

end Nif

/-! The Player of apps/openmw/mwworld/player.cpp: the crime ids, the forward movement and the
previous-item map. -/

namespace MWWorld

/-- A float value, taken as the number it stands for; no arithmetic is done on these values here,
they are stored, compared and converted. -/
abbrev CFloat := ℚ

/-- The conversion of a float to int: the fraction is dropped (rounding toward zero). A value outside
the range of int has no defined result in C++ and is not told apart here. -/
def toInt (x : CFloat) : Int :=
  Int.tdiv x.num x.den

/-- The conversion of an int to float; exact for the small values written here. -/
def ofInt (n : Int) : CFloat :=
  n

/-- The movement settings reached through ptr.getClass().getMovementSettings(ptr), as far as
player.cpp writes them: the array mPosition, of which setLeftRight writes entry 0 and setAutoMove
and setForwardBackward write entry 1. The class is declared outside player.cpp; its array is taken
with three entries. -/
structure Movement where
  mPosition : Fin 3 → CFloat

/-- The std::map from bound item to previous item: a list of key-value pairs with no key twice. -/
abbrev ItemMap := List (String × String)

/-- The member std::map::erase by key. -/
def ItemMap.erase (m : ItemMap) (k : String) : ItemMap :=
  m.filter (fun p => p.1 != k)

/-- The statement m[k] = v: the entry of k is created if missing and then assigned. -/
def ItemMap.assign (m : ItemMap) (k v : String) : ItemMap :=
  (k, v) :: m.erase k

/-- The expression m[k] read as a value: the mapped string, and the map afterwards; a missing key
is inserted with an empty string, which is then the value. -/
def ItemMap.subscript (m : ItemMap) (k : String) : String × ItemMap :=
  match m.lookup k with
  | some v => (v, m)
  | none => ("", (k, "") :: m)

/-- The members of Player that setAutoMove, setForwardBackward, the crime id functions, the
previous-item functions and clear work on (player.cpp:38-48). mForwardBackward holds the value
assigned at line 195; its declared type is in player.hpp, and the conversion to int is taken where
player.cpp shows it, at line 177. The cell store, the sign, the marked position and the saved
skills and attributes are left out. -/
structure Player where
  mAutoMove : Bool
  mForwardBackward : CFloat
  mTeleported : Bool
  mCurrentCrimeId : Int
  mPaidCrimeId : Int
  mJumping : Bool
  mPreviousItems : ItemMap
  deriving DecidableEq, Repr

namespace Player

/-- The constructor (player.cpp:38-58): the initialiser list; the map is default-constructed. -/
def new : Player :=
  Player.mk false 0 false (-1) (-1) false []

/-- Player::setAutoMove (player.cpp:171-183) on the player and the movement settings of its Ptr. -/
def setAutoMove (enable : Bool) (p : Player) (m : Movement) : Player × Movement :=
  let p := { p with mAutoMove := enable }
  let value : Int := toInt p.mForwardBackward
  let value := if p.mAutoMove then 1 else value
  (p, { m with mPosition := Function.update m.mPosition 1 (ofInt value) })

/-- Player::setForwardBackward (player.cpp:191-201). -/
def setForwardBackward (value : CFloat) (p : Player) (m : Movement) : Player × Movement :=
  let p := { p with mForwardBackward := value }
  let value := if p.mAutoMove then 1 else value
  (p, { m with mPosition := Function.update m.mPosition 1 value })

/-- Player::clear (player.cpp:313-336), on the members kept here. -/
def clear (p : Player) : Player :=
  { p with mAutoMove := false, mForwardBackward := 0, mTeleported := false, mJumping := false,
           mCurrentCrimeId := -1, mPaidCrimeId := -1, mPreviousItems := [] }

/-- Player::getNewCrimeId (player.cpp:489-492): the pre-increment of a 32-bit signed int and its new
value; none is the increment of the largest int, which has no defined result. -/
def getNewCrimeId (p : Player) : Option (Int × Player) :=
  if p.mCurrentCrimeId < 2147483647 then
    some (p.mCurrentCrimeId + 1, { p with mCurrentCrimeId := p.mCurrentCrimeId + 1 })
  else none

/-- Player::recordCrimeId (player.cpp:494-497). -/
def recordCrimeId (p : Player) : Player :=
  { p with mPaidCrimeId := p.mCurrentCrimeId }

/-- Player::getCrimeId (player.cpp:499-502). -/
def getCrimeId (p : Player) : Int :=
  p.mPaidCrimeId

/-- Player::setPreviousItem (player.cpp:504-507). -/
def setPreviousItem (boundItemId previousItemId : String) (p : Player) : Player :=
  { p with mPreviousItems := p.mPreviousItems.assign boundItemId previousItemId }

/-- Player::getPreviousItem (player.cpp:509-512): not a const member, the subscript may insert. -/
def getPreviousItem (boundItemId : String) (p : Player) : String × Player :=
  let found := p.mPreviousItems.subscript boundItemId
  (found.1, { p with mPreviousItems := found.2 })

/-- Player::erasePreviousItem (player.cpp:514-517). -/
def erasePreviousItem (boundItemId : String) (p : Player) : Player :=
  { p with mPreviousItems := p.mPreviousItems.erase boundItemId }

end Player

/-- A call of one of the two crime id functions that change the Player. -/
inductive CrimeCall where
  | getNewCrimeId
  | recordCrimeId
  deriving DecidableEq, Repr

/-- A sequence of crime id calls made in order: the ids returned by the calls of getNewCrimeId, in
order, and the Player left; none when an increment has no defined result. -/
def crimeCalls : List CrimeCall → Player → Option (List Int × Player)
  | [], p => some ([], p)
  | .getNewCrimeId :: calls, p =>
      match p.getNewCrimeId with
      | none => none
      | some (id, p) =>
          match crimeCalls calls p with
          | none => none
          | some (ids, p) => some (id :: ids, p)
  | .recordCrimeId :: calls, p => crimeCalls calls p.recordCrimeId

/-- A call of one of the functions that touch the previous-item map. -/
inductive ItemCall where
  | setPreviousItem (boundItemId previousItemId : String)
  | getPreviousItem (boundItemId : String)
  | erasePreviousItem (boundItemId : String)
  | clear
  deriving DecidableEq, Repr

/-- The Player after one call. -/
def ItemCall.run : ItemCall → Player → Player
  | .setPreviousItem k v, p => p.setPreviousItem k v
  | .getPreviousItem k, p => (p.getPreviousItem k).2
  | .erasePreviousItem k, p => p.erasePreviousItem k
  | .clear, p => p.clear

/-- The Player after a sequence of calls made in order. -/
def itemCalls (calls : List ItemCall) (p : Player) : Player :=
  calls.foldl (fun p c => c.run p) p

/-- The calls that set the previous item of the key k. -/
def ItemCall.sets (k : String) : ItemCall → Bool
  | .setPreviousItem key _ => key == k
  | _ => false

/-- A call of one of the two functions that write the forward movement. -/
inductive MoveCall where
  | setForwardBackward (value : CFloat)
  | setAutoMove (enable : Bool)

/-- The Player and the movement settings after one call. -/
def MoveCall.run : MoveCall → Player × Movement → Player × Movement
  | .setForwardBackward value, s => s.1.setForwardBackward value s.2
  | .setAutoMove enable, s => s.1.setAutoMove enable s.2

/-- The Player and the movement settings after a sequence of calls made in order. -/
def moveCalls (calls : List MoveCall) (s : Player × Movement) : Player × Movement :=
  calls.foldl (fun s c => c.run s) s

end MWWorld

namespace Nif

open RecordType
/-! ## Sequencing -/

namespace Outcome

@[simp] theorem andThen_done (r : Reader) (f : Reader → Outcome) :
    (Outcome.done r).andThen f = f r := rfl

@[simp] theorem andThen_thrown (e : NifError) (r : Reader) (f : Reader → Outcome) :
    (Outcome.thrown e r).andThen f = .thrown e r := rfl

@[simp] theorem state_done (r : Reader) : (Outcome.done r).state = r := rfl

@[simp] theorem state_thrown (e : NifError) (r : Reader) : (Outcome.thrown e r).state = r := rfl

@[simp] theorem error_done (r : Reader) : (Outcome.done r).error = none := rfl

@[simp] theorem error_thrown (e : NifError) (r : Reader) :
    (Outcome.thrown e r).error = some e := rfl

theorem andThen_assoc (o : Outcome) (f g : Reader → Outcome) :
    (o.andThen f).andThen g = o.andThen (fun r => (f r).andThen g) := by
  cases o <;> rfl

theorem andThen_eq_done {o : Outcome} {f : Reader → Outcome} {x : Reader} :
    o.andThen f = .done x ↔ ∃ r, o = .done r ∧ f r = .done x := by
  cases o with
  | done r => simp
  | thrown e r => simp

theorem andThen_eq_thrown {o : Outcome} {f : Reader → Outcome} {e : NifError} {s : Reader} :
    o.andThen f = .thrown e s ↔ o = .thrown e s ∨ ∃ r, o = .done r ∧ f r = .thrown e s := by
  cases o with
  | done r => simp
  | thrown e1 r => simp

theorem eq_done_or_thrown (o : Outcome) :
    (∃ r, o = .done r) ∨ (∃ e r, o = .thrown e r) := by
  cases o with
  | done r => exact Or.inl ⟨r, rfl⟩
  | thrown e r => exact Or.inr ⟨e, r, rfl⟩

theorem error_eq_none {o : Outcome} : o.error = none ↔ o = .done o.state := by
  cases o <;> simp

theorem error_andThen {o : Outcome} {f : Reader → Outcome} {e : NifError}
    (h : (o.andThen f).error = some e) :
    o.error = some e ∨ ∃ r, o = .done r ∧ (f r).error = some e := by
  cases o with
  | done r => exact Or.inr ⟨r, rfl, by simpa using h⟩
  | thrown e' r => exact Or.inl (by simpa using h)

end Outcome

theorem consume_cases {α : Type} (get : Bytes → Option (α × Bytes)) (k : α → Reader → Outcome)
    (r : Reader) :
    (get r.nif = none ∧ consume get k r = .thrown .truncatedStream r) ∨
    (∃ x rest, get r.nif = some (x, rest) ∧ consume get k r = k x { r with nif := rest }) := by
  unfold consume
  cases h : get r.nif with
  | none => exact Or.inl ⟨rfl, rfl⟩
  | some p => exact Or.inr ⟨p.1, p.2, rfl, rfl⟩

theorem consume_some {α : Type} {get : Bytes → Option (α × Bytes)} {k : α → Reader → Outcome}
    {r : Reader} {x : α} {rest : Bytes} (h : get r.nif = some (x, rest)) :
    consume get k r = k x { r with nif := rest } := by
  unfold consume
  rw [h]

theorem consume_none {α : Type} {get : Bytes → Option (α × Bytes)} {k : α → Reader → Outcome}
    {r : Reader} (h : get r.nif = none) :
    consume get k r = .thrown .truncatedStream r := by
  unfold consume
  rw [h]

theorem length_resize {α : Type} (l : List α) (n : Nat) (fill : α) :
    (resize l n fill).length = n := by
  unfold resize
  simp only [List.length_append, List.length_take, List.length_replicate]
  omega

namespace Reader

/-! ## The statements before the record loop -/

theorem readHeader_eq (K : Env) (r : Reader) :
    readHeader K r =
      if supportedHeader (getVersionString r.nif).1 then
        .done { r with mHash := r.mHash ++ K.getHash r.mFilename r.nif,
                       nif := (getVersionString r.nif).2 }
      else
        .thrown (.invalidHeader (getVersionString r.nif).1)
          { r with mHash := r.mHash ++ K.getHash r.mFilename r.nif,
                   nif := (getVersionString r.nif).2 } := rfl

theorem headerFrame_refl (r : Reader) : r.headerFrame r :=
  ⟨_, _, _, _, _, _, _, rfl⟩

theorem headerFrame_trans {a b c : Reader} (h1 : a.headerFrame b) (h2 : b.headerFrame c) :
    a.headerFrame c := by
  obtain ⟨_, _, _, _, _, _, _, rfl⟩ := h1
  obtain ⟨_, _, _, _, _, _, _, rfl⟩ := h2
  exact ⟨_, _, _, _, _, _, _, rfl⟩

theorem sectionFrame_refl (r : Reader) : r.sectionFrame r :=
  ⟨_, _, _, _, _, rfl⟩

theorem sectionFrame_trans {a b c : Reader} (h1 : a.sectionFrame b) (h2 : b.sectionFrame c) :
    a.sectionFrame c := by
  obtain ⟨_, _, _, _, _, rfl⟩ := h1
  obtain ⟨_, _, _, _, _, rfl⟩ := h2
  exact ⟨_, _, _, _, _, rfl⟩

theorem recordFrame_refl (r : Reader) : r.recordFrame r :=
  ⟨_, _, _, _, rfl, rfl⟩

theorem recordFrame_trans {a b c : Reader} (h1 : a.recordFrame b) (h2 : b.recordFrame c) :
    a.recordFrame c := by
  obtain ⟨_, _, _, _, rfl, h3⟩ := h1
  obtain ⟨_, _, _, _, rfl, h4⟩ := h2
  exact ⟨_, _, _, _, rfl, h4.trans h3⟩

theorem rootFrame_refl (r : Reader) : r.rootFrame r :=
  ⟨_, _, _, _, rfl, rfl⟩

theorem rootFrame_trans {a b c : Reader} (h1 : a.rootFrame b) (h2 : b.rootFrame c) :
    a.rootFrame c := by
  obtain ⟨_, _, _, _, rfl, h3⟩ := h1
  obtain ⟨_, _, _, _, rfl, h4⟩ := h2
  exact ⟨_, _, _, _, rfl, h4.trans h3⟩

theorem postFrame_refl (r : Reader) : r.postFrame r :=
  ⟨_, _, rfl⟩

theorem postFrame_trans {a b c : Reader} (h1 : a.postFrame b) (h2 : b.postFrame c) :
    a.postFrame c := by
  obtain ⟨_, _, rfl⟩ := h1
  obtain ⟨_, _, rfl⟩ := h2
  exact ⟨_, _, rfl⟩

/-- A frame that is transitive passes through a sequence of statements. -/
theorem frame_andThen (F : Reader → Reader → Prop)
    (trans : ∀ a b c, F a b → F b c → F a c) {o : Outcome} {f : Reader → Outcome} {r : Reader}
    (h1 : F r o.state) (h2 : ∀ r1, F r1 (f r1).state) : F r (o.andThen f).state := by
  cases o with
  | done r1 => exact trans _ _ _ h1 (h2 r1)
  | thrown e r1 => exact h1

/-- A frame passes through a read when it allows the input to advance. -/
theorem frame_consume (F : Reader → Reader → Prop) {α : Type} {get : Bytes → Option (α × Bytes)}
    {k : α → Reader → Outcome} {r : Reader} (h0 : F r r)
    (h1 : ∀ x rest, F r (k x { r with nif := rest }).state) : F r (consume get k r).state := by
  rcases consume_cases get k r with ⟨_, h⟩ | ⟨x, rest, _, h⟩
  · rw [h]; exact h0
  · rw [h]; exact h1 x rest

theorem readHeader_frame (K : Env) (r : Reader) : r.headerFrame (readHeader K r).state := by
  rw [readHeader_eq]
  split <;> exact ⟨_, _, _, _, _, _, _, rfl⟩

theorem readVersion_frame (K : Env) (l d : Bool) (r : Reader) :
    r.headerFrame (readVersion K l d r).state := by
  unfold readVersion
  refine frame_consume headerFrame (headerFrame_refl r) (fun x rest => ?_)
  dsimp only
  split
  · exact ⟨_, _, _, _, _, _, _, rfl⟩
  · split
    · exact ⟨_, _, _, _, _, _, _, rfl⟩
    · split <;> exact ⟨_, _, _, _, _, _, _, rfl⟩

theorem readEndianness_frame (r : Reader) : r.headerFrame (readEndianness r).state := by
  unfold readEndianness
  refine frame_consume headerFrame (headerFrame_refl r) (fun x rest => ?_)
  split <;> exact ⟨_, _, _, _, _, _, _, rfl⟩

theorem readUserVersion_frame (r : Reader) : r.headerFrame (readUserVersion r).state := by
  unfold readUserVersion
  split
  · exact frame_consume headerFrame (headerFrame_refl r) (fun x rest => ⟨_, _, _, _, _, _, _, rfl⟩)
  · exact headerFrame_refl r

theorem decodeHeader_frame (K : Env) (l d : Bool) (r : Reader) (stream : Bytes) :
    r.headerFrame (decodeHeader K l d r stream).state := by
  unfold decodeHeader
  have h0 : r.headerFrame { r with nif := stream, recTypes := [], recTypeIndices := [] } :=
    ⟨_, _, _, _, _, _, _, rfl⟩
  refine headerFrame_trans h0 ?_
  refine frame_andThen headerFrame (fun _ _ _ => headerFrame_trans) (readHeader_frame K _) (fun r1 => ?_)
  refine frame_andThen headerFrame (fun _ _ _ => headerFrame_trans) (readVersion_frame K l d _) (fun r2 => ?_)
  exact frame_andThen headerFrame (fun _ _ _ => headerFrame_trans) (readEndianness_frame _)
    (fun r3 => readUserVersion_frame r3)

theorem readBSStreamHeader_frame (K : Env) (r : Reader) :
    r.sectionFrame (readBSStreamHeader K r).state := by
  unfold readBSStreamHeader
  split
  · refine frame_consume sectionFrame (sectionFrame_refl r) (fun x1 s1 => ?_)
    refine frame_consume sectionFrame ⟨_, _, _, _, _, rfl⟩ (fun x2 s2 => ?_)
    refine frame_consume sectionFrame ⟨_, _, _, _, _, rfl⟩ (fun x3 s3 => ?_)
    refine frame_consume sectionFrame ⟨_, _, _, _, _, rfl⟩ (fun x4 s4 => ?_)
    split
    · exact frame_consume sectionFrame ⟨_, _, _, _, _, rfl⟩ (fun x5 s5 => ⟨_, _, _, _, _, rfl⟩)
    · exact ⟨_, _, _, _, _, rfl⟩
  · exact sectionFrame_refl r

theorem readVersion_error {K : Env} {l d : Bool} {r : Reader} {e : NifError}
    (h : (readVersion K l d r).error = some e) :
    e = .truncatedStream ∨ ∃ v, e = .unsupportedVersion v := by
  unfold readVersion at h
  rcases consume_cases getU32 _ r with ⟨_, h1⟩ | ⟨x, rest, _, h1⟩
  · rw [h1] at h; simp at h; exact Or.inl h.symm
  · rw [h1] at h
    dsimp only at h
    split at h
    · simp at h
    · split at h
      · simp at h; exact Or.inr ⟨_, h.symm⟩
      · split at h <;> simp at h

theorem readRecTypes_frame (r : Reader) : r.sectionFrame (readRecTypes r).state := by
  unfold readRecTypes
  split
  · split
    · exact sectionFrame_refl r
    · refine frame_consume sectionFrame (sectionFrame_refl r) (fun x1 s1 => ?_)
      refine frame_consume sectionFrame ⟨_, _, _, _, _, rfl⟩ (fun x2 s2 => ?_)
      exact frame_consume sectionFrame ⟨_, _, _, _, _, rfl⟩ (fun x3 s3 => ⟨_, _, _, _, _, rfl⟩)
  · exact sectionFrame_refl r

theorem readRecordSizes_frame (r : Reader) : r.sectionFrame (readRecordSizes r).state := by
  unfold readRecordSizes
  split
  · exact frame_consume sectionFrame (sectionFrame_refl r) (fun x1 s1 => ⟨_, _, _, _, _, rfl⟩)
  · exact sectionFrame_refl r

theorem readStringTable_frame (r : Reader) : r.sectionFrame (readStringTable r).state := by
  unfold readStringTable
  split
  · refine frame_consume sectionFrame (sectionFrame_refl r) (fun x1 s1 => ?_)
    refine frame_consume sectionFrame ⟨_, _, _, _, _, rfl⟩ (fun x2 s2 => ?_)
    exact frame_consume sectionFrame ⟨_, _, _, _, _, rfl⟩ (fun x3 s3 => ⟨_, _, _, _, _, rfl⟩)
  · exact sectionFrame_refl r

theorem readGroups_frame (r : Reader) : r.sectionFrame (readGroups r).state := by
  unfold readGroups
  split
  · refine frame_consume sectionFrame (sectionFrame_refl r) (fun x1 s1 => ?_)
    exact frame_consume sectionFrame ⟨_, _, _, _, _, rfl⟩ (fun x3 s3 => ⟨_, _, _, _, _, rfl⟩)
  · exact sectionFrame_refl r

theorem decodeSections_frame (K : Env) (r : Reader) :
    r.sectionFrame (decodeSections K r).state := by
  unfold decodeSections
  refine frame_andThen sectionFrame (fun _ _ _ => sectionFrame_trans)
    (readBSStreamHeader_frame K _) (fun r1 => ?_)
  refine frame_andThen sectionFrame (fun _ _ _ => sectionFrame_trans)
    (readRecTypes_frame _) (fun r2 => ?_)
  refine frame_andThen sectionFrame (fun _ _ _ => sectionFrame_trans)
    (readRecordSizes_frame _) (fun r3 => ?_)
  exact frame_andThen sectionFrame (fun _ _ _ => sectionFrame_trans)
    (readStringTable_frame _) (fun r4 => readGroups_frame r4)

/-- What can be thrown with a read: the short read, or what the rest of the statement throws. -/
theorem error_consume {α : Type} {get : Bytes → Option (α × Bytes)} {k : α → Reader → Outcome}
    {r : Reader} {e : NifError} (h : (consume get k r).error = some e) :
    e = .truncatedStream ∨ ∃ x rest, (k x { r with nif := rest }).error = some e := by
  rcases consume_cases get k r with ⟨_, h1⟩ | ⟨x, rest, _, h1⟩
  · rw [h1] at h; exact Or.inl (by simpa using h.symm)
  · rw [h1] at h; exact Or.inr ⟨x, rest, h⟩

theorem readHeader_error {K : Env} {r : Reader} {e : NifError}
    (h : (readHeader K r).error = some e) :
    e = .invalidHeader (getVersionString r.nif).1 ∧
      supportedHeader (getVersionString r.nif).1 = false := by
  rw [readHeader_eq] at h
  split at h
  · simp at h
  · rename_i hs
    simp at h
    exact ⟨h.symm, by simpa using hs⟩

theorem readEndianness_error {r : Reader} {e : NifError}
    (h : (readEndianness r).error = some e) : e = .truncatedStream ∨ e = .bigEndian := by
  unfold readEndianness at h
  rcases error_consume h with h1 | ⟨x, rest, h1⟩
  · exact Or.inl h1
  · split at h1
    · exact Or.inr (by simpa using h1.symm)
    · simp at h1

theorem readUserVersion_error {r : Reader} {e : NifError}
    (h : (readUserVersion r).error = some e) : e = .truncatedStream := by
  unfold readUserVersion at h
  split at h
  · rcases error_consume h with h1 | ⟨x, rest, h1⟩
    · exact h1
    · simp at h1
  · simp at h

theorem readRecordCount_error {r : Reader} {e : NifError}
    (h : (readRecordCount r).error = some e) : e = .truncatedStream := by
  unfold readRecordCount at h
  rcases error_consume h with h1 | ⟨x, rest, h1⟩
  · exact h1
  · simp at h1

theorem readBSStreamHeader_error {K : Env} {r : Reader} {e : NifError}
    (h : (readBSStreamHeader K r).error = some e) : e = .truncatedStream := by
  unfold readBSStreamHeader at h
  split at h
  · rcases error_consume h with h1 | ⟨x1, s1, h1⟩
    · exact h1
    rcases error_consume h1 with h2 | ⟨x2, s2, h2⟩
    · exact h2
    rcases error_consume h2 with h3 | ⟨x3, s3, h3⟩
    · exact h3
    rcases error_consume h3 with h4 | ⟨x4, s4, h4⟩
    · exact h4
    split at h4
    · rcases error_consume h4 with h5 | ⟨x5, s5, h5⟩
      · exact h5
      · simp at h5
    · simp at h4
  · simp at h

theorem readRecTypes_error {r : Reader} {e : NifError}
    (h : (readRecTypes r).error = some e) : e = .truncatedStream ∨ e = .hashedRecordTypes := by
  unfold readRecTypes at h
  split at h
  · split at h
    · exact Or.inr (by simpa using h.symm)
    · rcases error_consume h with h1 | ⟨x1, s1, h1⟩
      · exact Or.inl h1
      rcases error_consume h1 with h2 | ⟨x2, s2, h2⟩
      · exact Or.inl h2
      rcases error_consume h2 with h3 | ⟨x3, s3, h3⟩
      · exact Or.inl h3
      · simp at h3
  · simp at h

theorem readRecordSizes_error {r : Reader} {e : NifError}
    (h : (readRecordSizes r).error = some e) : e = .truncatedStream := by
  unfold readRecordSizes at h
  split at h
  · rcases error_consume h with h1 | ⟨x1, s1, h1⟩
    · exact h1
    · simp at h1
  · simp at h

theorem readStringTable_error {r : Reader} {e : NifError}
    (h : (readStringTable r).error = some e) : e = .truncatedStream := by
  unfold readStringTable at h
  split at h
  · rcases error_consume h with h1 | ⟨x1, s1, h1⟩
    · exact h1
    rcases error_consume h1 with h2 | ⟨x2, s2, h2⟩
    · exact h2
    rcases error_consume h2 with h3 | ⟨x3, s3, h3⟩
    · exact h3
    · simp at h3
  · simp at h

theorem readGroups_error {r : Reader} {e : NifError}
    (h : (readGroups r).error = some e) : e = .truncatedStream := by
  unfold readGroups at h
  split at h
  · rcases error_consume h with h1 | ⟨x1, s1, h1⟩
    · exact h1
    rcases error_consume h1 with h2 | ⟨x2, s2, h2⟩
    · exact h2
    · simp at h2
  · simp at h

theorem decodeSections_error {K : Env} {r : Reader} {e : NifError}
    (h : (decodeSections K r).error = some e) : e = .truncatedStream ∨ e = .hashedRecordTypes := by
  unfold decodeSections at h
  rcases Outcome.error_andThen h with h1 | ⟨r1, -, h1⟩
  · exact Or.inl (readBSStreamHeader_error h1)
  rcases Outcome.error_andThen h1 with h2 | ⟨r2, -, h2⟩
  · exact readRecTypes_error h2
  rcases Outcome.error_andThen h2 with h3 | ⟨r3, -, h3⟩
  · exact Or.inl (readRecordSizes_error h3)
  rcases Outcome.error_andThen h3 with h4 | ⟨r4, -, h4⟩
  · exact Or.inl (readStringTable_error h4)
  · exact Or.inl (readGroups_error h4)

/-! ## The record loop -/

theorem recordSeparator_cases (i : Nat) (rec : String) (k : Reader → Outcome) (r : Reader) :
    recordSeparator i rec k r = .thrown .truncatedStream r ∨
    ∃ nif log pre, (pre = [] ∨ pre = [Call.separator i]) ∧
      recordSeparator i rec k r = k { r with nif := nif, log := log, calls := r.calls ++ pre } := by
  unfold recordSeparator
  split
  · rcases consume_cases getI32 (fun separator r =>
        if separator ≠ 0 then
          k { r with calls := r.calls ++ [Call.separator i],
                     log := r.log ++ [LogLine.nonZeroSeparator rec i] }
        else k { r with calls := r.calls ++ [Call.separator i] }) r with ⟨_, h⟩ | ⟨x, rest, _, h⟩
    · exact Or.inl h
    · refine Or.inr ?_
      by_cases hx : x ≠ 0
      · refine ⟨rest, r.log ++ [LogLine.nonZeroSeparator rec i], [Call.separator i],
          Or.inr rfl, ?_⟩
        rw [h, if_pos hx]
      · refine ⟨rest, r.log, [Call.separator i], Or.inr rfl, ?_⟩
        rw [h, if_neg hx]
  · exact Or.inr ⟨r.nif, r.log, [], Or.inl rfl, by simp⟩

/-- The record the loop stores for the type name rec at index i, given its factory cell. -/
theorem readRecord_cases (K : Env) (d : Bool) (i : Nat) (r : Reader) :
    (∃ e, recordTypeName i r = .error e ∧ readRecord K d i r = .thrown e r) ∨
    ∃ rec rest, recordTypeName i r = .ok (rec, rest) ∧
      ((rec = "" ∧ readRecord K d i r = .thrown (.blankRecordType i) { r with nif := rest }) ∨
       (rec ≠ "" ∧
        (readRecord K d i r = .thrown .truncatedStream { r with nif := rest } ∨
         ∃ nif log pre, (pre = [] ∨ pre = [Call.separator i]) ∧
          ((factories.lookup rec = none ∧
              readRecord K d i r = .thrown (.unknownRecordType rec)
                { r with nif := nif, log := log, calls := r.calls ++ pre ++ [Call.find i rec] }) ∨
           ∃ entry log2, factories.lookup rec = some entry ∧
             (readRecord K d i r = .thrown .recordRead
                { r with nif := nif, log := log2,
                         calls := r.calls ++ pre ++ [Call.find i rec] ++ [Call.read i] } ∨
              ∃ rest2, readRecord K d i r = .done
                { r with nif := rest2, log := log2,
                         calls := r.calls ++ pre ++ [Call.find i rec] ++ [Call.read i],
                         mRecords := r.mRecords.set i
                           (some { construct entry with recName := rec, recIndex := i }) }))))) := by
  unfold readRecord
  cases hn : recordTypeName i r with
  | error e => exact Or.inl ⟨e, rfl, rfl⟩
  | ok p =>
    obtain ⟨rec, rest⟩ := p
    refine Or.inr ⟨rec, rest, rfl, ?_⟩
    dsimp only
    by_cases hrec : rec = ""
    · exact Or.inl ⟨hrec, by rw [if_pos hrec]⟩
    · refine Or.inr ⟨hrec, ?_⟩
      rw [if_neg hrec]
      rcases recordSeparator_cases i rec _ { r with nif := rest } with h | ⟨nif, log, pre, hpre, h⟩
      · exact Or.inl h
      · refine Or.inr ⟨nif, log, pre, hpre, ?_⟩
        rw [h]
        dsimp only
        cases hl : factories.lookup rec with
        | none => exact Or.inl ⟨rfl, rfl⟩
        | some entry =>
          refine Or.inr ⟨entry, (if (!supportedVersion K r.mVersion && d) = true then
            log ++ [LogLine.readingRecord rec i] else log), rfl, ?_⟩
          by_cases hd : (!supportedVersion K r.mVersion && d) = true
          · simp only [hd, if_true]
            split
            · exact Or.inl rfl
            · rename_i rest2 _
              exact Or.inr ⟨rest2, rfl⟩
          · simp only [hd, if_false]
            split
            · exact Or.inl rfl
            · rename_i rest2 _
              exact Or.inr ⟨rest2, rfl⟩

theorem readRecord_frame (K : Env) (d : Bool) (i : Nat) (r : Reader) :
    r.recordFrame (readRecord K d i r).state := by
  rcases readRecord_cases K d i r with ⟨e, -, h⟩ | ⟨rec, rest, -, h⟩
  · rw [h]; exact recordFrame_refl r
  rcases h with ⟨-, h⟩ | ⟨-, h | ⟨nif, log, pre, -, h⟩⟩
  · rw [h]; exact ⟨_, _, _, _, rfl, rfl⟩
  · rw [h]; exact ⟨_, _, _, _, rfl, rfl⟩
  rcases h with ⟨-, h⟩ | ⟨entry, log2, -, h | ⟨rest2, h⟩⟩
  · rw [h]; exact ⟨_, _, _, _, rfl, rfl⟩
  · rw [h]; exact ⟨_, _, _, _, rfl, rfl⟩
  · rw [h]; exact ⟨_, _, _, _, rfl, by simp⟩

theorem recordTypeName_error {i : Nat} {r : Reader} {e : NifError}
    (h : recordTypeName i r = .error e) : e = .undefinedBehaviour ∨ e = .truncatedStream := by
  unfold recordTypeName at h
  split at h
  · split at h
    · simp at h; exact Or.inl h.symm
    · split at h
      · simp at h; exact Or.inl h.symm
      · simp at h
  · split at h
    · simp at h; exact Or.inr h.symm
    · simp at h

theorem readRecord_error {K : Env} {d : Bool} {i : Nat} {r : Reader} {e : NifError}
    (h : (readRecord K d i r).error = some e) :
    e = .undefinedBehaviour ∨ e = .truncatedStream ∨ e = .blankRecordType i ∨
      (∃ rec, e = .unknownRecordType rec) ∨ e = .recordRead := by
  rcases readRecord_cases K d i r with ⟨e1, hn, h1⟩ | ⟨rec, rest, -, h1⟩
  · rw [h1] at h
    simp at h
    subst h
    rcases recordTypeName_error hn with h2 | h2
    · exact Or.inl h2
    · exact Or.inr (Or.inl h2)
  rcases h1 with ⟨-, h1⟩ | ⟨-, h1 | ⟨nif, log, pre, -, h1⟩⟩
  · rw [h1] at h; simp at h; exact Or.inr (Or.inr (Or.inl h.symm))
  · rw [h1] at h; simp at h; exact Or.inr (Or.inl h.symm)
  rcases h1 with ⟨-, h1⟩ | ⟨entry, log2, -, h1 | ⟨rest2, h1⟩⟩
  · rw [h1] at h; simp at h; exact Or.inr (Or.inr (Or.inr (Or.inl ⟨rec, h.symm⟩)))
  · rw [h1] at h; simp at h; exact Or.inr (Or.inr (Or.inr (Or.inr h.symm)))
  · rw [h1] at h; simp at h

/-- A pass that returns has stored at index i a record carrying that index, and has added to the
calls at most a separator and a lookup, then the read hook of record i. -/
theorem readRecord_done {K : Env} {d : Bool} {i : Nat} {r r1 : Reader}
    (h : readRecord K d i r = .done r1) :
    ∃ made pre, made.recIndex = i ∧ r1.mRecords = r.mRecords.set i (some made) ∧
      r1.calls = r.calls ++ pre ++ [Call.read i] ∧ pre.filter Call.isHook = [] := by
  rcases readRecord_cases K d i r with ⟨e1, hn, h1⟩ | ⟨rec, rest, -, h1⟩
  · rw [h1] at h; simp at h
  rcases h1 with ⟨-, h1⟩ | ⟨-, h1 | ⟨nif, log, pre, hpre, h1⟩⟩
  · rw [h1] at h; simp at h
  · rw [h1] at h; simp at h
  rcases h1 with ⟨-, h1⟩ | ⟨entry, log2, -, h1 | ⟨rest2, h1⟩⟩
  · rw [h1] at h; simp at h
  · rw [h1] at h; simp at h
  · rw [h1] at h
    injection h with h
    subst h
    refine ⟨_, pre ++ [Call.find i rec], rfl, rfl, by simp, ?_⟩
    rcases hpre with rfl | rfl <;> simp [Call.isHook]

theorem recordLoop_frame (K : Env) (d : Bool) (n i : Nat) (r : Reader) :
    r.recordFrame (recordLoop K d n i r).state := by
  induction n generalizing i r with
  | zero => exact recordFrame_refl r
  | succ n ih =>
    unfold recordLoop
    exact frame_andThen recordFrame (fun _ _ _ => recordFrame_trans) (readRecord_frame K d i r)
      (fun r1 => ih (i + 1) r1)

theorem recordLoop_error {K : Env} {d : Bool} {n i : Nat} {r : Reader} {e : NifError}
    (h : (recordLoop K d n i r).error = some e) :
    e = .undefinedBehaviour ∨ e = .truncatedStream ∨ (∃ j, e = .blankRecordType j) ∨
      (∃ rec, e = .unknownRecordType rec) ∨ e = .recordRead := by
  induction n generalizing i r with
  | zero => simp [recordLoop] at h
  | succ n ih =>
    unfold recordLoop at h
    rcases Outcome.error_andThen h with h1 | ⟨r1, -, h1⟩
    · rcases readRecord_error h1 with h2 | h2 | h2 | h2 | h2
      · exact Or.inl h2
      · exact Or.inr (Or.inl h2)
      · exact Or.inr (Or.inr (Or.inl ⟨i, h2⟩))
      · exact Or.inr (Or.inr (Or.inr (Or.inl h2)))
      · exact Or.inr (Or.inr (Or.inr (Or.inr h2)))
    · exact ih h1

theorem recordLoop_add (K : Env) (d : Bool) (a b i : Nat) (r : Reader) :
    recordLoop K d (a + b) i r = (recordLoop K d a i r).andThen (recordLoop K d b (i + a)) := by
  induction a generalizing i r with
  | zero => simp [recordLoop]
  | succ a ih =>
    have h1 : a + 1 + b = (a + b) + 1 := by omega
    rw [h1]
    simp only [recordLoop]
    rw [Outcome.andThen_assoc]
    congr 1
    funext r1
    rw [ih]
    have h2 : i + 1 + a = i + (a + 1) := by omega
    rw [h2]

/-- A record loop that returns has filled the n positions from i on, each with a record carrying
its own position as index, has left the earlier positions alone, and has called the read hooks of
these positions in increasing order and no post hook. -/
theorem recordLoop_done {K : Env} {d : Bool} {n i : Nat} {r r1 : Reader}
    (h : recordLoop K d n i r = .done r1) (hn : i + n ≤ r.mRecords.length) :
    r1.mRecords.length = r.mRecords.length ∧
    (∀ j, i ≤ j → j < i + n → ∃ made, r1.mRecords[j]? = some (some made) ∧ made.recIndex = j) ∧
    (∀ j, j < i → r1.mRecords[j]? = r.mRecords[j]?) ∧
    ∃ tr, r1.calls = r.calls ++ tr ∧
      tr.filter Call.isHook = (List.range' i n).map Call.read := by
  induction n generalizing i r with
  | zero =>
    simp only [recordLoop, Outcome.done.injEq] at h
    subst h
    refine ⟨rfl, ?_, fun _ _ => rfl, [], by simp, by simp⟩
    intro j h1 h2
    omega
  | succ n ih =>
    unfold recordLoop at h
    obtain ⟨r2, h2, h3⟩ := Outcome.andThen_eq_done.mp h
    obtain ⟨made, pre, hidx, hrecs, hcalls, hpre⟩ := readRecord_done h2
    have hlen : r2.mRecords.length = r.mRecords.length := by rw [hrecs]; simp
    obtain ⟨ih1, ih2, ih3, tr, ih4, ih5⟩ := ih h3 (by omega)
    refine ⟨ih1.trans hlen, ?_, ?_, pre ++ [Call.read i] ++ tr, ?_, ?_⟩
    · intro j h4 h5
      by_cases hj : j = i
      · subst hj
        refine ⟨made, ?_, hidx⟩
        rw [ih3 j (by omega), hrecs]
        have hj : j < r.mRecords.length := by omega
        simp [List.getElem?_set, hj]
      · exact ih2 j (by omega) (by omega)
    · intro j hj
      rw [ih3 j (by omega), hrecs]
      exact List.getElem?_set_ne (by omega)
    · rw [ih4, hcalls]
      simp
    · simp [List.filter_append, hpre, ih5, Call.isHook, List.range'_succ]

/-! ## The root loop -/

theorem readVector_succ {α : Type} (get : Bytes → Option (α × Bytes)) (n : Nat) (s : Bytes)
    (xs : List α) (rest : Bytes) :
    readVector get (n + 1) s = some (xs, rest) ↔
      ∃ x s1 ys, get s = some (x, s1) ∧ readVector get n s1 = some (ys, rest) ∧ xs = x :: ys := by
  rw [readVector]
  cases h1 : get s with
  | none => simp
  | some p =>
    obtain ⟨x, s1⟩ := p
    cases h2 : readVector get n s1 with
    | none => simp [h2]
    | some q =>
      obtain ⟨ys, s2⟩ := q
      simp only [h2, Option.some.injEq, Prod.mk.injEq]
      constructor
      · rintro ⟨rfl, rfl⟩
        exact ⟨x, s1, ys, ⟨rfl, rfl⟩, h2, rfl⟩
      · rintro ⟨x1, s3, zs, ⟨rfl, rfl⟩, h3, rfl⟩
        rw [h2] at h3
        simp only [Option.some.injEq, Prod.mk.injEq] at h3
        exact ⟨by rw [h3.1], h3.2⟩

theorem readVector_length {α : Type} {get : Bytes → Option (α × Bytes)} {n : Nat} {s : Bytes}
    {xs : List α} {rest : Bytes} (h : readVector get n s = some (xs, rest)) : xs.length = n := by
  induction n generalizing s xs with
  | zero =>
    simp only [readVector, Option.some.injEq, Prod.mk.injEq] at h
    rw [← h.1]; rfl
  | succ n ih =>
    obtain ⟨x, s1, ys, -, h2, rfl⟩ := (readVector_succ get n s xs rest).mp h
    simp [ih h2]

theorem readRoot_cases (i : Nat) (r : Reader) :
    (getI32 r.nif = none ∧ readRoot i r = .thrown .truncatedStream r) ∨
    ∃ idx rest log, getI32 r.nif = some (idx, rest) ∧
      readRoot i r = .done { r with nif := rest, calls := r.calls ++ [Call.root i], log := log,
                                    mRoots := r.mRoots.set i (rootEntry r.mRecords.length idx) } := by
  unfold readRoot
  rcases consume_cases getI32 (fun idx r =>
      if idx ≥ 0 ∧ idx.toNat < r.mRecords.length then
        Outcome.done { r with calls := r.calls ++ [Call.root i],
                              mRoots := r.mRoots.set i (some idx.toNat) }
      else
        Outcome.done { r with calls := r.calls ++ [Call.root i],
                              mRoots := r.mRoots.set i none,
                              log := r.log ++ [LogLine.rootNotRecord (i + 1) idx] }) r
    with ⟨h0, h⟩ | ⟨idx, rest, h0, h⟩
  · exact Or.inl ⟨h0, h⟩
  · refine Or.inr ?_
    by_cases hc : idx ≥ 0 ∧ idx.toNat < r.mRecords.length
    · refine ⟨idx, rest, r.log, h0, ?_⟩
      rw [h]
      simp only [rootEntry]
      rw [if_pos hc, if_pos hc]
    · refine ⟨idx, rest, r.log ++ [LogLine.rootNotRecord (i + 1) idx], h0, ?_⟩
      rw [h]
      simp only [rootEntry]
      rw [if_neg hc, if_neg hc]

theorem readRoot_frame (i : Nat) (r : Reader) : r.rootFrame (readRoot i r).state := by
  rcases readRoot_cases i r with ⟨-, h⟩ | ⟨idx, rest, log, -, h⟩
  · rw [h]; exact rootFrame_refl r
  · rw [h]; exact ⟨_, _, _, _, rfl, by simp⟩

theorem rootLoop_frame (n i : Nat) (r : Reader) : r.rootFrame (rootLoop n i r).state := by
  induction n generalizing i r with
  | zero => exact rootFrame_refl r
  | succ n ih =>
    unfold rootLoop
    exact frame_andThen rootFrame (fun _ _ _ => rootFrame_trans) (readRoot_frame i r)
      (fun r1 => ih (i + 1) r1)

theorem rootLoop_error {n i : Nat} {r : Reader} {e : NifError}
    (h : (rootLoop n i r).error = some e) : e = .truncatedStream := by
  induction n generalizing i r with
  | zero => simp [rootLoop] at h
  | succ n ih =>
    unfold rootLoop at h
    rcases Outcome.error_andThen h with h1 | ⟨r1, -, h1⟩
    · rcases readRoot_cases i r with ⟨-, h2⟩ | ⟨idx, rest, log, -, h2⟩
      · rw [h2] at h1; simpa using h1.symm
      · rw [h2] at h1; simp at h1
    · exact ih h1

/-- When the n root indices can be read, the root loop returns, whatever their values, and leaves
in each of the n positions from i on the entry of the index read for it. -/
theorem rootLoop_of_read {n i : Nat} {r : Reader} {idxs : List Int} {rest : Bytes}
    (h : readVector getI32 n r.nif = some (idxs, rest)) (hn : i + n ≤ r.mRoots.length) :
    ∃ r1, rootLoop n i r = .done r1 ∧ r1.nif = rest ∧
      (∀ j, j < n → r1.mRoots[i + j]? = (idxs.map (rootEntry r.mRecords.length))[j]?) ∧
      (∀ j, j < i → r1.mRoots[j]? = r.mRoots[j]?) ∧
      r1.calls = r.calls ++ (List.range' i n).map Call.root := by
  induction n generalizing i r idxs with
  | zero =>
    simp only [readVector, Option.some.injEq, Prod.mk.injEq] at h
    refine ⟨r, rfl, h.2, ?_, fun _ _ => rfl, by simp⟩
    intro j hj
    omega
  | succ n ih =>
    obtain ⟨x, s1, ys, h1, h2, rfl⟩ := (readVector_succ getI32 n r.nif idxs rest).mp h
    rcases readRoot_cases i r with ⟨h3, -⟩ | ⟨idx, rest1, log, h3, h4⟩
    · rw [h1] at h3; simp at h3
    rw [h1] at h3
    simp only [Option.some.injEq, Prod.mk.injEq] at h3
    obtain ⟨rfl, rfl⟩ := h3
    obtain ⟨r1, ih1, ih2, ih3, ih4, ih5⟩ :=
      ih (r := { r with nif := s1, calls := r.calls ++ [Call.root i], log := log,
                        mRoots := r.mRoots.set i (rootEntry r.mRecords.length x) })
        (i := i + 1) h2 (by simp; omega)
    refine ⟨r1, ?_, ih2, ?_, ?_, ?_⟩
    · unfold rootLoop
      rw [h4]
      exact ih1
    · intro j hj
      cases j with
      | zero =>
        rw [Nat.add_zero, ih4 i (by omega)]
        have hi : i < r.mRoots.length := by omega
        simp [List.getElem?_set, hi]
      | succ j =>
        have := ih3 j (by omega)
        have he : i + (j + 1) = i + 1 + j := by omega
        rw [he, this]
        simp
    · intro j hj
      rw [ih4 j (by omega)]
      exact List.getElem?_set_ne (by omega)
    · rw [ih5]
      simp [List.range'_succ]

theorem rootLoop_done {n i : Nat} {r r1 : Reader} (h : rootLoop n i r = .done r1) :
    ∃ idxs rest, readVector getI32 n r.nif = some (idxs, rest) := by
  induction n generalizing i r with
  | zero => exact ⟨[], r.nif, rfl⟩
  | succ n ih =>
    unfold rootLoop at h
    obtain ⟨r2, h2, h3⟩ := Outcome.andThen_eq_done.mp h
    rcases readRoot_cases i r with ⟨-, h4⟩ | ⟨idx, rest1, log, h4, h5⟩
    · rw [h4] at h2; simp at h2
    rw [h5] at h2
    injection h2 with h2
    subst h2
    obtain ⟨ys, rest, h6⟩ := ih h3
    exact ⟨idx :: ys, rest, (readVector_succ getI32 n r.nif _ rest).mpr ⟨idx, rest1, ys, h4, h6, rfl⟩⟩

theorem readRoots_state (r : Reader) :
    ∃ nif calls log roots,
      (readRoots r).state = { r with nif := nif, calls := calls, log := log, mRoots := roots } := by
  unfold readRoots
  rcases consume_cases getU32 (fun count r =>
      rootLoop (resize r.mRoots count none).length 0
        { r with mRoots := resize r.mRoots count none }) r with ⟨-, h⟩ | ⟨count, rest, -, h⟩
  · rw [h]; exact ⟨_, _, _, _, rfl⟩
  · rw [h]
    obtain ⟨_, _, _, _, h1, -⟩ := rootLoop_frame (resize r.mRoots count none).length 0
      { r with nif := rest, mRoots := resize r.mRoots count none }
    rw [h1]
    exact ⟨_, _, _, _, rfl⟩

theorem readRoots_error {r : Reader} {e : NifError} (h : (readRoots r).error = some e) :
    e = .truncatedStream := by
  unfold readRoots at h
  rcases error_consume h with h1 | ⟨x, rest, h1⟩
  · exact h1
  · exact rootLoop_error h1

/-- When the root count and that many indices can be read, the root stage returns with exactly
the entries of these indices, in order. -/
theorem readRoots_of_read {r : Reader} {count : Nat} {rest rest1 : Bytes} {idxs : List Int}
    (h1 : getU32 r.nif = some (count, rest))
    (h2 : readVector getI32 count rest = some (idxs, rest1)) :
    ∃ r1, readRoots r = .done r1 ∧ r1.mRoots = idxs.map (rootEntry r.mRecords.length) ∧
      r1.calls = r.calls ++ (List.range count).map Call.root ∧ r1.mRecords = r.mRecords ∧
      r1.mVersion = r.mVersion ∧ r1.mUserVersion = r.mUserVersion ∧
      r1.mBethVersion = r.mBethVersion ∧ r1.mUseSkinning = r.mUseSkinning := by
  have hlen : (resize r.mRoots count none).length = count := length_resize _ _ _
  obtain ⟨r1, h3, -, h5, -, h7⟩ :=
    rootLoop_of_read (n := count) (i := 0)
      (r := { r with nif := rest, mRoots := resize r.mRoots count none }) h2
      (by simp only [hlen]; omega)
  have h8 : readRoots r = .done r1 := by
    unfold readRoots
    rw [consume_some h1]
    simp only [hlen]
    exact h3
  obtain ⟨_, _, _, roots, h9, h10⟩ := rootLoop_frame count 0
    { r with nif := rest, mRoots := resize r.mRoots count none }
  rw [h3] at h9
  simp only [Outcome.state_done] at h9
  refine ⟨r1, h8, ?_, ?_, ?_, ?_, ?_, ?_, ?_⟩
  · apply List.ext_getElem?
    intro j
    by_cases hj : j < count
    · have := h5 j hj
      simpa using this
    · have hl1 : r1.mRoots.length = count := by
        rw [h9]
        simpa [hlen] using h10
      have hl2 : (idxs.map (rootEntry r.mRecords.length)).length = count := by
        simp [readVector_length h2]
      rw [List.getElem?_eq_none (by omega), List.getElem?_eq_none (by omega)]
  · rw [h7]
    simp [List.range_eq_range']
  · rw [h9]
  · rw [h9]
  · rw [h9]
  · rw [h9]
  · rw [h9]

theorem readRoots_done {r r1 : Reader} (h : readRoots r = .done r1) :
    ∃ count rest idxs rest1, getU32 r.nif = some (count, rest) ∧
      readVector getI32 count rest = some (idxs, rest1) := by
  have h0 := h
  unfold readRoots at h
  rcases consume_cases getU32 (fun count r =>
      rootLoop (resize r.mRoots count none).length 0
        { r with mRoots := resize r.mRoots count none }) r with ⟨-, h1⟩ | ⟨count, rest, h2, h1⟩
  · rw [h1] at h; simp at h
  · rw [h1] at h
    rw [length_resize] at h
    obtain ⟨idxs, rest1, h3⟩ := rootLoop_done h
    exact ⟨count, rest, idxs, rest1, h2, h3⟩

/-! ## The post-processing loop -/

theorem postRecord_cases (K : Env) (i : Nat) (r : Reader) :
    postRecord K i r = .thrown .undefinedBehaviour r ∨
    postRecord K i r = .thrown .recordPost { r with calls := r.calls ++ [Call.post i] } ∨
    ∃ skinning, postRecord K i r =
      .done { r with calls := r.calls ++ [Call.post i], mUseSkinning := skinning } := by
  unfold postRecord
  split
  · dsimp only
    split
    · exact Or.inr (Or.inl rfl)
    · rename_i skinning _
      exact Or.inr (Or.inr ⟨skinning, rfl⟩)
  · exact Or.inl rfl

theorem postLoop_frame (K : Env) (n i : Nat) (r : Reader) :
    r.postFrame (postLoop K n i r).state := by
  induction n generalizing i r with
  | zero => exact postFrame_refl r
  | succ n ih =>
    unfold postLoop
    refine frame_andThen postFrame (fun _ _ _ => postFrame_trans) ?_ (fun r1 => ih (i + 1) r1)
    rcases postRecord_cases K i r with h | h | ⟨skinning, h⟩
    · rw [h]; exact postFrame_refl r
    · rw [h]; exact ⟨_, _, rfl⟩
    · rw [h]; exact ⟨_, _, rfl⟩

theorem postLoop_error {K : Env} {n i : Nat} {r : Reader} {e : NifError}
    (h : (postLoop K n i r).error = some e) : e = .recordPost ∨ e = .undefinedBehaviour := by
  induction n generalizing i r with
  | zero => simp [postLoop] at h
  | succ n ih =>
    unfold postLoop at h
    rcases Outcome.error_andThen h with h1 | ⟨r1, -, h1⟩
    · rcases postRecord_cases K i r with h2 | h2 | ⟨skinning, h2⟩
      · rw [h2] at h1; exact Or.inr (by simpa using h1.symm)
      · rw [h2] at h1; exact Or.inl (by simpa using h1.symm)
      · rw [h2] at h1; simp at h1
    · exact ih h1

/-- A post loop that returns has called the post hooks of its n positions, in increasing order,
and nothing else. -/
theorem postLoop_done {K : Env} {n i : Nat} {r r1 : Reader} (h : postLoop K n i r = .done r1) :
    r1.calls = r.calls ++ (List.range' i n).map Call.post := by
  induction n generalizing i r with
  | zero =>
    simp only [postLoop, Outcome.done.injEq] at h
    subst h
    simp
  | succ n ih =>
    unfold postLoop at h
    obtain ⟨r2, h2, h3⟩ := Outcome.andThen_eq_done.mp h
    rcases postRecord_cases K i r with h4 | h4 | ⟨skinning, h4⟩
    · rw [h4] at h2; simp at h2
    · rw [h4] at h2; simp at h2
    · rw [h4] at h2
      injection h2 with h2
      subst h2
      rw [ih h3]
      simp [List.range'_succ]

/-! ## The whole of parse -/

theorem decodeRecords_error {K : Env} {d : Bool} {r : Reader} {e : NifError}
    (h : (decodeRecords K d r).error = some e) :
    e = .undefinedBehaviour ∨ e = .truncatedStream ∨ (∃ j, e = .blankRecordType j) ∨
      (∃ rec, e = .unknownRecordType rec) ∨ e = .recordRead :=
  recordLoop_error h

/-- What the statements after the endianness check can throw. -/
theorem afterEndianness_error {K : Env} {d : Bool} {r : Reader} {e : NifError}
    (h : (afterEndianness K d r).error = some e) :
    e = .truncatedStream ∨ e = .hashedRecordTypes ∨ e = .undefinedBehaviour ∨
      (∃ j, e = .blankRecordType j) ∨ (∃ rec, e = .unknownRecordType rec) ∨ e = .recordRead ∨
      e = .recordPost := by
  unfold afterEndianness at h
  rcases Outcome.error_andThen h with h2 | ⟨r2, -, h2⟩
  · exact Or.inl (readUserVersion_error h2)
  rcases Outcome.error_andThen h2 with h3 | ⟨r3, -, h3⟩
  · exact Or.inl (readRecordCount_error h3)
  rcases Outcome.error_andThen h3 with h4 | ⟨r4, -, h4⟩
  · rcases decodeSections_error h4 with h5 | h5
    · exact Or.inl h5
    · exact Or.inr (Or.inl h5)
  rcases Outcome.error_andThen h4 with h5 | ⟨r5, -, h5⟩
  · rcases decodeRecords_error h5 with h6 | h6 | h6 | h6 | h6
    · exact Or.inr (Or.inr (Or.inl h6))
    · exact Or.inl h6
    · exact Or.inr (Or.inr (Or.inr (Or.inl h6)))
    · exact Or.inr (Or.inr (Or.inr (Or.inr (Or.inl h6))))
    · exact Or.inr (Or.inr (Or.inr (Or.inr (Or.inr (Or.inl h6)))))
  rcases Outcome.error_andThen h5 with h6 | ⟨r6, -, h6⟩
  · exact Or.inl (readRoots_error h6)
  · rcases postLoop_error h6 with h7 | h7
    · exact Or.inr (Or.inr (Or.inr (Or.inr (Or.inr (Or.inr h7)))))
    · exact Or.inr (Or.inr (Or.inl h7))

/-- Nothing after the version check throws the invalid-header or the unsupported-version error. -/
theorem afterVersion_error {K : Env} {d : Bool} {r : Reader} {e : NifError}
    (h : (afterVersion K d r).error = some e) :
    e = .truncatedStream ∨ e = .bigEndian ∨ e = .hashedRecordTypes ∨ e = .undefinedBehaviour ∨
      (∃ j, e = .blankRecordType j) ∨ (∃ rec, e = .unknownRecordType rec) ∨ e = .recordRead ∨
      e = .recordPost := by
  unfold afterVersion at h
  rcases Outcome.error_andThen h with h1 | ⟨r1, -, h1⟩
  · rcases readEndianness_error h1 with h2 | h2
    · exact Or.inl h2
    · exact Or.inr (Or.inl h2)
  · rcases afterEndianness_error h1 with h2 | h2 | h2 | h2 | h2 | h2 | h2
    · exact Or.inl h2
    · exact Or.inr (Or.inr (Or.inl h2))
    · exact Or.inr (Or.inr (Or.inr (Or.inl h2)))
    · exact Or.inr (Or.inr (Or.inr (Or.inr (Or.inl h2))))
    · exact Or.inr (Or.inr (Or.inr (Or.inr (Or.inr (Or.inl h2)))))
    · exact Or.inr (Or.inr (Or.inr (Or.inr (Or.inr (Or.inr (Or.inl h2))))))
    · exact Or.inr (Or.inr (Or.inr (Or.inr (Or.inr (Or.inr (Or.inr h2))))))

/-- The statement sequence of parse, split after the header line and after the version check. -/
theorem parse_eq (K : Env) (l d : Bool) (r : Reader) (stream : Bytes) :
    parse K l d r stream =
      (readHeader K { r with nif := stream, recTypes := [], recTypeIndices := [] }).andThen
        (fun r1 => (readVersion K l d r1).andThen (afterVersion K d)) := by
  unfold parse decodeHeader afterVersion afterEndianness
  simp only [Outcome.andThen_assoc]

/-- The statement sequence of parse, split after the record loop. -/
theorem parse_eq_decodeGraph (K : Env) (l d : Bool) (r : Reader) (stream : Bytes) :
    parse K l d r stream =
      (decodeGraph K l d r stream).andThen (fun r1 => (readRoots r1).andThen (postRecords K)) := by
  unfold parse decodeGraph
  simp only [Outcome.andThen_assoc]

theorem startsWith_iff (s p : String) : startsWith s p = true ↔ ∃ tail : String, s = p ++ tail := by
  unfold startsWith
  rw [List.isPrefixOf_iff_prefix]
  constructor
  · rintro ⟨t, ht⟩
    refine ⟨String.mk t, ?_⟩
    apply String.ext
    simp [ht]
  · rintro ⟨t, rfl⟩
    exact ⟨t.data, by simp⟩

theorem supportedHeader_iff (head : String) :
    supportedHeader head = true ↔
      ∃ tail : String, head = "NetImmerse File Format" ++ tail ∨
        head = "Gamebryo File Format" ++ tail := by
  unfold supportedHeader verStrings
  simp only [List.any_cons, List.any_nil, Bool.or_false, Bool.or_eq_true, startsWith_iff]
  constructor
  · rintro (⟨t, h⟩ | ⟨t, h⟩)
    · exact ⟨t, Or.inl h⟩
    · exact ⟨t, Or.inr h⟩
  · rintro ⟨t, h | h⟩
    · exact Or.inl ⟨t, h⟩
    · exact Or.inr ⟨t, h⟩

/-- A parse that returns has passed through every stage. -/
theorem parse_done {K : Env} {l d : Bool} {r f : Reader} {stream : Bytes}
    (h : parse K l d r stream = .done f) :
    ∃ rh rc rs rr rt, decodeHeader K l d r stream = .done rh ∧ readRecordCount rh = .done rc ∧
      decodeSections K rc = .done rs ∧ decodeRecords K d rs = .done rr ∧
      readRoots rr = .done rt ∧ postRecords K rt = .done f := by
  unfold parse at h
  obtain ⟨rh, h1, h⟩ := Outcome.andThen_eq_done.mp h
  obtain ⟨rc, h2, h⟩ := Outcome.andThen_eq_done.mp h
  obtain ⟨rs, h3, h⟩ := Outcome.andThen_eq_done.mp h
  obtain ⟨rr, h4, h⟩ := Outcome.andThen_eq_done.mp h
  obtain ⟨rt, h5, h⟩ := Outcome.andThen_eq_done.mp h
  exact ⟨rh, rc, rs, rr, rt, h1, h2, h3, h4, h5, h⟩

theorem readRecordCount_done {r r1 : Reader} (h : readRecordCount r = .done r1) :
    ∃ count rest, getU32 r.nif = some (count, rest) ∧
      r1 = { r with mRecords := resize r.mRecords count none, nif := rest } := by
  unfold readRecordCount at h
  rcases consume_cases getU32 (fun count r =>
      Outcome.done { r with mRecords := resize r.mRecords count none }) r
    with ⟨-, h1⟩ | ⟨count, rest, h2, h1⟩
  · rw [h1] at h; simp at h
  · rw [h1] at h
    injection h with h
    exact ⟨count, rest, h2, h.symm⟩

theorem decodeSections_done {K : Env} {r r1 : Reader} (h : decodeSections K r = .done r1) :
    r.sectionFrame r1 := by
  have := decodeSections_frame K r
  rw [h] at this
  exact this

theorem decodeHeader_done {K : Env} {l d : Bool} {r r1 : Reader} {stream : Bytes}
    (h : decodeHeader K l d r stream = .done r1) : r.headerFrame r1 := by
  have := decodeHeader_frame K l d r stream
  rw [h] at this
  exact this

theorem postRecords_done {K : Env} {r r1 : Reader} (h : postRecords K r = .done r1) :
    r.postFrame r1 ∧ r1.calls = r.calls ++ (List.range r.mRecords.length).map Call.post := by
  unfold postRecords at h
  have h1 := postLoop_frame K r.mRecords.length 0 r
  rw [h] at h1
  exact ⟨h1, by rw [postLoop_done h, List.range_eq_range']⟩

theorem rootEntry_inRange {n : Nat} {idx : Int} (h0 : 0 ≤ idx) (h1 : idx < n) :
    rootEntry n idx = some idx.toNat := by
  unfold rootEntry
  rw [if_pos]
  exact ⟨h0, by omega⟩

theorem rootEntry_outOfRange {n : Nat} {idx : Int} (h : idx < 0 ∨ (n : Int) ≤ idx) :
    rootEntry n idx = none := by
  unfold rootEntry
  rw [if_neg]
  rintro ⟨h0, h1⟩
  omega

theorem decodeGraph_of_stages {K : Env} {l d : Bool} {r rh rc rs rr : Reader} {stream : Bytes}
    (h1 : decodeHeader K l d r stream = .done rh) (h2 : readRecordCount rh = .done rc)
    (h3 : decodeSections K rc = .done rs) (h4 : decodeRecords K d rs = .done rr) :
    decodeGraph K l d r stream = .done rr := by
  unfold decodeGraph
  rw [h1, Outcome.andThen_done, h2, Outcome.andThen_done, h3, Outcome.andThen_done, h4]

theorem readRecord_calls {K : Env} {d : Bool} {i : Nat} {r r1 : Reader}
    (h : readRecord K d i r = .done r1) :
    ∃ tr, r1.calls = r.calls ++ tr ∧
      ∀ c ∈ tr, c = Call.separator i ∨ (∃ rec, c = Call.find i rec) ∨ c = Call.read i := by
  rcases readRecord_cases K d i r with ⟨e1, hn, h1⟩ | ⟨rec, rest, -, h1⟩
  · rw [h1] at h; simp at h
  rcases h1 with ⟨-, h1⟩ | ⟨-, h1 | ⟨nif, log, pre, hpre, h1⟩⟩
  · rw [h1] at h; simp at h
  · rw [h1] at h; simp at h
  rcases h1 with ⟨-, h1⟩ | ⟨entry, log2, -, h1 | ⟨rest2, h1⟩⟩
  · rw [h1] at h; simp at h
  · rw [h1] at h; simp at h
  · rw [h1] at h
    injection h with h
    subst h
    refine ⟨pre ++ [Call.find i rec] ++ [Call.read i], by simp, ?_⟩
    intro c hc
    simp only [List.mem_append, List.mem_singleton] at hc
    rcases hc with (hc | hc) | hc
    · rcases hpre with rfl | rfl
      · simp at hc
      · exact Or.inl (by simpa using hc)
    · exact Or.inr (Or.inl ⟨rec, hc⟩)
    · exact Or.inr (Or.inr hc)

/-- The calls of a record loop that returns all belong to its own passes. -/
theorem recordLoop_calls {K : Env} {d : Bool} {n i : Nat} {r r1 : Reader}
    (h : recordLoop K d n i r = .done r1) :
    ∃ tr, r1.calls = r.calls ++ tr ∧
      ∀ c ∈ tr, ∃ j, i ≤ j ∧ j < i + n ∧
        (c = Call.separator j ∨ (∃ rec, c = Call.find j rec) ∨ c = Call.read j) := by
  induction n generalizing i r with
  | zero =>
    simp only [recordLoop, Outcome.done.injEq] at h
    subst h
    exact ⟨[], by simp, by simp⟩
  | succ n ih =>
    unfold recordLoop at h
    obtain ⟨r2, h2, h3⟩ := Outcome.andThen_eq_done.mp h
    obtain ⟨tr1, h4, h5⟩ := readRecord_calls h2
    obtain ⟨tr2, h6, h7⟩ := ih h3
    refine ⟨tr1 ++ tr2, by rw [h6, h4]; simp, ?_⟩
    intro c hc
    rcases List.mem_append.mp hc with hc | hc
    · exact ⟨i, le_refl i, by omega, h5 c hc⟩
    · obtain ⟨j, h8, h9, h10⟩ := h7 c hc
      exact ⟨j, by omega, by omega, h10⟩

/-- The state in which the record loop starts its pass for index i, and what parse adds to the
calls up to there. -/
theorem decodeUpTo_done {K : Env} {l d : Bool} {r ri : Reader} {stream : Bytes} {i : Nat}
    (h : decodeUpTo K l d r stream i = .done ri) :
    ∃ rs, (decodeHeader K l d r stream).andThen (fun r1 => (readRecordCount r1).andThen
        (decodeSections K)) = .done rs ∧
      recordLoop K d i 0 rs = .done ri ∧ rs.calls = r.calls ∧ rs.mRoots = r.mRoots ∧
      rs.mRecords.length = ri.mRecords.length := by
  unfold decodeUpTo at h
  obtain ⟨rh, h1, h⟩ := Outcome.andThen_eq_done.mp h
  obtain ⟨rc, h2, h⟩ := Outcome.andThen_eq_done.mp h
  obtain ⟨rs, h3, h⟩ := Outcome.andThen_eq_done.mp h
  refine ⟨rs, by rw [h1, Outcome.andThen_done, h2, Outcome.andThen_done, h3], h, ?_, ?_, ?_⟩
  · obtain ⟨_, _, _, _, _, _, _, rfl⟩ := decodeHeader_done h1
    obtain ⟨count, rest, -, rfl⟩ := readRecordCount_done h2
    obtain ⟨_, _, _, _, _, rfl⟩ := decodeSections_done h3
    rfl
  · obtain ⟨_, _, _, _, _, _, _, rfl⟩ := decodeHeader_done h1
    obtain ⟨count, rest, -, rfl⟩ := readRecordCount_done h2
    obtain ⟨_, _, _, _, _, rfl⟩ := decodeSections_done h3
    rfl
  · have h4 := recordLoop_frame K d i 0 rs
    rw [h] at h4
    obtain ⟨_, _, _, _, rfl, h5⟩ := h4
    exact h5.symm

/-- An exception in the pass for index i is the outcome of parse. -/
theorem parse_of_decodeUpTo {K : Env} {l d : Bool} {r ri s : Reader} {stream : Bytes} {i : Nat}
    {e : NifError} (h : decodeUpTo K l d r stream i = .done ri) (hi : i < ri.mRecords.length)
    (hstep : readRecord K d i ri = .thrown e s) : parse K l d r stream = .thrown e s := by
  obtain ⟨rs, h1, h2, -, -, h3⟩ := decodeUpTo_done h
  have h4 : parse K l d r stream =
      ((decodeHeader K l d r stream).andThen (fun r1 => (readRecordCount r1).andThen
        (decodeSections K))).andThen
        (fun r1 => (decodeRecords K d r1).andThen
          (fun r2 => (readRoots r2).andThen (postRecords K))) := by
    unfold parse
    simp only [Outcome.andThen_assoc]
  have h5 : rs.mRecords.length = i + (rs.mRecords.length - i - 1 + 1) := by omega
  rw [h4, h1, Outcome.andThen_done]
  unfold decodeRecords
  rw [h5, recordLoop_add, h2, Outcome.andThen_done, Nat.zero_add]
  unfold recordLoop
  rw [hstep]
  rfl

/-- A pass whose type name is not empty and not in the registry throws the unknown-record-type
error, provided the separator, when one is due, can be read. -/
theorem readRecord_unknown {K : Env} {d : Bool} {i : Nat} {r : Reader} {rec : String}
    {rest : Bytes} (hname : recordTypeName i r = .ok (rec, rest)) (hrec : rec ≠ "")
    (hmiss : factories.lookup rec = none)
    (hsep : (hasRecordSeparators r.mVersion && !startsWith rec "bhk") = true →
      ∃ v rest1, getI32 rest = some (v, rest1)) :
    ∃ s, readRecord K d i r = .thrown (.unknownRecordType rec) s := by
  unfold readRecord
  rw [hname]
  dsimp only
  rw [if_neg hrec]
  unfold recordSeparator
  by_cases hdue : (hasRecordSeparators r.mVersion && !startsWith rec "bhk") = true
  · obtain ⟨v, rest1, hv⟩ := hsep hdue
    rw [if_pos hdue]
    have hv1 : getI32 ({ r with nif := rest } : Reader).nif = some (v, rest1) := hv
    rw [consume_some hv1]
    dsimp only
    by_cases hz : v ≠ 0
    · rw [if_pos hz, hmiss]
      exact ⟨_, rfl⟩
    · rw [if_neg hz, hmiss]
      exact ⟨_, rfl⟩
  · rw [if_neg hdue]
    dsimp only
    rw [hmiss]
    exact ⟨_, rfl⟩

/-! ## The state left behind by a failure -/

theorem readVersion_state (K : Env) (l d : Bool) (r : Reader) :
    ∃ version nif log,
      (readVersion K l d r).state = { r with mVersion := version, nif := nif, log := log } := by
  unfold readVersion
  rcases consume_cases getU32 (fun version r =>
      if supportedVersion K version = true then Outcome.done { r with mVersion := version }
      else if (!l) = true then
        Outcome.thrown (.unsupportedVersion (versionToString version))
          { r with mVersion := version }
      else if d = true then
        Outcome.done { r with mVersion := version,
                              log := r.log ++ [LogLine.unsupportedVersion (versionToString version)] }
      else Outcome.done { r with mVersion := version }) r with ⟨_, h⟩ | ⟨x, rest, _, h⟩
  · rw [h]; exact ⟨_, _, _, rfl⟩
  · rw [h]
    split
    · exact ⟨_, _, _, rfl⟩
    · split
      · exact ⟨_, _, _, rfl⟩
      · split <;> exact ⟨_, _, _, rfl⟩

theorem readEndianness_state (r : Reader) :
    ∃ nif, (readEndianness r).state = { r with nif := nif } := by
  unfold readEndianness
  rcases consume_cases (fun s => if hasEndianness r.mVersion = true then getU8 s else some (1, s))
      (fun endianness r => if endianness = 0 then Outcome.thrown .bigEndian r else Outcome.done r) r
    with ⟨_, h⟩ | ⟨x, rest, _, h⟩
  · rw [h]; exact ⟨_, rfl⟩
  · rw [h]
    split <;> exact ⟨_, rfl⟩

/-- Where a failure of parse comes from: the header check, the version or endianness check, or a
later statement. -/
theorem parse_thrown_cases {K : Env} {l d : Bool} {r s : Reader} {stream : Bytes} {e : NifError}
    (h : parse K l d r stream = .thrown e s) :
    ((∃ head, e = .invalidHeader head) ∧
      ∃ hash nif, s = { r with mHash := hash, nif := nif, recTypes := [], recTypeIndices := [] }) ∨
    ((e = .truncatedStream ∨ (∃ v, e = .unsupportedVersion v) ∨ e = .bigEndian) ∧
      ∃ hash nif version log, s = { r with mHash := hash, nif := nif, mVersion := version,
                                           log := log, recTypes := [], recTypeIndices := [] }) ∨
    ∃ r1, afterEndianness K d r1 = .thrown e s := by
  rw [parse_eq, Outcome.andThen_eq_thrown] at h
  rcases h with h | ⟨r1, h1, h⟩
  · rw [readHeader_eq] at h
    split at h
    · simp at h
    · injection h with h2 h3
      exact Or.inl ⟨⟨_, h2.symm⟩, _, _, h3.symm⟩
  have hr1 : ∃ hash nif,
      r1 = { r with mHash := hash, nif := nif, recTypes := [], recTypeIndices := [] } := by
    rw [readHeader_eq] at h1
    split at h1
    · injection h1 with h1
      exact ⟨_, _, h1.symm⟩
    · simp at h1
  obtain ⟨hash, nif, rfl⟩ := hr1
  rw [Outcome.andThen_eq_thrown] at h
  rcases h with h | ⟨r2, h2, h⟩
  · refine Or.inr (Or.inl ⟨?_, ?_⟩)
    · have h3 := congrArg Outcome.error h
      rw [Outcome.error_thrown] at h3
      rcases readVersion_error h3 with h4 | h4
      · exact Or.inl h4
      · exact Or.inr (Or.inl h4)
    · obtain ⟨_, _, _, h3⟩ := readVersion_state K l d
        { r with mHash := hash, nif := nif, recTypes := [], recTypeIndices := [] }
      rw [h] at h3
      exact ⟨_, _, _, _, h3⟩
  have hr2 : ∃ nif version log,
      r2 = { r with mHash := hash, nif := nif, mVersion := version, log := log, recTypes := [],
                    recTypeIndices := [] } := by
    obtain ⟨_, _, _, h3⟩ := readVersion_state K l d
      { r with mHash := hash, nif := nif, recTypes := [], recTypeIndices := [] }
    rw [h2] at h3
    exact ⟨_, _, _, h3⟩
  obtain ⟨nif2, version, log, rfl⟩ := hr2
  unfold afterVersion at h
  rw [Outcome.andThen_eq_thrown] at h
  rcases h with h | ⟨r3, -, h⟩
  · refine Or.inr (Or.inl ⟨?_, ?_⟩)
    · have h3 := congrArg Outcome.error h
      rw [Outcome.error_thrown] at h3
      rcases readEndianness_error h3 with h4 | h4
      · exact Or.inl h4
      · exact Or.inr (Or.inr h4)
    · obtain ⟨_, h3⟩ := readEndianness_state
        { r with mHash := hash, nif := nif2, mVersion := version, log := log, recTypes := [],
                 recTypeIndices := [] }
      rw [h] at h3
      exact ⟨_, _, _, _, h3⟩
  · exact Or.inr (Or.inr ⟨r3, h⟩)

theorem readRecordCount_roots (r : Reader) : (readRecordCount r).state.mRoots = r.mRoots := by
  unfold readRecordCount
  rcases consume_cases getU32 (fun count r =>
      Outcome.done { r with mRecords := resize r.mRecords count none }) r
    with ⟨-, h1⟩ | ⟨count, rest, -, h1⟩
  · rw [h1]; rfl
  · rw [h1]; rfl

/-- No statement before the root count writes the root list. -/
theorem decodeGraph_roots (K : Env) (l d : Bool) (r : Reader) (stream : Bytes) :
    (decodeGraph K l d r stream).state.mRoots = r.mRoots := by
  unfold decodeGraph
  refine frame_andThen (fun a b => b.mRoots = a.mRoots) (fun _ _ _ h1 h2 => h2.trans h1) ?_
    (fun r1 => ?_)
  · obtain ⟨_, _, _, _, _, _, _, h⟩ := decodeHeader_frame K l d r stream
    rw [h]
  refine frame_andThen (fun a b => b.mRoots = a.mRoots) (fun _ _ _ h1 h2 => h2.trans h1)
    (readRecordCount_roots r1) (fun r2 => ?_)
  refine frame_andThen (fun a b => b.mRoots = a.mRoots) (fun _ _ _ h1 h2 => h2.trans h1) ?_
    (fun r3 => ?_)
  · obtain ⟨_, _, _, _, _, h⟩ := decodeSections_frame K r2
    rw [h]
  · obtain ⟨_, _, _, _, h, -⟩ := recordLoop_frame K d r3.mRecords.length 0 r3
    unfold decodeRecords
    rw [h]

/-! ## The size of the string table -/

theorem getU32_lt {s rest : Bytes} {v : Nat} (h : getU32 s = some (v, rest)) :
    v < 4294967296 := by
  unfold getU32 at h
  split at h
  · simp only [Option.some.injEq, Prod.mk.injEq] at h
    omega
  · simp at h

/-- A string table read from a file has fewer than 2^32 entries, its size being a 32-bit count. -/
theorem readStringTable_size {r r1 : Reader} (h : readStringTable r = .done r1)
    (ht : hasStringTable r.mVersion = true) : r1.mStrings.length ≤ 4294967295 := by
  unfold readStringTable at h
  rw [if_pos ht] at h
  rcases consume_cases getU32 (fun stringNum r =>
      consume getU32 (fun _ r =>
        consume (getSizedStrings stringNum) (fun strings r =>
          Outcome.done { r with mStrings := strings }) r) r) r with ⟨-, h1⟩ | ⟨n, s1, hn, h1⟩
  · rw [h1] at h; simp at h
  rw [h1] at h
  rcases consume_cases getU32 (fun _ r =>
        consume (getSizedStrings n) (fun strings r =>
          Outcome.done { r with mStrings := strings }) r) { r with nif := s1 }
    with ⟨-, h2⟩ | ⟨m, s2, -, h2⟩
  · rw [h2] at h; simp at h
  rw [h2] at h
  rcases consume_cases (getSizedStrings n) (fun strings r =>
          Outcome.done { r with mStrings := strings }) { r with nif := s2 }
    with ⟨-, h3⟩ | ⟨strings, s3, hs, h3⟩
  · rw [h3] at h; simp at h
  rw [h3] at h
  injection h with h
  subst h
  have hlen : strings.length = n := readVector_length hs
  have hlt := getU32_lt hn
  show strings.length ≤ 4294967295
  omega

/-! ## The textual form of a version -/

set_option maxRecDepth 100000 in
theorem toString_byte : ∀ b, b < 256 → toString b = decimalOfByte b := by
  decide

theorem mask_byte (v : Nat) : v &&& 0xFF = v % 256 :=
  Nat.and_pow_two_sub_one_eq_mod v 8

/-! ## What a pass of the record loop stores -/

/-- A pass that returns has stored the record made by the factory cell of the resolved type name,
with that name as recName and the loop index as recIndex. -/
theorem readRecord_stored {K : Env} {d : Bool} {i : Nat} {r r1 : Reader}
    (h : readRecord K d i r = .done r1) :
    ∃ rec rest entry, recordTypeName i r = .ok (rec, rest) ∧ factories.lookup rec = some entry ∧
      r1.mRecords = r.mRecords.set i (some (Record.mk entry.nodeType entry.recordType rec i)) := by
  rcases readRecord_cases K d i r with ⟨e1, hn, h1⟩ | ⟨rec, rest, hn, h1⟩
  · rw [h1] at h; simp at h
  rcases h1 with ⟨-, h1⟩ | ⟨-, h1 | ⟨nif, log, pre, hpre, h1⟩⟩
  · rw [h1] at h; simp at h
  · rw [h1] at h; simp at h
  rcases h1 with ⟨-, h1⟩ | ⟨entry, log2, hl, h1 | ⟨rest2, h1⟩⟩
  · rw [h1] at h; simp at h
  · rw [h1] at h; simp at h
  · rw [h1] at h
    injection h with h
    subst h
    exact ⟨rec, rest, entry, hn, hl, rfl⟩

/-! ## Parse split around one section -/

theorem parse_eq_sections (K : Env) (l d : Bool) (r : Reader) (stream : Bytes) :
    parse K l d r stream =
      (decodeToSections K l d r stream).andThen
        (fun r1 => (readBSStreamHeader K r1).andThen (afterBSStreamHeader K d)) := by
  unfold parse decodeToSections decodeSections afterBSStreamHeader afterRecTypes afterStringTable
  simp only [Outcome.andThen_assoc]

theorem parse_eq_recTypes (K : Env) (l d : Bool) (r : Reader) (stream : Bytes) :
    parse K l d r stream =
      (decodeToRecTypes K l d r stream).andThen
        (fun r1 => (readRecTypes r1).andThen (afterRecTypes K d)) := by
  unfold parse decodeToRecTypes decodeToSections decodeSections afterRecTypes afterStringTable
  simp only [Outcome.andThen_assoc]

theorem parse_eq_stringTable (K : Env) (l d : Bool) (r : Reader) (stream : Bytes) :
    parse K l d r stream =
      (decodeToStringTable K l d r stream).andThen
        (fun r1 => (readStringTable r1).andThen (afterStringTable K d)) := by
  unfold parse decodeToStringTable decodeToRecTypes decodeToSections decodeSections
    afterStringTable
  simp only [Outcome.andThen_assoc]

theorem hasBSStreamHeader_iff (K : Env) (version userVersion : Nat) :
    hasBSStreamHeader K version userVersion = true ↔
      version = K.VER_OB_OLD ∨
        (userVersion ≥ 3 ∧ version ≥ generateVersion 10 1 0 0 ∧
          (version ≤ K.VER_OB ∨ version = K.VER_BGS) ∧
          (userVersion ≤ 11 ∨ version ≥ K.VER_OB)) := by
  unfold hasBSStreamHeader
  by_cases h1 : version = K.VER_OB_OLD
  · simp [h1]
  · rw [if_neg h1]
    by_cases h2 : userVersion ≥ 3 ∧ version ≥ generateVersion 10 1 0 0
    · rw [if_pos h2]
      by_cases h3 : version ≤ K.VER_OB ∨ version = K.VER_BGS
      · rw [if_pos h3]
        simp only [decide_eq_true_eq]
        constructor
        · intro h4
          exact Or.inr ⟨h2.1, h2.2, h3, h4⟩
        · rintro (h4 | ⟨-, -, -, h4⟩)
          · exact absurd h4 h1
          · exact h4
      · rw [if_neg h3]
        constructor
        · intro h4
          exact absurd h4 (by decide)
        · rintro (h4 | ⟨-, -, h4, -⟩)
          · exact absurd h4 h1
          · exact absurd h4 h3
    · rw [if_neg h2]
      constructor
      · intro h4
        exact absurd h4 (by decide)
      · rintro (h4 | ⟨h4, h5, -, -⟩)
        · exact absurd h4 h1
        · exact absurd ⟨h4, h5⟩ h2

/-- The Bethesda stream header when all of it can be read: the Bethesda version, the author, the
process script (an unnamed 32-bit value from Bethesda version 131 on), the export script and, from
Bethesda version 103 on, the maximal file path. -/
theorem readBSStreamHeader_of_read {K : Env} {r : Reader} {b : Nat} {author script : String}
    {s1 s2 s3 s4 s5 : Bytes} (hflag : hasBSStreamHeader K r.mVersion r.mUserVersion = true)
    (h1 : getU32 r.nif = some (b, s1)) (h2 : getExportString s1 = some (author, s2))
    (h3 : (if b ≥ 131 then (getU32 s2).map (fun p => ((), p.2))
           else (getExportString s2).map (fun p => ((), p.2))) = some ((), s3))
    (h4 : getExportString s3 = some (script, s4))
    (h5 : (if b ≥ 103 then (getExportString s4).map (fun p => p.2) else some s4) = some s5) :
    readBSStreamHeader K r = .done { r with mBethVersion := b, nif := s5 } := by
  unfold readBSStreamHeader
  rw [if_pos hflag, consume_some h1]
  dsimp only
  have h2a : getExportString ({ r with nif := s1, mBethVersion := b } : Reader).nif
      = some (author, s2) := h2
  rw [consume_some h2a]
  have h3a : (fun s => if ({ r with nif := s2, mBethVersion := b } : Reader).mBethVersion ≥ 131
        then (getU32 s).map (fun p => ((), p.2))
        else (getExportString s).map (fun p => ((), p.2)))
      ({ r with nif := s2, mBethVersion := b } : Reader).nif = some ((), s3) := h3
  rw [consume_some h3a]
  have h4a : getExportString ({ r with nif := s3, mBethVersion := b } : Reader).nif
      = some (script, s4) := h4
  rw [consume_some h4a]
  by_cases hb : b ≥ 103
  · rw [if_pos hb] at h5
    have hb1 : ({ r with nif := s4, mBethVersion := b } : Reader).mBethVersion ≥ 103 := hb
    rw [if_pos hb1]
    cases h6 : getExportString s4 with
    | none => rw [h6] at h5; simp at h5
    | some p =>
      rw [h6] at h5
      simp only [Option.map_some', Option.some.injEq] at h5
      have h6a : getExportString ({ r with nif := s4, mBethVersion := b } : Reader).nif
          = some (p.1, s5) := by
        rw [← h5]
        exact h6
      rw [consume_some h6a]
  · rw [if_neg hb] at h5
    have hb1 : ¬ ({ r with nif := s4, mBethVersion := b } : Reader).mBethVersion ≥ 103 := hb
    rw [if_neg hb1]
    simp only [Option.some.injEq] at h5
    rw [h5]

/-! ## Finer frames -/

theorem earlyFrame_refl (r : Reader) : r.earlyFrame r :=
  ⟨_, _, _, _, rfl⟩

theorem earlyFrame_trans {a b c : Reader} (h1 : a.earlyFrame b) (h2 : b.earlyFrame c) :
    a.earlyFrame c := by
  obtain ⟨_, _, _, _, rfl⟩ := h1
  obtain ⟨_, _, _, _, rfl⟩ := h2
  exact ⟨_, _, _, _, rfl⟩

theorem tableFrame_refl (r : Reader) : r.tableFrame r :=
  ⟨_, _, _, _, rfl⟩

theorem tableFrame_trans {a b c : Reader} (h1 : a.tableFrame b) (h2 : b.tableFrame c) :
    a.tableFrame c := by
  obtain ⟨_, _, _, _, rfl⟩ := h1
  obtain ⟨_, _, _, _, rfl⟩ := h2
  exact ⟨_, _, _, _, rfl⟩

theorem lateFrame_refl (r : Reader) : r.lateFrame r :=
  ⟨_, _, _, _, _, _, _, _, _, rfl⟩

theorem lateFrame_trans {a b c : Reader} (h1 : a.lateFrame b) (h2 : b.lateFrame c) :
    a.lateFrame c := by
  obtain ⟨_, _, _, _, _, _, _, _, _, rfl⟩ := h1
  obtain ⟨_, _, _, _, _, _, _, _, _, rfl⟩ := h2
  exact ⟨_, _, _, _, _, _, _, _, _, rfl⟩

theorem lateFrame_of_table {a b : Reader} (h : a.tableFrame b) : a.lateFrame b := by
  obtain ⟨_, _, _, _, rfl⟩ := h
  exact ⟨_, _, _, _, _, _, _, _, _, rfl⟩

theorem lateFrame_of_record {a b : Reader} (h : a.recordFrame b) : a.lateFrame b := by
  obtain ⟨_, _, _, _, rfl, -⟩ := h
  exact ⟨_, _, _, _, _, _, _, _, _, rfl⟩

theorem lateFrame_of_post {a b : Reader} (h : a.postFrame b) : a.lateFrame b := by
  obtain ⟨_, _, rfl⟩ := h
  exact ⟨_, _, _, _, _, _, _, _, _, rfl⟩

theorem readEndianness_early (r : Reader) : r.earlyFrame (readEndianness r).state := by
  obtain ⟨_, h⟩ := readEndianness_state r
  rw [h]
  exact ⟨_, _, _, _, rfl⟩

theorem readUserVersion_early (r : Reader) : r.earlyFrame (readUserVersion r).state := by
  unfold readUserVersion
  split
  · exact frame_consume earlyFrame (earlyFrame_refl r) (fun x rest => ⟨_, _, _, _, rfl⟩)
  · exact earlyFrame_refl r

theorem readRecordCount_early (r : Reader) : r.earlyFrame (readRecordCount r).state := by
  unfold readRecordCount
  exact frame_consume earlyFrame (earlyFrame_refl r) (fun x rest => ⟨_, _, _, _, rfl⟩)

theorem readBSStreamHeader_early (K : Env) (r : Reader) :
    r.earlyFrame (readBSStreamHeader K r).state := by
  unfold readBSStreamHeader
  split
  · refine frame_consume earlyFrame (earlyFrame_refl r) (fun x1 s1 => ?_)
    refine frame_consume earlyFrame ⟨_, _, _, _, rfl⟩ (fun x2 s2 => ?_)
    refine frame_consume earlyFrame ⟨_, _, _, _, rfl⟩ (fun x3 s3 => ?_)
    refine frame_consume earlyFrame ⟨_, _, _, _, rfl⟩ (fun x4 s4 => ?_)
    split
    · exact frame_consume earlyFrame ⟨_, _, _, _, rfl⟩ (fun x5 s5 => ⟨_, _, _, _, rfl⟩)
    · exact ⟨_, _, _, _, rfl⟩
  · exact earlyFrame_refl r

theorem readRecTypes_table (r : Reader) : r.tableFrame (readRecTypes r).state := by
  unfold readRecTypes
  split
  · split
    · exact tableFrame_refl r
    · refine frame_consume tableFrame (tableFrame_refl r) (fun x1 s1 => ?_)
      refine frame_consume tableFrame ⟨_, _, _, _, rfl⟩ (fun x2 s2 => ?_)
      exact frame_consume tableFrame ⟨_, _, _, _, rfl⟩ (fun x3 s3 => ⟨_, _, _, _, rfl⟩)
  · exact tableFrame_refl r

theorem readRecordSizes_table (r : Reader) : r.tableFrame (readRecordSizes r).state := by
  unfold readRecordSizes
  split
  · exact frame_consume tableFrame (tableFrame_refl r) (fun x1 s1 => ⟨_, _, _, _, rfl⟩)
  · exact tableFrame_refl r

theorem readStringTable_table (r : Reader) : r.tableFrame (readStringTable r).state := by
  unfold readStringTable
  split
  · refine frame_consume tableFrame (tableFrame_refl r) (fun x1 s1 => ?_)
    refine frame_consume tableFrame ⟨_, _, _, _, rfl⟩ (fun x2 s2 => ?_)
    exact frame_consume tableFrame ⟨_, _, _, _, rfl⟩ (fun x3 s3 => ⟨_, _, _, _, rfl⟩)
  · exact tableFrame_refl r

theorem readGroups_table (r : Reader) : r.tableFrame (readGroups r).state := by
  unfold readGroups
  split
  · refine frame_consume tableFrame (tableFrame_refl r) (fun x1 s1 => ?_)
    exact frame_consume tableFrame ⟨_, _, _, _, rfl⟩ (fun x3 s3 => ⟨_, _, _, _, rfl⟩)
  · exact tableFrame_refl r

theorem readRoots_late (r : Reader) : r.lateFrame (readRoots r).state := by
  obtain ⟨_, _, _, _, h⟩ := readRoots_state r
  rw [h]
  exact ⟨_, _, _, _, _, _, _, _, _, rfl⟩

theorem afterStringTable_late (K : Env) (d : Bool) (r : Reader) :
    r.lateFrame (afterStringTable K d r).state := by
  unfold afterStringTable
  refine frame_andThen lateFrame (fun _ _ _ => lateFrame_trans)
    (lateFrame_of_table (readGroups_table r)) (fun r1 => ?_)
  refine frame_andThen lateFrame (fun _ _ _ => lateFrame_trans)
    (lateFrame_of_record (recordLoop_frame K d _ 0 r1)) (fun r2 => ?_)
  exact frame_andThen lateFrame (fun _ _ _ => lateFrame_trans) (readRoots_late r2)
    (fun r3 => lateFrame_of_post (postLoop_frame K _ 0 r3))

theorem afterRecTypes_late (K : Env) (d : Bool) (r : Reader) :
    r.lateFrame (afterRecTypes K d r).state := by
  unfold afterRecTypes
  refine frame_andThen lateFrame (fun _ _ _ => lateFrame_trans)
    (lateFrame_of_table (readRecordSizes_table r)) (fun r1 => ?_)
  exact frame_andThen lateFrame (fun _ _ _ => lateFrame_trans)
    (lateFrame_of_table (readStringTable_table r1)) (fun r2 => afterStringTable_late K d r2)

theorem afterBSStreamHeader_late (K : Env) (d : Bool) (r : Reader) :
    r.lateFrame (afterBSStreamHeader K d r).state := by
  unfold afterBSStreamHeader
  exact frame_andThen lateFrame (fun _ _ _ => lateFrame_trans)
    (lateFrame_of_table (readRecTypes_table r)) (fun r1 => afterRecTypes_late K d r1)

theorem readUserVersion_state (r : Reader) :
    ∃ userVersion nif,
      (readUserVersion r).state = { r with mUserVersion := userVersion, nif := nif } := by
  unfold readUserVersion
  split
  · rcases consume_cases getU32 (fun userVersion r =>
        Outcome.done { r with mUserVersion := userVersion }) r with ⟨-, h⟩ | ⟨x, rest, -, h⟩
    · rw [h]; exact ⟨_, _, rfl⟩
    · rw [h]; exact ⟨_, _, rfl⟩
  · exact ⟨_, _, rfl⟩

theorem readVersion_done {K : Env} {l d : Bool} {r r1 : Reader}
    (h : readVersion K l d r = .done r1) :
    ∃ v rest log, getU32 r.nif = some (v, rest) ∧
      r1 = { r with mVersion := v, nif := rest, log := log } ∧
      (supportedVersion K v = true ∨ l = true) := by
  unfold readVersion at h
  rcases consume_cases getU32 (fun version r =>
      if supportedVersion K version = true then Outcome.done { r with mVersion := version }
      else if (!l) = true then
        Outcome.thrown (.unsupportedVersion (versionToString version))
          { r with mVersion := version }
      else if d = true then
        Outcome.done { r with mVersion := version,
                              log := r.log ++ [LogLine.unsupportedVersion (versionToString version)] }
      else Outcome.done { r with mVersion := version }) r with ⟨_, h1⟩ | ⟨v, rest, hv, h1⟩
  · rw [h1] at h; simp at h
  · rw [h1] at h
    refine ⟨v, rest, ?_⟩
    split at h
    · rename_i hs
      injection h with h
      exact ⟨_, hv, h.symm, Or.inl hs⟩
    · split at h
      · simp at h
      · rename_i hl
        have hl1 : l = true := by simpa using hl
        split at h
        · injection h with h
          exact ⟨_, hv, h.symm, Or.inr hl1⟩
        · injection h with h
          exact ⟨_, hv, h.symm, Or.inr hl1⟩

/-- The state in which the optional sections start: the version field holds the packed version read
after a recognised banner, and only the header fields and the record sequence have been written. -/
theorem decodeToSections_done {K : Env} {l d : Bool} {r rc : Reader} {stream : Bytes}
    (h : decodeToSections K l d r stream = .done rc) :
    supportedHeader (getVersionString stream).1 = true ∧
    ∃ v rest, getU32 (getVersionString stream).2 = some (v, rest) ∧ rc.mVersion = v ∧
      (supportedVersion K v = true ∨ l = true) ∧ rc.mBethVersion = r.mBethVersion ∧
      rc.mStrings = r.mStrings ∧ rc.calls = r.calls ∧ rc.mRoots = r.mRoots ∧
      rc.recTypes = [] ∧ rc.recTypeIndices = [] := by
  unfold decodeToSections decodeHeader at h
  obtain ⟨r4, h, h5⟩ := Outcome.andThen_eq_done.mp h
  obtain ⟨r1, h1, h⟩ := Outcome.andThen_eq_done.mp h
  obtain ⟨r2, h2, h⟩ := Outcome.andThen_eq_done.mp h
  obtain ⟨r3, h3, h4⟩ := Outcome.andThen_eq_done.mp h
  rw [readHeader_eq] at h1
  dsimp only at h1
  split at h1
  · rename_i hs
    injection h1 with h1
    subst h1
    obtain ⟨v, rest, log, hv, rfl, hsup⟩ := readVersion_done h2
    obtain ⟨_, h6⟩ := readEndianness_state
      { r with nif := rest, recTypes := [], recTypeIndices := [],
               mHash := r.mHash ++ K.getHash r.mFilename stream, mVersion := v, log := log }
    rw [h3] at h6
    simp only [Outcome.state_done] at h6
    subst h6
    obtain ⟨_, _, h7⟩ := readUserVersion_state _
    rw [h4] at h7
    simp only [Outcome.state_done] at h7
    subst h7
    obtain ⟨count, rest2, -, rfl⟩ := readRecordCount_done h5
    exact ⟨hs, v, rest, hv, rfl, hsup, rfl, rfl, rfl, rfl, rfl, rfl⟩
  · simp at h1

/-! ## The string table -/

theorem readRecTypes_state (r : Reader) :
    ∃ nif recTypes recTypeIndices,
      (readRecTypes r).state
        = { r with nif := nif, recTypes := recTypes, recTypeIndices := recTypeIndices } := by
  unfold readRecTypes
  split
  · split
    · exact ⟨_, _, _, rfl⟩
    · refine frame_consume (fun a b => ∃ nif recTypes recTypeIndices,
          b = { a with nif := nif, recTypes := recTypes, recTypeIndices := recTypeIndices })
        ⟨_, _, _, rfl⟩ (fun x1 s1 => ?_)
      refine frame_consume (fun _ b => ∃ nif recTypes recTypeIndices,
          b = { r with nif := nif, recTypes := recTypes, recTypeIndices := recTypeIndices })
        ⟨_, _, _, rfl⟩ (fun x2 s2 => ?_)
      exact frame_consume (fun _ b => ∃ nif recTypes recTypeIndices,
          b = { r with nif := nif, recTypes := recTypes, recTypeIndices := recTypeIndices })
        ⟨_, _, _, rfl⟩ (fun x3 s3 => ⟨_, _, _, rfl⟩)
  · exact ⟨_, _, _, rfl⟩

theorem readRecordSizes_state (r : Reader) :
    ∃ nif, (readRecordSizes r).state = { r with nif := nif } := by
  unfold readRecordSizes
  split
  · exact frame_consume (fun a b => ∃ nif, b = { a with nif := nif }) ⟨_, rfl⟩
      (fun x1 s1 => ⟨_, rfl⟩)
  · exact ⟨_, rfl⟩

theorem readGroups_state (r : Reader) :
    ∃ nif, (readGroups r).state = { r with nif := nif } := by
  unfold readGroups
  split
  · refine frame_consume (fun a b => ∃ nif, b = { a with nif := nif }) ⟨_, rfl⟩
      (fun x1 s1 => ?_)
    exact frame_consume (fun _ b => ∃ nif, b = { r with nif := nif }) ⟨_, rfl⟩
      (fun x2 s2 => ⟨_, rfl⟩)
  · exact ⟨_, rfl⟩

/-- Nothing after the string table writes the string table, the type table or the three version
fields. -/
theorem afterStringTable_keeps (K : Env) (d : Bool) (r : Reader) :
    (afterStringTable K d r).state.mStrings = r.mStrings ∧
    (afterStringTable K d r).state.mVersion = r.mVersion := by
  have h : (fun a b : Reader => b.mStrings = a.mStrings ∧ b.mVersion = a.mVersion) r
      (afterStringTable K d r).state := by
    unfold afterStringTable
    refine frame_andThen (fun a b : Reader => b.mStrings = a.mStrings ∧ b.mVersion = a.mVersion)
      (fun _ _ _ h1 h2 => ⟨h2.1.trans h1.1, h2.2.trans h1.2⟩) ?_ (fun r1 => ?_)
    · obtain ⟨_, h⟩ := readGroups_state r
      rw [h]
      exact ⟨rfl, rfl⟩
    refine frame_andThen (fun a b : Reader => b.mStrings = a.mStrings ∧ b.mVersion = a.mVersion)
      (fun _ _ _ h1 h2 => ⟨h2.1.trans h1.1, h2.2.trans h1.2⟩) ?_ (fun r2 => ?_)
    · obtain ⟨_, _, _, _, h, -⟩ := recordLoop_frame K d r1.mRecords.length 0 r1
      unfold decodeRecords
      rw [h]
      exact ⟨rfl, rfl⟩
    refine frame_andThen (fun a b : Reader => b.mStrings = a.mStrings ∧ b.mVersion = a.mVersion)
      (fun _ _ _ h1 h2 => ⟨h2.1.trans h1.1, h2.2.trans h1.2⟩) ?_ (fun r3 => ?_)
    · obtain ⟨_, _, _, _, h⟩ := readRoots_state r2
      rw [h]
      exact ⟨rfl, rfl⟩
    · obtain ⟨_, _, h⟩ := postLoop_frame K r3.mRecords.length 0 r3
      unfold postRecords
      rw [h]
      exact ⟨rfl, rfl⟩
  exact h

/-- The state in which the string table is due: the version is the one read after the banner and
the string table is still the one before the call. -/
theorem decodeToStringTable_done {K : Env} {l d : Bool} {r rs : Reader} {stream : Bytes}
    (h : decodeToStringTable K l d r stream = .done rs) :
    ∃ v rest, getU32 (getVersionString stream).2 = some (v, rest) ∧ rs.mVersion = v ∧
      rs.mStrings = r.mStrings := by
  unfold decodeToStringTable decodeToRecTypes at h
  obtain ⟨rb, h, h3⟩ := Outcome.andThen_eq_done.mp h
  obtain ⟨rc, h1, h2⟩ := Outcome.andThen_eq_done.mp h
  obtain ⟨rt, h4, h5⟩ := Outcome.andThen_eq_done.mp h3
  obtain ⟨-, v, rest, hv, hver, -, -, hstr, -⟩ := decodeToSections_done h1
  refine ⟨v, rest, hv, ?_, ?_⟩
  · obtain ⟨_, _, _, _, h6⟩ := readBSStreamHeader_early K rc
    obtain ⟨_, _, _, h7⟩ := readRecTypes_state rb
    obtain ⟨_, h8⟩ := readRecordSizes_state rt
    rw [h2] at h6
    rw [h4] at h7
    rw [h5] at h8
    simp only [Outcome.state_done] at h6 h7 h8
    rw [h8, h7, h6]
    exact hver
  · obtain ⟨_, _, _, _, h6⟩ := readBSStreamHeader_early K rc
    obtain ⟨_, _, _, h7⟩ := readRecTypes_state rb
    obtain ⟨_, h8⟩ := readRecordSizes_state rt
    rw [h2] at h6
    rw [h4] at h7
    rw [h5] at h8
    simp only [Outcome.state_done] at h6 h7 h8
    rw [h8, h7, h6]
    exact hstr

theorem readStringTable_done {r r1 : Reader} (h : readStringTable r = .done r1)
    (ht : hasStringTable r.mVersion = true) :
    ∃ n m strings s1 s2 s3, getU32 r.nif = some (n, s1) ∧ getU32 s1 = some (m, s2) ∧
      getSizedStrings n s2 = some (strings, s3) ∧
      r1 = { r with mStrings := strings, nif := s3 } := by
  unfold readStringTable at h
  rw [if_pos ht] at h
  rcases consume_cases getU32 (fun stringNum r =>
      consume getU32 (fun _ r =>
        consume (getSizedStrings stringNum) (fun strings r =>
          Outcome.done { r with mStrings := strings }) r) r) r with ⟨-, h1⟩ | ⟨n, s1, hn, h1⟩
  · rw [h1] at h; simp at h
  rw [h1] at h
  rcases consume_cases getU32 (fun _ r =>
        consume (getSizedStrings n) (fun strings r =>
          Outcome.done { r with mStrings := strings }) r) { r with nif := s1 }
    with ⟨-, h2⟩ | ⟨m, s2, hm, h2⟩
  · rw [h2] at h; simp at h
  rw [h2] at h
  rcases consume_cases (getSizedStrings n) (fun strings r =>
          Outcome.done { r with mStrings := strings }) { r with nif := s2 }
    with ⟨-, h3⟩ | ⟨strings, s3, hs, h3⟩
  · rw [h3] at h; simp at h
  rw [h3] at h
  injection h with h
  exact ⟨n, m, strings, s1, s2, s3, hn, hm, hs, h.symm⟩

theorem readStringTable_of_read {r : Reader} {n m : Nat} {strings : List String}
    {s1 s2 s3 : Bytes} (ht : hasStringTable r.mVersion = true)
    (h1 : getU32 r.nif = some (n, s1)) (h2 : getU32 s1 = some (m, s2))
    (h3 : getSizedStrings n s2 = some (strings, s3)) :
    readStringTable r = .done { r with mStrings := strings, nif := s3 } := by
  unfold readStringTable
  rw [if_pos ht, consume_some h1]
  have h2a : getU32 ({ r with nif := s1 } : Reader).nif = some (m, s2) := h2
  rw [consume_some h2a]
  have h3a : getSizedStrings n ({ r with nif := s2 } : Reader).nif = some (strings, s3) := h3
  rw [consume_some h3a]

/-! ## Hashed record types -/

theorem decodeToRecTypes_error {K : Env} {l d : Bool} {r : Reader} {stream : Bytes} {e : NifError}
    (h : (decodeToRecTypes K l d r stream).error = some e) : e ≠ .hashedRecordTypes := by
  unfold decodeToRecTypes decodeToSections decodeHeader at h
  rcases Outcome.error_andThen h with h | ⟨r5, -, h⟩
  · rcases Outcome.error_andThen h with h | ⟨r4, -, h⟩
    · rcases Outcome.error_andThen h with h | ⟨r1, -, h⟩
      · rw [(readHeader_error h).1]
        simp
      rcases Outcome.error_andThen h with h | ⟨r2, -, h⟩
      · rcases readVersion_error h with h1 | ⟨v, h1⟩ <;> rw [h1] <;> simp
      rcases Outcome.error_andThen h with h | ⟨r3, -, h⟩
      · rcases readEndianness_error h with h1 | h1 <;> rw [h1] <;> simp
      · rw [readUserVersion_error h]
        simp
    · rw [readRecordCount_error h]
      simp
  · rw [readBSStreamHeader_error h]
    simp

theorem afterRecTypes_error {K : Env} {d : Bool} {r : Reader} {e : NifError}
    (h : (afterRecTypes K d r).error = some e) : e ≠ .hashedRecordTypes := by
  unfold afterRecTypes afterStringTable at h
  rcases Outcome.error_andThen h with h | ⟨r1, -, h⟩
  · rw [readRecordSizes_error h]; simp
  rcases Outcome.error_andThen h with h | ⟨r2, -, h⟩
  · rw [readStringTable_error h]; simp
  rcases Outcome.error_andThen h with h | ⟨r3, -, h⟩
  · rw [readGroups_error h]; simp
  rcases Outcome.error_andThen h with h | ⟨r4, -, h⟩
  · rcases decodeRecords_error h with h1 | h1 | ⟨j, h1⟩ | ⟨rec, h1⟩ | h1 <;> rw [h1] <;> simp
  rcases Outcome.error_andThen h with h | ⟨r5, -, h⟩
  · rw [readRoots_error h]; simp
  · rcases postLoop_error h with h1 | h1 <;> rw [h1] <;> simp

theorem readRecTypes_hashed {r : Reader} (h : (readRecTypes r).error = some .hashedRecordTypes) :
    r.mVersion = generateVersion 20 3 1 2 := by
  unfold readRecTypes at h
  split at h
  · split at h
    · rename_i h1
      unfold hasRecTypeHashes at h1
      exact of_decide_eq_true h1
    · rcases error_consume h with h1 | ⟨x1, s1, h1⟩
      · simp at h1
      rcases error_consume h1 with h2 | ⟨x2, s2, h2⟩
      · simp at h2
      rcases error_consume h2 with h3 | ⟨x3, s3, h3⟩
      · simp at h3
      · simp at h3
  · simp at h

/-- The hashed-record-types error is thrown only for an input whose packed version is 20.3.1.2. -/
theorem parse_hashed_version {K : Env} {l d : Bool} {r : Reader} {stream : Bytes}
    (h : (parse K l d r stream).error = some .hashedRecordTypes) :
    ∃ rest, getU32 (getVersionString stream).2 = some (generateVersion 20 3 1 2, rest) := by
  rw [parse_eq_recTypes] at h
  rcases Outcome.error_andThen h with h | ⟨rb, hb, h⟩
  · exact absurd rfl (decodeToRecTypes_error h)
  rcases Outcome.error_andThen h with h | ⟨rt, -, h⟩
  · have h1 := readRecTypes_hashed h
    unfold decodeToRecTypes at hb
    obtain ⟨rc, h2, h3⟩ := Outcome.andThen_eq_done.mp hb
    obtain ⟨-, v, rest, hv, hver, -⟩ := decodeToSections_done h2
    obtain ⟨_, _, _, _, h4⟩ := readBSStreamHeader_early K rc
    rw [h3] at h4
    simp only [Outcome.state_done] at h4
    rw [h4] at h1
    have h5 : v = generateVersion 20 3 1 2 := by rw [← hver]; exact h1
    rw [h5] at hv
    exact ⟨rest, hv⟩
  · exact absurd rfl (afterRecTypes_error h)

theorem hasBSStreamHeader_hashed {K : Env} (u : Nat)
    (hold : K.VER_OB_OLD ≠ generateVersion 20 3 1 2) (hob : K.VER_OB < generateVersion 20 3 1 2)
    (hbgs : K.VER_BGS ≠ generateVersion 20 3 1 2) :
    hasBSStreamHeader K (generateVersion 20 3 1 2) u = false := by
  cases h : hasBSStreamHeader K (generateVersion 20 3 1 2) u with
  | false => rfl
  | true =>
    rcases (hasBSStreamHeader_iff K _ u).mp h with h1 | ⟨-, -, h1 | h1, -⟩
    · exact absurd h1.symm hold
    · omega
    · exact absurd h1.symm hbgs

theorem readRecTypes_throws_hashed {r : Reader} (hv : r.mVersion = generateVersion 20 3 1 2) :
    readRecTypes r = .thrown .hashedRecordTypes r := by
  unfold readRecTypes
  have h1 : hasRecTypeListings r.mVersion = true := by rw [hv]; decide
  have h2 : hasRecTypeHashes r.mVersion = true := by rw [hv]; decide
  rw [if_pos h1, if_pos h2]

theorem readBSStreamHeader_skip {K : Env} {r : Reader}
    (h : hasBSStreamHeader K r.mVersion r.mUserVersion = false) :
    readBSStreamHeader K r = .done r := by
  unfold readBSStreamHeader
  rw [h]
  rfl

/-- A 20.3.1.2 input with a non-zero endianness byte, a user version and a record count ends in the
hashed-record-types error, thrown right after the record count. -/
theorem afterVersion_hashed {K : Env} {d : Bool} {r : Reader} {e u n : Nat}
    {rest1 rest2 rest3 : Bytes} (hv : r.mVersion = generateVersion 20 3 1 2)
    (hend : getU8 r.nif = some (e, rest1)) (he : e ≠ 0)
    (huser : getU32 rest1 = some (u, rest2)) (hcount : getU32 rest2 = some (n, rest3))
    (hold : K.VER_OB_OLD ≠ generateVersion 20 3 1 2) (hob : K.VER_OB < generateVersion 20 3 1 2)
    (hbgs : K.VER_BGS ≠ generateVersion 20 3 1 2) :
    afterVersion K d r = .thrown .hashedRecordTypes
      { r with nif := rest3, mUserVersion := u, mRecords := resize r.mRecords n none } := by
  have f1 : hasEndianness (generateVersion 20 3 1 2) = true := by decide
  have f2 : hasUserVersion (generateVersion 20 3 1 2) = true := by decide
  have f5 := hasBSStreamHeader_hashed (K := K) u hold hob hbgs
  have s1 : readEndianness r = .done { r with nif := rest1 } := by
    unfold readEndianness
    have h1 : (fun s => if hasEndianness r.mVersion = true then getU8 s else some (1, s)) r.nif
        = some (e, rest1) := by
      simp only [hv, f1, if_true]
      exact hend
    rw [consume_some h1, if_neg he]
  have s2 : readUserVersion { r with nif := rest1 }
      = .done { r with nif := rest2, mUserVersion := u } := by
    unfold readUserVersion
    have h1 : hasUserVersion ({ r with nif := rest1 } : Reader).mVersion = true := by
      show hasUserVersion r.mVersion = true
      rw [hv]; exact f2
    have h2 : getU32 ({ r with nif := rest1 } : Reader).nif = some (u, rest2) := huser
    rw [if_pos h1, consume_some h2]
  have s3 : readRecordCount { r with nif := rest2, mUserVersion := u }
      = .done { r with nif := rest3, mUserVersion := u,
                       mRecords := resize r.mRecords n none } := by
    unfold readRecordCount
    have h2 : getU32 ({ r with nif := rest2, mUserVersion := u } : Reader).nif
        = some (n, rest3) := hcount
    rw [consume_some h2]
  have key : ∀ (g : Reader → Outcome) (x : Reader), x.mVersion = generateVersion 20 3 1 2 →
      x.mUserVersion = u →
      (readBSStreamHeader K x).andThen (fun r1 => (readRecTypes r1).andThen g)
        = .thrown .hashedRecordTypes x := by
    intro g x hx hu
    rw [readBSStreamHeader_skip (by rw [hx, hu]; exact f5), Outcome.andThen_done,
      readRecTypes_throws_hashed hx]
    rfl
  unfold afterVersion afterEndianness decodeSections
  rw [s1, Outcome.andThen_done, s2, Outcome.andThen_done, s3, Outcome.andThen_done]
  simp only [Outcome.andThen_assoc]
  apply key
  · exact hv
  · rfl

/-! ## The record type table -/

theorem readRecTypes_of_read {r : Reader} {count : Nat} {names : List String} {idxs : List Nat}
    {s1 s2 s3 : Bytes} (h1 : hasRecTypeListings r.mVersion = true)
    (h2 : hasRecTypeHashes r.mVersion = false) (h3 : getU16 r.nif = some (count, s1))
    (h4 : getSizedStrings count s1 = some (names, s2))
    (h5 : readVector getU16 r.mRecords.length s2 = some (idxs, s3)) :
    readRecTypes r = .done { r with recTypes := names, recTypeIndices := idxs, nif := s3 } := by
  unfold readRecTypes
  rw [if_pos h1, h2, if_neg (by decide), consume_some h3]
  have h4a : getSizedStrings count ({ r with nif := s1 } : Reader).nif = some (names, s2) := h4
  rw [consume_some h4a]
  dsimp only
  have h5a : readVector getU16 r.mRecords.length
      ({ r with nif := s2, recTypes := names } : Reader).nif = some (idxs, s3) := h5
  rw [consume_some h5a]

theorem decodeUpTo_eq (K : Env) (l d : Bool) (r : Reader) (stream : Bytes) (i : Nat) :
    decodeUpTo K l d r stream i =
      (decodeToRecTypes K l d r stream).andThen (fun r1 => (readRecTypes r1).andThen
        (fun r2 => (readRecordSizes r2).andThen (fun r3 => (readStringTable r3).andThen
          (fun r4 => (readGroups r4).andThen (recordLoop K d i 0))))) := by
  unfold decodeUpTo decodeToRecTypes decodeToSections decodeSections
  simp only [Outcome.andThen_assoc]

/-- The type table and the version seen by the pass for index i are those the type-table stage
left. -/
theorem decodeUpTo_recTypes {K : Env} {l d : Bool} {r rb ri : Reader} {stream : Bytes} {i : Nat}
    (hb : decodeToRecTypes K l d r stream = .done rb)
    (hi : decodeUpTo K l d r stream i = .done ri) :
    ∃ rt, readRecTypes rb = .done rt ∧ ri.recTypes = rt.recTypes ∧
      ri.recTypeIndices = rt.recTypeIndices ∧ ri.mVersion = rb.mVersion := by
  rw [decodeUpTo_eq, hb, Outcome.andThen_done] at hi
  obtain ⟨rt, h1, hi⟩ := Outcome.andThen_eq_done.mp hi
  obtain ⟨r3, h2, hi⟩ := Outcome.andThen_eq_done.mp hi
  obtain ⟨r4, h3, hi⟩ := Outcome.andThen_eq_done.mp hi
  obtain ⟨r5, h4, hi⟩ := Outcome.andThen_eq_done.mp hi
  obtain ⟨_, _, _, h5⟩ := readRecTypes_state rb
  obtain ⟨_, h6⟩ := readRecordSizes_state rt
  obtain ⟨strings, nif, h7⟩ : ∃ (strings : List String) (nif : Bytes),
      r4 = { r3 with mStrings := strings, nif := nif } := by
    by_cases ht : hasStringTable r3.mVersion = true
    · obtain ⟨n, m, strings, s1, s2, s3, -, -, -, h9⟩ := readStringTable_done h3 ht
      exact ⟨strings, s3, h9⟩
    · have h9 : readStringTable r3 = .done r3 := by
        unfold readStringTable
        rw [if_neg ht]
      rw [h9] at h3
      injection h3 with h3
      exact ⟨r3.mStrings, r3.nif, h3.symm⟩
  obtain ⟨_, h8⟩ := readGroups_state r4
  obtain ⟨_, _, _, _, h9, -⟩ := recordLoop_frame K d i 0 r5
  rw [h1] at h5
  rw [h2] at h6
  rw [h4] at h8
  rw [hi] at h9
  simp only [Outcome.state_done] at h5 h6 h8 h9
  refine ⟨rt, h1, ?_, ?_, ?_⟩
  · rw [h9, h8, h7, h6]
  · rw [h9, h8, h7, h6]
  · rw [h9, h8, h7, h6, h5]

theorem recordTypeName_table {i t : Nat} {r : Reader} {name : String}
    (h1 : hasRecTypeListings r.mVersion = true) (h2 : r.recTypeIndices[i]? = some t)
    (h3 : r.recTypes[t]? = some name) : recordTypeName i r = .ok (name, r.nif) := by
  unfold recordTypeName
  rw [if_pos h1, h2]
  dsimp only
  rw [h3]

theorem recordTypeName_inline {i : Nat} {r : Reader}
    (h1 : hasRecTypeListings r.mVersion = false) :
    (∀ (name : String) (rest : Bytes), getSizedString r.nif = some (name, rest) →
      recordTypeName i r = .ok (name, rest)) ∧
    (getSizedString r.nif = none → recordTypeName i r = .error .truncatedStream) := by
  unfold recordTypeName
  rw [h1]
  constructor
  · intro name rest h
    rw [h]
    rfl
  · intro h
    rw [h]
    rfl

/-! ## Outcomes up to the log -/

theorem eraseLog_withLog (r : Reader) (log : List LogLine) :
    ({ r with log := log } : Reader).eraseLog = r.eraseLog := rfl

theorem eq_withLog_of_eraseLog {s s1 : Reader} (h : s1.eraseLog = s.eraseLog) :
    s1 = { s with log := s1.log } := by
  cases s
  cases s1
  simp only [eraseLog, Reader.mk.injEq] at h
  simp only [Reader.mk.injEq]
  tauto

theorem logBlind_andThen {f g : Reader → Outcome} (hf : LogBlind f) (hg : LogBlind g) :
    LogBlind (fun r => (f r).andThen g) := by
  intro r log
  have h := hf r log
  show ((f { r with log := log }).andThen g).eraseLog = ((f r).andThen g).eraseLog
  cases h1 : f { r with log := log } with
  | done s1 =>
    cases h2 : f r with
    | done s =>
      rw [h1, h2] at h
      simp only [Outcome.eraseLog, Outcome.done.injEq] at h
      rw [Outcome.andThen_done, Outcome.andThen_done, eq_withLog_of_eraseLog h]
      exact hg s s1.log
    | thrown e s =>
      rw [h1, h2] at h
      simp [Outcome.eraseLog] at h
  | thrown e1 s1 =>
    cases h2 : f r with
    | done s =>
      rw [h1, h2] at h
      simp [Outcome.eraseLog] at h
    | thrown e s =>
      rw [h1, h2] at h
      exact h

theorem logBlind_consume {α : Type} {get : Bytes → Option (α × Bytes)}
    {k : α → Reader → Outcome} (hk : ∀ x, LogBlind (k x)) : LogBlind (consume get k) := by
  intro r log
  unfold consume
  show (match get r.nif with
      | none => Outcome.thrown .truncatedStream { r with log := log }
      | some (x, rest) => k x { r with nif := rest, log := log }).eraseLog = _
  cases get r.nif with
  | none => rfl
  | some p => exact hk p.1 { r with nif := p.2 } log

theorem logBlind_done : LogBlind Outcome.done := fun _ _ => rfl

theorem logBlind_thrown (e : NifError) : LogBlind (Outcome.thrown e) := fun _ _ => rfl

/-- Two states that differ in the log only are taken to the same outcome up to the log. -/
theorem logBlind_congr {f : Reader → Outcome} (hf : LogBlind f) (r : Reader)
    (log1 log2 : List LogLine) :
    (f { r with log := log1 }).eraseLog = (f { r with log := log2 }).eraseLog :=
  (hf r log1).trans (hf r log2).symm

theorem logBlind_recordSeparator (i : Nat) (rec : String) {k : Reader → Outcome}
    (hk : LogBlind k) : LogBlind (recordSeparator i rec k) := by
  intro r log
  unfold recordSeparator
  by_cases hc : (hasRecordSeparators r.mVersion && !startsWith rec "bhk") = true
  · have hc1 : (hasRecordSeparators ({ r with log := log } : Reader).mVersion
        && !startsWith rec "bhk") = true := hc
    rw [if_pos hc, if_pos hc1]
    refine logBlind_consume (fun separator => ?_) r log
    intro r1 log1
    dsimp only
    by_cases hz : separator ≠ 0
    · rw [if_pos hz, if_pos hz]
      exact logBlind_congr hk { r1 with calls := r1.calls ++ [Call.separator i] } _ _
    · rw [if_neg hz, if_neg hz]
      exact hk { r1 with calls := r1.calls ++ [Call.separator i] } log1
  · have hc1 : ¬ (hasRecordSeparators ({ r with log := log } : Reader).mVersion
        && !startsWith rec "bhk") = true := hc
    rw [if_neg hc, if_neg hc1]
    exact hk r log

theorem logBlind_readRecord (K : Env) (d : Bool) (i : Nat) : LogBlind (readRecord K d i) := by
  intro r log
  unfold readRecord
  have hn : recordTypeName i { r with log := log } = recordTypeName i r := rfl
  rw [hn]
  cases recordTypeName i r with
  | error e => rfl
  | ok p =>
    obtain ⟨rec, rest⟩ := p
    dsimp only
    by_cases hrec : rec = ""
    · rw [if_pos hrec, if_pos hrec]
      rfl
    · rw [if_neg hrec, if_neg hrec]
      refine logBlind_recordSeparator i rec ?_ { r with nif := rest } log
      intro r1 log1
      dsimp only
      cases factories.lookup rec with
      | none => rfl
      | some entry =>
        dsimp only
        by_cases hd : (!supportedVersion K r1.mVersion && d) = true
        · simp only [hd, if_true]
          cases K.recordRead { construct entry with recName := rec, recIndex := i } r1.mVersion
              r1.mUserVersion r1.mBethVersion r1.mStrings r1.nif with
          | none => rfl
          | some rest2 => rfl
        · simp only [hd, Bool.false_eq_true, if_false]
          cases K.recordRead { construct entry with recName := rec, recIndex := i } r1.mVersion
              r1.mUserVersion r1.mBethVersion r1.mStrings r1.nif with
          | none => rfl
          | some rest2 => rfl

theorem logBlind_recordLoop (K : Env) (d : Bool) (n i : Nat) : LogBlind (recordLoop K d n i) := by
  induction n generalizing i with
  | zero => exact fun _ _ => rfl
  | succ n ih =>
    have h : recordLoop K d (n + 1) i
        = fun r => (readRecord K d i r).andThen (recordLoop K d n (i + 1)) := by
      funext r
      rfl
    rw [h]
    exact logBlind_andThen (logBlind_readRecord K d i) (ih (i + 1))

theorem logBlind_readRoot (i : Nat) : LogBlind (readRoot i) := by
  unfold readRoot
  refine logBlind_consume (fun idx => ?_)
  intro r log
  dsimp only
  by_cases hc : idx ≥ 0 ∧ idx.toNat < r.mRecords.length
  · rw [if_pos hc, if_pos hc]
    rfl
  · rw [if_neg hc, if_neg hc]
    rfl

theorem logBlind_rootLoop (n i : Nat) : LogBlind (rootLoop n i) := by
  induction n generalizing i with
  | zero => exact fun _ _ => rfl
  | succ n ih =>
    have h : rootLoop (n + 1) i = fun r => (readRoot i r).andThen (rootLoop n (i + 1)) := by
      funext r
      rfl
    rw [h]
    exact logBlind_andThen (logBlind_readRoot i) (ih (i + 1))

theorem logBlind_readRoots : LogBlind readRoots := by
  unfold readRoots
  refine logBlind_consume (fun count => ?_)
  intro r log
  exact logBlind_rootLoop _ 0 { r with mRoots := resize r.mRoots count none } log

theorem logBlind_postRecord (K : Env) (i : Nat) : LogBlind (postRecord K i) := by
  intro r log
  unfold postRecord
  show (match r.mRecords[i]? with
      | some (some record) =>
          match K.recordPost record r.mRecords r.mUseSkinning with
          | none => Outcome.thrown .recordPost
              { r with log := log, calls := r.calls ++ [Call.post i] }
          | some skinning => Outcome.done
              { r with log := log, calls := r.calls ++ [Call.post i], mUseSkinning := skinning }
      | _ => Outcome.thrown .undefinedBehaviour { r with log := log }).eraseLog = _
  cases h : r.mRecords[i]? with
  | none => rfl
  | some o =>
    cases o with
    | none => rfl
    | some record =>
      dsimp only
      cases K.recordPost record r.mRecords r.mUseSkinning with
      | none => rfl
      | some skinning => rfl

theorem logBlind_postLoop (K : Env) (n i : Nat) : LogBlind (postLoop K n i) := by
  induction n generalizing i with
  | zero => exact fun _ _ => rfl
  | succ n ih =>
    have h : postLoop K (n + 1) i = fun r => (postRecord K i r).andThen (postLoop K n (i + 1)) := by
      funext r
      rfl
    rw [h]
    exact logBlind_andThen (logBlind_postRecord K i) (ih (i + 1))

theorem logBlind_postRecords (K : Env) : LogBlind (postRecords K) := by
  intro r log
  exact logBlind_postLoop K r.mRecords.length 0 r log

/-- Nothing from the record loop on reads the log. -/
theorem logBlind_decodeFrom (K : Env) (d : Bool) (n i : Nat) : LogBlind (decodeFrom K d n i) := by
  unfold decodeFrom
  exact logBlind_andThen (logBlind_recordLoop K d n i)
    (logBlind_andThen logBlind_readRoots (logBlind_postRecords K))

/-! ## The record separator -/

/-- A pass of the record loop whose type name is not empty is the separator followed by the lookup,
the construction, the read hook and the store. -/
theorem readRecord_eq_store {K : Env} {d : Bool} {i : Nat} {r : Reader} {rec : String}
    {rest : Bytes} (hn : recordTypeName i r = .ok (rec, rest)) (hrec : rec ≠ "") :
    readRecord K d i r = recordSeparator i rec (storeRecord K d i rec) { r with nif := rest } := by
  unfold readRecord
  rw [hn]
  dsimp only
  rw [if_neg hrec]
  rfl

theorem logBlind_storeRecord (K : Env) (d : Bool) (i : Nat) (rec : String) :
    LogBlind (storeRecord K d i rec) := by
  intro r1 log1
  unfold storeRecord
  dsimp only
  cases factories.lookup rec with
  | none => rfl
  | some entry =>
    dsimp only
    by_cases hd : (!supportedVersion K r1.mVersion && d) = true
    · simp only [hd, if_true]
      cases K.recordRead { construct entry with recName := rec, recIndex := i } r1.mVersion
          r1.mUserVersion r1.mBethVersion r1.mStrings r1.nif with
      | none => rfl
      | some rest2 => rfl
    · simp only [hd, Bool.false_eq_true, if_false]
      cases K.recordRead { construct entry with recName := rec, recIndex := i } r1.mVersion
          r1.mUserVersion r1.mBethVersion r1.mStrings r1.nif with
      | none => rfl
      | some rest2 => rfl

theorem recordSeparator_skip {i : Nat} {rec : String} {k : Reader → Outcome} {r : Reader}
    (h : (hasRecordSeparators r.mVersion && !startsWith rec "bhk") = false) :
    recordSeparator i rec k r = k r := by
  unfold recordSeparator
  rw [h]
  rfl

theorem recordSeparator_read {i : Nat} {rec : String} {k : Reader → Outcome} {r : Reader}
    {v : Int} {rest : Bytes}
    (h : (hasRecordSeparators r.mVersion && !startsWith rec "bhk") = true)
    (hv : getI32 r.nif = some (v, rest)) :
    recordSeparator i rec k r =
      k { r with nif := rest, calls := r.calls ++ [Call.separator i],
                 log := if v ≠ 0 then r.log ++ [LogLine.nonZeroSeparator rec i] else r.log } := by
  unfold recordSeparator
  rw [if_pos h, consume_some hv]
  dsimp only
  by_cases hz : v ≠ 0
  · rw [if_pos hz, if_pos hz]
  · rw [if_neg hz, if_neg hz]

theorem recordSeparator_short {i : Nat} {rec : String} {k : Reader → Outcome} {r : Reader}
    (h : (hasRecordSeparators r.mVersion && !startsWith rec "bhk") = true)
    (hv : getI32 r.nif = none) :
    recordSeparator i rec k r = .thrown .truncatedStream r := by
  unfold recordSeparator
  rw [if_pos h, consume_none hv]

theorem eraseLog_andThen_congr {o1 o2 : Outcome} {g : Reader → Outcome}
    (h : o1.eraseLog = o2.eraseLog) (hg : LogBlind g) :
    (o1.andThen g).eraseLog = (o2.andThen g).eraseLog := by
  cases o1 with
  | done s1 =>
    cases o2 with
    | done s =>
      simp only [Outcome.eraseLog, Outcome.done.injEq] at h
      rw [Outcome.andThen_done, Outcome.andThen_done, eq_withLog_of_eraseLog h]
      exact hg s s1.log
    | thrown e s => simp [Outcome.eraseLog] at h
  | thrown e1 s1 =>
    cases o2 with
    | done s => simp [Outcome.eraseLog] at h
    | thrown e s => exact h

theorem hasRecTypeListings_of_separators {v : Nat} (h : hasRecordSeparators v = true) :
    hasRecTypeListings v = true := by
  unfold hasRecordSeparators at h
  unfold hasRecTypeListings
  simp only [Bool.and_eq_true, decide_eq_true_eq] at h
  apply decide_eq_true
  have h1 : generateVersion 5 0 0 1 ≤ generateVersion 10 0 0 0 := by decide
  omega

/-- The value of a record separator changes nothing but the log: two inputs that differ in the four
bytes of the separator of record i only are taken to the same outcome up to the log. -/
theorem decodeFrom_separator_value {K : Env} {d : Bool} {n i t : Nat} {r : Reader} {rec : String}
    {a b : Int} {s s1 rest : Bytes}
    (hc : (hasRecordSeparators r.mVersion && !startsWith rec "bhk") = true) (hrec : rec ≠ "")
    (ht : r.recTypeIndices[i]? = some t) (hname : r.recTypes[t]? = some rec)
    (ha : getI32 s = some (a, rest)) (hb : getI32 s1 = some (b, rest)) :
    (decodeFrom K d (n + 1) i { r with nif := s }).eraseLog
      = (decodeFrom K d (n + 1) i { r with nif := s1 }).eraseLog := by
  have hsep : hasRecordSeparators r.mVersion = true := by
    simp only [Bool.and_eq_true] at hc
    exact hc.1
  have hlist := hasRecTypeListings_of_separators hsep
  have key : ∀ (x : Bytes) (v : Int), getI32 x = some (v, rest) →
      readRecord K d i { r with nif := x } = storeRecord K d i rec
        { r with nif := rest, calls := r.calls ++ [Call.separator i],
                 log := if v ≠ 0 then r.log ++ [LogLine.nonZeroSeparator rec i] else r.log } := by
    intro x v hx
    have hn : recordTypeName i { r with nif := x } = .ok (rec, x) :=
      recordTypeName_table (r := { r with nif := x }) hlist ht hname
    rw [readRecord_eq_store hn hrec]
    exact recordSeparator_read (r := { r with nif := x }) hc hx
  have hpass : (readRecord K d i { r with nif := s }).eraseLog
      = (readRecord K d i { r with nif := s1 }).eraseLog := by
    rw [key s a ha, key s1 b hb]
    exact logBlind_congr (logBlind_storeRecord K d i rec)
      { r with nif := rest, calls := r.calls ++ [Call.separator i] } _ _
  unfold decodeFrom
  simp only [recordLoop, Outcome.andThen_assoc]
  exact eraseLog_andThen_congr hpass
    (logBlind_andThen (logBlind_recordLoop K d n (i + 1))
      (logBlind_andThen logBlind_readRoots (logBlind_postRecords K)))

/-- From the pass for index i on, parse is the rest of the record loop, the roots and the
post-processing. -/
theorem parse_eq_decodeFrom {K : Env} {l d : Bool} {r ri : Reader} {stream : Bytes} {i : Nat}
    (h : decodeUpTo K l d r stream i = .done ri) (hi : i ≤ ri.mRecords.length) :
    parse K l d r stream = decodeFrom K d (ri.mRecords.length - i) i ri := by
  obtain ⟨rs, h1, h2, -, -, h3⟩ := decodeUpTo_done h
  have h4 : parse K l d r stream =
      ((decodeHeader K l d r stream).andThen (fun r1 => (readRecordCount r1).andThen
        (decodeSections K))).andThen
        (fun r1 => (decodeRecords K d r1).andThen
          (fun r2 => (readRoots r2).andThen (postRecords K))) := by
    unfold parse
    simp only [Outcome.andThen_assoc]
  have h5 : rs.mRecords.length = i + (ri.mRecords.length - i) := by omega
  rw [h4, h1, Outcome.andThen_done]
  unfold decodeRecords decodeFrom
  rw [h5, recordLoop_add, h2, Outcome.andThen_done, Nat.zero_add]

/-! ## The registry -/

theorem mem_of_lookup {α : Type} {name : String} {c : α} :
    ∀ {l : List (String × α)}, l.lookup name = some c → (name, c) ∈ l
  | [], h => by simp at h
  | (k, v) :: l, h => by
    by_cases hk : name = k
    · subst hk
      simp only [List.lookup_cons, beq_self_eq_true] at h
      simp only [Option.some.injEq] at h
      subst h
      exact List.mem_cons_self _ _
    · have hb : (name == k) = false := by simpa using hk
      simp only [List.lookup_cons, hb] at h
      exact List.mem_cons_of_mem _ (mem_of_lookup h)

set_option maxRecDepth 100000 in
theorem makeFactory_all_known :
    makeFactory.all (fun p => decide (p.2.recordType ≠ RC_MISSING)) = true := by
  decide

theorem makeFactory_known {name : String} {c : CreateRecord} (h : (name, c) ∈ makeFactory) :
    c.recordType ≠ RC_MISSING := by
  have := List.all_eq_true.mp makeFactory_all_known (name, c) h
  simpa using this

theorem lookup_known {name : String} {entry : CreateRecord}
    (h : factories.lookup name = some entry) : entry.recordType ≠ RC_MISSING :=
  makeFactory_known (mem_of_lookup h)

/-! ## The textual form, read back -/

set_option maxRecDepth 100000 in
theorem byteOfDecimal_decimalOfByte : ∀ b, b < 256 → byteOfDecimal (decimalOfByte b) = b := by
  decide

set_option maxRecDepth 100000 in
theorem decimalOfByte_noDot : ∀ b, b < 256 → '.' ∉ (decimalOfByte b).data := by
  decide

theorem decimalOfByte_inj {a b : Nat} (ha : a < 256) (hb : b < 256)
    (h : decimalOfByte a = decimalOfByte b) : a = b := by
  rw [← byteOfDecimal_decimalOfByte a ha, ← byteOfDecimal_decimalOfByte b hb, h]

theorem split_at_separator {a : Char} :
    ∀ {xs xs1 ys ys1 : List Char}, a ∉ xs → a ∉ xs1 → xs ++ a :: ys = xs1 ++ a :: ys1 →
      xs = xs1 ∧ ys = ys1
  | [], [], _, _, _, _, h => by simpa using h
  | [], c :: xs1, _, _, _, h2, h => by
    simp only [List.nil_append, List.cons_append, List.cons.injEq] at h
    exact absurd (h.1 ▸ List.mem_cons_self _ _) h2
  | c :: xs, [], _, _, h1, _, h => by
    simp only [List.nil_append, List.cons_append, List.cons.injEq] at h
    exact absurd (h.1 ▸ List.mem_cons_self _ _) h1
  | c :: xs, c1 :: xs1, _, _, h1, h2, h => by
    simp only [List.cons_append, List.cons.injEq] at h
    obtain ⟨h3, h4⟩ := split_at_separator (fun hm => h1 (List.mem_cons_of_mem _ hm))
      (fun hm => h2 (List.mem_cons_of_mem _ hm)) h.2
    exact ⟨by rw [h.1, h3], h4⟩

theorem versionToString_eq (v : Nat) :
    versionToString v =
      decimalOfByte (v / 16777216 % 256) ++ "." ++ decimalOfByte (v / 65536 % 256) ++ "." ++
        decimalOfByte (v / 256 % 256) ++ "." ++ decimalOfByte (v % 256) := by
  unfold versionToString
  simp only [mask_byte, Nat.shiftRight_eq_div_pow]
  have e24 : (2 : Nat) ^ 24 = 16777216 := by norm_num
  have e16 : (2 : Nat) ^ 16 = 65536 := by norm_num
  have e8 : (2 : Nat) ^ 8 = 256 := by norm_num
  rw [e24, e16, e8]
  have h3 := toString_byte (v / 16777216 % 256) (Nat.mod_lt _ (by decide))
  have h2 := toString_byte (v / 65536 % 256) (Nat.mod_lt _ (by decide))
  have h1 := toString_byte (v / 256 % 256) (Nat.mod_lt _ (by decide))
  have h0 := toString_byte (v % 256) (Nat.mod_lt _ (by decide))
  rw [h3, h2, h1, h0]

theorem versionToString_data (v : Nat) :
    (versionToString v).data =
      (decimalOfByte (v / 16777216 % 256)).data ++ '.' ::
        ((decimalOfByte (v / 65536 % 256)).data ++ '.' ::
          ((decimalOfByte (v / 256 % 256)).data ++ '.' :: (decimalOfByte (v % 256)).data)) := by
  rw [versionToString_eq]
  simp only [String.data_append, List.append_assoc]
  rfl

theorem versionToString_inj_parts {v w : Nat} (h : versionToString v = versionToString w) :
    v / 16777216 % 256 = w / 16777216 % 256 ∧ v / 65536 % 256 = w / 65536 % 256 ∧
      v / 256 % 256 = w / 256 % 256 ∧ v % 256 = w % 256 := by
  have hd : (versionToString v).data = (versionToString w).data := by rw [h]
  rw [versionToString_data, versionToString_data] at hd
  have lt : ∀ x : Nat, x % 256 < 256 := fun x => Nat.mod_lt _ (by decide)
  obtain ⟨h3, hd⟩ := split_at_separator (decimalOfByte_noDot _ (lt _))
    (decimalOfByte_noDot _ (lt _)) hd
  obtain ⟨h2, hd⟩ := split_at_separator (decimalOfByte_noDot _ (lt _))
    (decimalOfByte_noDot _ (lt _)) hd
  obtain ⟨h1, h0⟩ := split_at_separator (decimalOfByte_noDot _ (lt _))
    (decimalOfByte_noDot _ (lt _)) hd
  exact ⟨decimalOfByte_inj (lt _) (lt _) (String.ext h3),
    decimalOfByte_inj (lt _) (lt _) (String.ext h2),
    decimalOfByte_inj (lt _) (lt _) (String.ext h1),
    decimalOfByte_inj (lt _) (lt _) (String.ext h0)⟩

/-- A record loop that returns has stored, at each of the n positions from i on, the record made by
the factory cell of a registry name. -/
theorem recordLoop_made {K : Env} {d : Bool} {n i : Nat} {r r1 : Reader}
    (h : recordLoop K d n i r = .done r1) (hn : i + n ≤ r.mRecords.length) :
    ∀ j, i ≤ j → j < i + n → ∃ name entry, factories.lookup name = some entry ∧
      r1.mRecords[j]? = some (some (Record.mk entry.nodeType entry.recordType name j)) := by
  induction n generalizing i r with
  | zero =>
    intro j h1 h2
    omega
  | succ n ih =>
    unfold recordLoop at h
    obtain ⟨r2, h2, h3⟩ := Outcome.andThen_eq_done.mp h
    obtain ⟨name, rest, entry, -, hentry, hrecs⟩ := readRecord_stored h2
    have hlen : r2.mRecords.length = r.mRecords.length := by rw [hrecs]; simp
    obtain ⟨-, -, ih3, -⟩ := recordLoop_done h3 (by omega)
    intro j h4 h5
    by_cases hj : j = i
    · subst hj
      refine ⟨name, entry, hentry, ?_⟩
      rw [ih3 j (by omega), hrecs]
      have hj : j < r.mRecords.length := by omega
      simp [List.getElem?_set, hj]
    · exact ih h3 (by omega) j (by omega) (by omega)

/-- Every record of an accepted input is the one made by the factory cell of its type name. -/
theorem parse_made {K : Env} {l d : Bool} {r f : Reader} {stream : Bytes}
    (h : parse K l d r stream = .done f) :
    ∀ i, i < f.mRecords.length → ∃ name entry, factories.lookup name = some entry ∧
      f.mRecords[i]? = some (some (Record.mk entry.nodeType entry.recordType name i)) := by
  obtain ⟨rh, rc, rs, rr, rt, h1, h2, h3, h4, h5, h6⟩ := parse_done h
  obtain ⟨h8, -, -, -⟩ := recordLoop_done (i := 0) h4 (by simp)
  have h9 := recordLoop_made (i := 0) h4 (by simp)
  obtain ⟨_, _, _, _, h10⟩ := readRoots_state rr
  rw [h5] at h10
  simp only [Outcome.state_done] at h10
  obtain ⟨⟨_, _, h11⟩, -⟩ := postRecords_done h6
  have h12 : f.mRecords = rr.mRecords := by rw [h11, h10]
  intro i hi
  rw [h12] at hi ⊢
  exact h9 i (Nat.zero_le i) (by omega)

/-- A type index at or beyond the number of type names is looked up all the same. -/
theorem readRecord_unchecked {K : Env} {d : Bool} {i t : Nat} {r : Reader}
    (h1 : hasRecTypeListings r.mVersion = true) (h2 : r.recTypeIndices[i]? = some t)
    (h3 : r.recTypes.length ≤ t) : readRecord K d i r = .thrown .undefinedBehaviour r := by
  have h4 : r.recTypes[t]? = none := List.getElem?_eq_none h3
  unfold readRecord recordTypeName
  rw [if_pos h1, h2]
  dsimp only
  rw [h4]

/-- The Bethesda version is the first value of the Bethesda stream header. -/
theorem readBSStreamHeader_beth {K : Env} {r : Reader} {b : Nat} {s1 : Bytes}
    (hflag : hasBSStreamHeader K r.mVersion r.mUserVersion = true)
    (h1 : getU32 r.nif = some (b, s1)) : (readBSStreamHeader K r).state.mBethVersion = b := by
  have key : ∀ s : Reader, s.inputFrame
      (consume getExportString (fun _ r =>
        consume (fun s => if r.mBethVersion ≥ 131 then (getU32 s).map (fun p => ((), p.2))
                          else (getExportString s).map (fun p => ((), p.2))) (fun _ r =>
          consume getExportString (fun _ r =>
            if r.mBethVersion ≥ 103 then consume getExportString (fun _ r => .done r) r
            else .done r) r) r) s).state := by
    intro s
    refine frame_consume inputFrame ⟨_, rfl⟩ (fun x2 s2 => ?_)
    refine frame_consume inputFrame ⟨_, rfl⟩ (fun x3 s3 => ?_)
    refine frame_consume inputFrame ⟨_, rfl⟩ (fun x4 s4 => ?_)
    dsimp only
    split
    · exact frame_consume inputFrame ⟨_, rfl⟩ (fun x5 s5 => ⟨_, rfl⟩)
    · exact ⟨_, rfl⟩
  unfold readBSStreamHeader
  rw [if_pos hflag, consume_some h1]
  obtain ⟨nif, h⟩ := key { r with nif := s1, mBethVersion := b }
  dsimp only
  rw [h]

set_option maxRecDepth 100000 in
theorem makeFactory_length : makeFactory.length = 164 := by
  decide

/-! ## Strict mode -/

theorem andThen_congr_done {o : Outcome} {f g : Reader → Outcome}
    (h : ∀ s, o = .done s → f s = g s) : o.andThen f = o.andThen g := by
  cases o with
  | done s => exact h s rfl
  | thrown e s => rfl

/-- Below 5.0.0.1 no capability flag is set. -/
theorem flags_below {v : Nat} (h : v < generateVersion 5 0 0 1) :
    hasEndianness v = false ∧ hasUserVersion v = false ∧ hasRecTypeListings v = false ∧
    hasRecTypeHashes v = false ∧ hasRecordSizes v = false ∧ hasGroups v = false ∧
    hasStringTable v = false ∧ hasRecordSeparators v = false := by
  unfold hasEndianness hasUserVersion hasRecTypeListings hasRecTypeHashes hasRecordSizes hasGroups
    hasStringTable hasRecordSeparators
  unfold generateVersion at h ⊢
  simp only [decide_eq_false_iff_not, Bool.and_eq_false_imp, decide_eq_true_eq, ge_iff_le]
  refine ⟨?_, ?_, ?_, ?_, ?_, ?_, ?_, ?_⟩ <;> omega

theorem supportedVersion_below {K : Env} {v : Nat} (hmw : K.VER_MW < generateVersion 5 0 0 1)
    (h : supportedVersion K v = true) : v < generateVersion 5 0 0 1 := by
  unfold supportedVersion supportedVers at h
  simp only [List.contains_cons, List.contains_nil, Bool.or_false, Bool.or_eq_true, beq_iff_eq]
    at h
  rcases h with h | h
  · rw [h]; decide
  · rw [h]; exact hmw

theorem hasBSStreamHeader_below {K : Env} {v : Nat} (u : Nat)
    (hob : generateVersion 5 0 0 1 ≤ K.VER_OB_OLD) (h : v < generateVersion 5 0 0 1) :
    hasBSStreamHeader K v u = false := by
  unfold hasBSStreamHeader
  unfold generateVersion at hob h ⊢
  rw [if_neg (by omega), if_neg (by omega)]

theorem readEndianness_skip {r : Reader} (h : hasEndianness r.mVersion = false) :
    readEndianness r = .done r := by
  unfold readEndianness consume
  rw [h]
  rfl

theorem readUserVersion_skip {r : Reader} (h : hasUserVersion r.mVersion = false) :
    readUserVersion r = .done r := by
  unfold readUserVersion
  rw [h]
  rfl

theorem readRecTypes_skip {r : Reader} (h : hasRecTypeListings r.mVersion = false) :
    readRecTypes r = .done r := by
  unfold readRecTypes
  rw [h]
  rfl

theorem readRecordSizes_skip {r : Reader} (h : hasRecordSizes r.mVersion = false) :
    readRecordSizes r = .done r := by
  unfold readRecordSizes
  rw [h]
  rfl

theorem readStringTable_skip {r : Reader} (h : hasStringTable r.mVersion = false) :
    readStringTable r = .done r := by
  unfold readStringTable
  rw [h]
  rfl

theorem readGroups_skip {r : Reader} (h : hasGroups r.mVersion = false) :
    readGroups r = .done r := by
  unfold readGroups
  rw [h]
  rfl

/-- With no Bethesda stream header and no capability flag, the optional sections read nothing. -/
theorem decodeSections_skip {K : Env} {r : Reader}
    (hbs : hasBSStreamHeader K r.mVersion r.mUserVersion = false)
    (h : r.mVersion < generateVersion 5 0 0 1) : decodeSections K r = .done r := by
  obtain ⟨-, -, h1, -, h2, h3, h4, -⟩ := flags_below h
  unfold decodeSections
  rw [readBSStreamHeader_skip hbs, Outcome.andThen_done, readRecTypes_skip h1,
    Outcome.andThen_done, readRecordSizes_skip h2, Outcome.andThen_done, readStringTable_skip h4,
    Outcome.andThen_done, readGroups_skip h3]

/-- With neither a type table nor separators, a pass of the record loop reads an inline type name
and then the record. -/
theorem readRecord_strict (K : Env) (d : Bool) (i : Nat) {r : Reader}
    (h1 : hasRecTypeListings r.mVersion = false) (h2 : hasRecordSeparators r.mVersion = false) :
    readRecord K d i r = strictRecord K d i r := by
  unfold strictRecord
  cases hn : getSizedString r.nif with
  | none =>
    unfold readRecord
    rw [(recordTypeName_inline h1).2 hn]
  | some p =>
    obtain ⟨name, rest⟩ := p
    have hname := (recordTypeName_inline (i := i) h1).1 name rest hn
    dsimp only
    by_cases hrec : name = ""
    · rw [if_pos hrec]
      unfold readRecord
      rw [hname]
      dsimp only
      rw [if_pos hrec]
    · rw [if_neg hrec, readRecord_eq_store hname hrec]
      exact recordSeparator_skip (by
        show (hasRecordSeparators r.mVersion && !startsWith name "bhk") = false
        rw [h2]
        rfl)

theorem recordLoop_strict (K : Env) (d : Bool) (n i : Nat) {r : Reader}
    (h1 : hasRecTypeListings r.mVersion = false) (h2 : hasRecordSeparators r.mVersion = false) :
    recordLoop K d n i r = strictLoop K d n i r := by
  induction n generalizing i r with
  | zero => rfl
  | succ n ih =>
    unfold recordLoop strictLoop
    rw [← readRecord_strict K d i h1 h2]
    apply andThen_congr_done
    intro s hs
    have hf := readRecord_frame K d i r
    rw [hs] at hf
    obtain ⟨_, _, _, _, hf, -⟩ := hf
    have hv : s.mVersion = r.mVersion := by
      simp only [Outcome.state_done] at hf
      rw [hf]
    exact ih (i + 1) (by rw [hv]; exact h1) (by rw [hv]; exact h2)

/-- With the permissive-load toggle off and the version constants where niffile.hpp has them,
parse is the strict layout. -/
theorem parse_strict {K : Env} (hmw : K.VER_MW < generateVersion 5 0 0 1)
    (hob : generateVersion 5 0 0 1 ≤ K.VER_OB_OLD) (d : Bool) (r : Reader) (stream : Bytes) :
    parse K false d r stream = strictLayout K d r stream := by
  rw [parse_eq]
  unfold strictLayout
  apply andThen_congr_done
  intro r1 _
  apply andThen_congr_done
  intro r2 h2
  obtain ⟨v, rest, log, -, hr2, hsup⟩ := readVersion_done h2
  have hv : r2.mVersion = v := by rw [hr2]
  have hlt : r2.mVersion < generateVersion 5 0 0 1 := by
    rw [hv]
    rcases hsup with hsup | hsup
    · exact supportedVersion_below hmw hsup
    · cases hsup
  obtain ⟨f1, f2, f3, -, -, -, -, f8⟩ := flags_below hlt
  unfold afterVersion afterEndianness strictBody
  rw [readEndianness_skip f1, Outcome.andThen_done, readUserVersion_skip f2, Outcome.andThen_done]
  apply andThen_congr_done
  intro rc hc
  obtain ⟨count, rest1, -, hrc⟩ := readRecordCount_done hc
  have hvc : rc.mVersion = r2.mVersion := by rw [hrc]
  rw [decodeSections_skip (hasBSStreamHeader_below _ hob (by rw [hvc]; exact hlt))
    (by rw [hvc]; exact hlt), Outcome.andThen_done]
  unfold decodeRecords
  rw [recordLoop_strict K d _ 0 (by rw [hvc]; exact f3) (by rw [hvc]; exact f8)]

/-! ## The debug-log toggle -/

theorem logBlind_readEndianness : LogBlind readEndianness := by
  intro r log
  unfold readEndianness
  refine logBlind_consume (fun endianness => ?_) r log
  intro r1 log1
  dsimp only
  split <;> rfl

theorem logBlind_ite {c : Reader → Prop} [DecidablePred c]
    (hc : ∀ (r : Reader) (log : List LogLine), c { r with log := log } ↔ c r)
    {f g : Reader → Outcome} (hf : LogBlind f) (hg : LogBlind g) :
    LogBlind (fun r => if c r then f r else g r) := by
  intro r log
  show (if c { r with log := log } then f { r with log := log }
    else g { r with log := log }).eraseLog = (if c r then f r else g r).eraseLog
  by_cases h : c r
  · rw [if_pos h, if_pos ((hc r log).mpr h)]
    exact hf r log
  · rw [if_neg h, if_neg (fun h1 => h ((hc r log).mp h1))]
    exact hg r log

theorem logBlind_readUserVersion : LogBlind readUserVersion := by
  unfold readUserVersion
  exact logBlind_ite (c := fun r => hasUserVersion r.mVersion = true) (fun _ _ => Iff.rfl)
    (logBlind_consume (fun userVersion => fun _ _ => rfl)) logBlind_done

theorem logBlind_readRecordCount : LogBlind readRecordCount := by
  unfold readRecordCount
  exact logBlind_consume (fun count => fun _ _ => rfl)

theorem logBlind_readBSStreamHeader (K : Env) : LogBlind (readBSStreamHeader K) := by
  unfold readBSStreamHeader
  refine logBlind_ite (c := fun r => hasBSStreamHeader K r.mVersion r.mUserVersion = true)
    (fun _ _ => Iff.rfl) ?_ logBlind_done
  refine logBlind_consume (fun x1 => ?_)
  intro r1 log1
  refine logBlind_consume (fun x2 => ?_) { r1 with mBethVersion := x1 } log1
  intro r2 log2
  refine logBlind_consume (fun x3 => ?_) r2 log2
  intro r3 log3
  refine logBlind_consume (fun x4 => ?_) r3 log3
  exact logBlind_ite (c := fun r => r.mBethVersion ≥ 103) (fun _ _ => Iff.rfl)
    (logBlind_consume (fun x5 => fun _ _ => rfl)) logBlind_done

theorem logBlind_readRecTypes : LogBlind readRecTypes := by
  unfold readRecTypes
  refine logBlind_ite (c := fun r => hasRecTypeListings r.mVersion = true) (fun _ _ => Iff.rfl)
    ?_ logBlind_done
  refine logBlind_ite (c := fun r => hasRecTypeHashes r.mVersion = true) (fun _ _ => Iff.rfl)
    (logBlind_thrown _) ?_
  refine logBlind_consume (fun size => ?_)
  refine logBlind_consume (fun names => ?_)
  intro r2 log2
  refine logBlind_consume (fun indices => ?_) { r2 with recTypes := names } log2
  exact fun _ _ => rfl

theorem logBlind_readRecordSizes : LogBlind readRecordSizes := by
  unfold readRecordSizes
  refine logBlind_ite (c := fun r => hasRecordSizes r.mVersion = true) (fun _ _ => Iff.rfl)
    ?_ logBlind_done
  intro r log
  refine logBlind_consume (fun sizes => ?_) r log
  exact fun _ _ => rfl

theorem logBlind_readStringTable : LogBlind readStringTable := by
  unfold readStringTable
  refine logBlind_ite (c := fun r => hasStringTable r.mVersion = true) (fun _ _ => Iff.rfl)
    ?_ logBlind_done
  refine logBlind_consume (fun stringNum => ?_)
  refine logBlind_consume (fun maxLen => ?_)
  exact logBlind_consume (fun strings => fun _ _ => rfl)

theorem logBlind_readGroups : LogBlind readGroups := by
  unfold readGroups
  refine logBlind_ite (c := fun r => hasGroups r.mVersion = true) (fun _ _ => Iff.rfl)
    ?_ logBlind_done
  refine logBlind_consume (fun size => ?_)
  exact logBlind_consume (fun groups => fun _ _ => rfl)

theorem logBlind_decodeSections (K : Env) : LogBlind (decodeSections K) := by
  unfold decodeSections
  exact logBlind_andThen (logBlind_readBSStreamHeader K)
    (logBlind_andThen logBlind_readRecTypes
      (logBlind_andThen logBlind_readRecordSizes
        (logBlind_andThen logBlind_readStringTable logBlind_readGroups)))

theorem logBlind_decodeRecords (K : Env) (d : Bool) : LogBlind (decodeRecords K d) := by
  intro r log
  exact logBlind_recordLoop K d r.mRecords.length 0 r log

theorem sameUpToLog_andThen {f1 f2 g1 g2 : Reader → Outcome} (hf : SameUpToLog f1 f2)
    (hg : SameUpToLog g1 g2) (hb : LogBlind g2) :
    SameUpToLog (fun r => (f1 r).andThen g1) (fun r => (f2 r).andThen g2) := by
  intro r
  have h := hf r
  show ((f1 r).andThen g1).eraseLog = ((f2 r).andThen g2).eraseLog
  cases h1 : f1 r with
  | done s1 =>
    cases h2 : f2 r with
    | done s =>
      rw [h1, h2] at h
      simp only [Outcome.eraseLog, Outcome.done.injEq] at h
      rw [Outcome.andThen_done, Outcome.andThen_done, hg s1, eq_withLog_of_eraseLog h]
      exact hb s s1.log
    | thrown e s =>
      rw [h1, h2] at h
      simp [Outcome.eraseLog] at h
  | thrown e1 s1 =>
    cases h2 : f2 r with
    | done s =>
      rw [h1, h2] at h
      simp [Outcome.eraseLog] at h
    | thrown e s =>
      rw [h1, h2] at h
      exact h

theorem sameUpToLog_of_blind {f : Reader → Outcome} : SameUpToLog f f := fun _ => rfl

theorem sameUpToLog_consume {α : Type} {get : Bytes → Option (α × Bytes)}
    {k1 k2 : α → Reader → Outcome} (hk : ∀ x, SameUpToLog (k1 x) (k2 x)) :
    SameUpToLog (consume get k1) (consume get k2) := by
  intro r
  unfold consume
  cases get r.nif with
  | none => rfl
  | some p => exact hk p.1 { r with nif := p.2 }

theorem sameUpToLog_readVersion (K : Env) (l : Bool) :
    SameUpToLog (readVersion K l true) (readVersion K l false) := by
  unfold readVersion
  refine sameUpToLog_consume (fun version => ?_)
  intro r
  dsimp only
  split
  · rfl
  · split
    · rfl
    · rfl

theorem sameUpToLog_storeRecord (K : Env) (i : Nat) (rec : String) :
    SameUpToLog (storeRecord K true i rec) (storeRecord K false i rec) := by
  intro r1
  unfold storeRecord
  dsimp only
  cases factories.lookup rec with
  | none => rfl
  | some entry =>
    dsimp only
    by_cases hd : (!supportedVersion K r1.mVersion) = true
    · simp only [hd, Bool.and_true, Bool.and_false, Bool.false_eq_true, if_true, if_false]
      cases K.recordRead { construct entry with recName := rec, recIndex := i } r1.mVersion
          r1.mUserVersion r1.mBethVersion r1.mStrings r1.nif with
      | none => rfl
      | some rest2 => rfl
    · simp only [hd, Bool.false_and, Bool.and_false, Bool.false_eq_true, if_false]

theorem sameUpToLog_recordSeparator (i : Nat) (rec : String) {k1 k2 : Reader → Outcome}
    (hk : SameUpToLog k1 k2) :
    SameUpToLog (recordSeparator i rec k1) (recordSeparator i rec k2) := by
  intro r
  unfold recordSeparator
  split
  · refine sameUpToLog_consume (fun separator => ?_) r
    intro r1
    dsimp only
    split
    · exact hk _
    · exact hk _
  · exact hk r

theorem sameUpToLog_readRecord (K : Env) (i : Nat) :
    SameUpToLog (readRecord K true i) (readRecord K false i) := by
  intro r
  cases hn : recordTypeName i r with
  | error e =>
    unfold readRecord
    rw [hn]
  | ok p =>
    obtain ⟨rec, rest⟩ := p
    by_cases hrec : rec = ""
    · unfold readRecord
      rw [hn]
      dsimp only
      rw [if_pos hrec, if_pos hrec]
    · rw [readRecord_eq_store hn hrec, readRecord_eq_store hn hrec]
      exact sameUpToLog_recordSeparator i rec (sameUpToLog_storeRecord K i rec) _

theorem sameUpToLog_recordLoop (K : Env) (n i : Nat) :
    SameUpToLog (recordLoop K true n i) (recordLoop K false n i) := by
  induction n generalizing i with
  | zero => exact fun _ => rfl
  | succ n ih =>
    have h : ∀ d, recordLoop K d (n + 1) i
        = fun r => (readRecord K d i r).andThen (recordLoop K d n (i + 1)) := by
      intro d
      funext r
      rfl
    rw [h true, h false]
    exact sameUpToLog_andThen (sameUpToLog_readRecord K i) (ih (i + 1))
      (logBlind_recordLoop K false n (i + 1))

theorem sameUpToLog_decodeRecords (K : Env) :
    SameUpToLog (decodeRecords K true) (decodeRecords K false) := by
  intro r
  exact sameUpToLog_recordLoop K r.mRecords.length 0 r

/-- Nothing after the version check reads the log. -/
theorem logBlind_afterVersion (K : Env) (d : Bool) : LogBlind (afterVersion K d) := by
  unfold afterVersion afterEndianness
  exact logBlind_andThen logBlind_readEndianness
    (logBlind_andThen logBlind_readUserVersion
      (logBlind_andThen logBlind_readRecordCount
        (logBlind_andThen (logBlind_decodeSections K)
          (logBlind_andThen (logBlind_decodeRecords K d)
            (logBlind_andThen logBlind_readRoots (logBlind_postRecords K))))))

theorem sameUpToLog_afterVersion (K : Env) :
    SameUpToLog (afterVersion K true) (afterVersion K false) := by
  unfold afterVersion afterEndianness
  refine sameUpToLog_andThen sameUpToLog_of_blind ?_
    (logBlind_andThen logBlind_readUserVersion
      (logBlind_andThen logBlind_readRecordCount
        (logBlind_andThen (logBlind_decodeSections K)
          (logBlind_andThen (logBlind_decodeRecords K false)
            (logBlind_andThen logBlind_readRoots (logBlind_postRecords K))))))
  refine sameUpToLog_andThen sameUpToLog_of_blind ?_
    (logBlind_andThen logBlind_readRecordCount
      (logBlind_andThen (logBlind_decodeSections K)
        (logBlind_andThen (logBlind_decodeRecords K false)
          (logBlind_andThen logBlind_readRoots (logBlind_postRecords K)))))
  refine sameUpToLog_andThen sameUpToLog_of_blind ?_
    (logBlind_andThen (logBlind_decodeSections K)
      (logBlind_andThen (logBlind_decodeRecords K false)
        (logBlind_andThen logBlind_readRoots (logBlind_postRecords K))))
  refine sameUpToLog_andThen sameUpToLog_of_blind ?_
    (logBlind_andThen (logBlind_decodeRecords K false)
      (logBlind_andThen logBlind_readRoots (logBlind_postRecords K)))
  exact sameUpToLog_andThen (sameUpToLog_decodeRecords K) sameUpToLog_of_blind
    (logBlind_andThen logBlind_readRoots (logBlind_postRecords K))

/-- The two settings of the debug-log toggle end in the same outcome up to the log. -/
theorem parse_debugLog (K : Env) (l : Bool) (r : Reader) (stream : Bytes) :
    (parse K l true r stream).eraseLog = (parse K l false r stream).eraseLog := by
  rw [parse_eq, parse_eq]
  cases readHeader K { r with nif := stream, recTypes := [], recTypeIndices := [] } with
  | thrown e s => rfl
  | done s =>
    rw [Outcome.andThen_done, Outcome.andThen_done]
    exact sameUpToLog_andThen (sameUpToLog_readVersion K l) (sameUpToLog_afterVersion K)
      (logBlind_afterVersion K false) s

theorem eraseLog_eq_parts {o1 o2 : Outcome} (h : o1.eraseLog = o2.eraseLog) :
    o1.error = o2.error ∧ o1.state.eraseLog = o2.state.eraseLog := by
  cases o1 <;> cases o2 <;> simp only [Outcome.eraseLog, Outcome.done.injEq,
    Outcome.thrown.injEq, reduceCtorEq] at h
  · exact ⟨rfl, h⟩
  · exact ⟨by rw [h.1]; rfl, h.2⟩

/-! ## The state a failure leaves -/

theorem getElem?_resize_pad {α : Type} (l : List α) (n : Nat) (fill : α) {k : Nat}
    (h1 : l.length ≤ k) (h2 : k < n) : (resize l n fill)[k]? = some fill := by
  unfold resize
  have hlen : (l.take n).length = l.length := by
    rw [List.length_take]
    omega
  rw [List.getElem?_append_right (by omega), hlen]
  exact List.getElem?_replicate_of_lt (by omega)

/-- A pass of the record loop that throws has stored nothing; the blank-type error carries the index
of the pass, and the last call made is the lookup of the pass for an unknown type and its read
hook for a record that fails to decode. -/
theorem readRecord_thrown {K : Env} {d : Bool} {i : Nat} {r s : Reader} {e : NifError}
    (h : readRecord K d i r = .thrown e s) :
    s.mRecords = r.mRecords ∧ (∀ j, e = .blankRecordType j → j = i) ∧
    (∀ rec, e = .unknownRecordType rec → s.calls.getLast? = some (Call.find i rec)) ∧
    (e = .recordRead → s.calls.getLast? = some (Call.read i)) := by
  rcases readRecord_cases K d i r with ⟨e1, hn, h1⟩ | ⟨rec, rest, -, h1⟩
  · rw [h1] at h
    injection h with h2 h3
    subst h2 h3
    rcases recordTypeName_error hn with h4 | h4 <;> subst h4 <;>
      exact ⟨rfl, by simp, by simp, by simp⟩
  rcases h1 with ⟨-, h1⟩ | ⟨-, h1 | ⟨nif, log, pre, -, h1⟩⟩
  · rw [h1] at h
    injection h with h2 h3
    subst h2 h3
    refine ⟨rfl, ?_, by simp, by simp⟩
    intro j hj
    injection hj with hj
    exact hj.symm
  · rw [h1] at h
    injection h with h2 h3
    subst h2 h3
    exact ⟨rfl, by simp, by simp, by simp⟩
  rcases h1 with ⟨-, h1⟩ | ⟨entry, log2, -, h1 | ⟨rest2, h1⟩⟩
  · rw [h1] at h
    injection h with h2 h3
    subst h2 h3
    refine ⟨rfl, by simp, ?_, by simp⟩
    intro name hname
    injection hname with hname
    subst hname
    exact List.getLast?_concat _
  · rw [h1] at h
    injection h with h2 h3
    subst h2 h3
    refine ⟨rfl, by simp, by simp, fun _ => ?_⟩
    exact List.getLast?_concat _
  · rw [h1] at h
    cases h

/-- A record loop that throws has a failing pass j: the positions before it are filled, the
positions from it on are as they were, and the error is the one of that pass. -/
theorem recordLoop_thrown {K : Env} {d : Bool} {n i : Nat} {r s : Reader} {e : NifError}
    (h : recordLoop K d n i r = .thrown e s) (hn : i + n ≤ r.mRecords.length) :
    ∃ j, i ≤ j ∧ j < i + n ∧
      (∀ k, i ≤ k → k < j → ∃ made, s.mRecords[k]? = some (some made)) ∧
      (∀ k, k < i ∨ j ≤ k → s.mRecords[k]? = r.mRecords[k]?) ∧
      (∀ idx, e = .blankRecordType idx → idx = j) ∧
      (∀ rec, e = .unknownRecordType rec → s.calls.getLast? = some (Call.find j rec)) ∧
      (e = .recordRead → s.calls.getLast? = some (Call.read j)) := by
  induction n generalizing i r with
  | zero => simp [recordLoop] at h
  | succ n ih =>
    unfold recordLoop at h
    rcases Outcome.andThen_eq_thrown.mp h with h1 | ⟨r2, h2, h3⟩
    · obtain ⟨hrecs, hblank, hfind, hread⟩ := readRecord_thrown h1
      refine ⟨i, le_refl i, by omega, ?_, ?_, hblank, hfind, hread⟩
      · intro k h4 h5
        omega
      · intro k _
        rw [hrecs]
    · obtain ⟨made, pre, -, hrecs, -, -⟩ := readRecord_done h2
      have hlen : r2.mRecords.length = r.mRecords.length := by rw [hrecs]; simp
      obtain ⟨j, hj1, hj2, hfilled, hkept, hblank, hfind, hread⟩ := ih h3 (by omega)
      refine ⟨j, by omega, by omega, ?_, ?_, hblank, hfind, hread⟩
      · intro k h4 h5
        by_cases hk : k = i
        · subst hk
          refine ⟨made, ?_⟩
          rw [hkept k (Or.inl (by omega)), hrecs]
          have hk1 : k < r.mRecords.length := by omega
          simp [List.getElem?_set, hk1]
        · exact hfilled k (by omega) h5
      · intro k hk
        rw [hkept k (by omega), hrecs]
        exact List.getElem?_set_ne (by omega)

theorem readVersion_of_read {K : Env} {l d : Bool} {r : Reader} {v : Nat} {rest : Bytes}
    (h : getU32 r.nif = some (v, rest)) : (readVersion K l d r).state.mVersion = v := by
  unfold readVersion
  rw [consume_some h]
  dsimp only
  split
  · rfl
  · split
    · rfl
    · split <;> rfl

/-- Nothing after the version check writes the version. -/
theorem afterVersion_version (K : Env) (d : Bool) (r : Reader) :
    (afterVersion K d r).state.mVersion = r.mVersion := by
  unfold afterVersion afterEndianness
  refine frame_andThen (fun a b => b.mVersion = a.mVersion) (fun _ _ _ h1 h2 => h2.trans h1) ?_
    (fun r1 => ?_)
  · obtain ⟨_, _, _, _, h⟩ := readEndianness_early r
    rw [h]
  refine frame_andThen (fun a b => b.mVersion = a.mVersion) (fun _ _ _ h1 h2 => h2.trans h1) ?_
    (fun r2 => ?_)
  · obtain ⟨_, _, _, _, h⟩ := readUserVersion_early r1
    rw [h]
  refine frame_andThen (fun a b => b.mVersion = a.mVersion) (fun _ _ _ h1 h2 => h2.trans h1) ?_
    (fun r3 => ?_)
  · obtain ⟨_, _, _, _, h⟩ := readRecordCount_early r2
    rw [h]
  refine frame_andThen (fun a b => b.mVersion = a.mVersion) (fun _ _ _ h1 h2 => h2.trans h1) ?_
    (fun r4 => ?_)
  · obtain ⟨_, _, _, _, _, h⟩ := decodeSections_frame K r3
    rw [h]
  refine frame_andThen (fun a b => b.mVersion = a.mVersion) (fun _ _ _ h1 h2 => h2.trans h1) ?_
    (fun r5 => ?_)
  · obtain ⟨_, _, _, _, h, -⟩ := recordLoop_frame K d r4.mRecords.length 0 r4
    unfold decodeRecords
    rw [h]
  refine frame_andThen (fun a b => b.mVersion = a.mVersion) (fun _ _ _ h1 h2 => h2.trans h1) ?_
    (fun r6 => ?_)
  · obtain ⟨_, _, _, _, h⟩ := readRoots_state r5
    rw [h]
  · obtain ⟨_, _, h⟩ := postLoop_frame K r6.mRecords.length 0 r6
    unfold postRecords
    rw [h]

/-- A failure other than the header check and a short read leaves the version read from the
input in place. -/
theorem parse_thrown_version {K : Env} {l d : Bool} {r s : Reader} {stream : Bytes}
    {e : NifError} (h : parse K l d r stream = .thrown e s)
    (h1 : ∀ head, e ≠ .invalidHeader head) (h2 : e ≠ .truncatedStream) :
    ∃ v rest, getU32 (getVersionString stream).2 = some (v, rest) ∧ s.mVersion = v := by
  rw [parse_eq, readHeader_eq] at h
  dsimp only at h
  split at h
  · rw [Outcome.andThen_done] at h
    rcases consume_cases getU32 (fun version r =>
        if supportedVersion K version = true then Outcome.done { r with mVersion := version }
        else if (!l) = true then
          Outcome.thrown (.unsupportedVersion (versionToString version))
            { r with mVersion := version }
        else if d = true then
          Outcome.done { r with mVersion := version,
                                log := r.log ++ [LogLine.unsupportedVersion (versionToString version)] }
        else Outcome.done { r with mVersion := version })
        { r with nif := (getVersionString stream).2, recTypes := [], recTypeIndices := [],
                 mHash := r.mHash ++ K.getHash r.mFilename stream }
      with ⟨hnone, -⟩ | ⟨v, rest, hv, -⟩
    · have h3 : readVersion K l d
          { r with nif := (getVersionString stream).2, recTypes := [], recTypeIndices := [],
                   mHash := r.mHash ++ K.getHash r.mFilename stream }
          = .thrown .truncatedStream
            { r with nif := (getVersionString stream).2, recTypes := [], recTypeIndices := [],
                     mHash := r.mHash ++ K.getHash r.mFilename stream } := by
        unfold readVersion
        exact consume_none hnone
      rw [h3] at h
      injection h with h4 h5
      exact absurd h4.symm h2
    · refine ⟨v, rest, hv, ?_⟩
      have h3 := readVersion_of_read (K := K) (l := l) (d := d) hv
      rcases Outcome.andThen_eq_thrown.mp h with h4 | ⟨r2, h4, h5⟩
      · rw [h4] at h3
        exact h3
      · rw [h4] at h3
        have h6 := afterVersion_version K d r2
        rw [h5] at h6
        exact h6.trans h3
  · injection h with h3 h4
    exact absurd h3.symm (h1 _)

theorem decodeHeader_error {K : Env} {l d : Bool} {r : Reader} {stream : Bytes} {e : NifError}
    (h : (decodeHeader K l d r stream).error = some e) :
    (∃ head, e = .invalidHeader head) ∨ e = .truncatedStream ∨ (∃ v, e = .unsupportedVersion v) ∨
      e = .bigEndian := by
  unfold decodeHeader at h
  rcases Outcome.error_andThen h with h1 | ⟨r1, -, h1⟩
  · exact Or.inl ⟨_, (readHeader_error h1).1⟩
  rcases Outcome.error_andThen h1 with h2 | ⟨r2, -, h2⟩
  · rcases readVersion_error h2 with h3 | h3
    · exact Or.inr (Or.inl h3)
    · exact Or.inr (Or.inr (Or.inl h3))
  rcases Outcome.error_andThen h2 with h3 | ⟨r3, -, h3⟩
  · rcases readEndianness_error h3 with h4 | h4
    · exact Or.inr (Or.inl h4)
    · exact Or.inr (Or.inr (Or.inr h4))
  · exact Or.inr (Or.inl (readUserVersion_error h3))

/-- A failure of the type table or of a record leaves the record sequence resized to the declared
count, filled below the failing record and as the resize left it from there on. -/
theorem parse_thrown_records {K : Env} {l d : Bool} {r s : Reader} {stream : Bytes}
    {e : NifError} (h : parse K l d r stream = .thrown e s)
    (he : e = .hashedRecordTypes ∨ (∃ j, e = .blankRecordType j) ∨
      (∃ rec, e = .unknownRecordType rec) ∨ e = .recordRead) :
    ∃ rh count rest i, decodeHeader K l d r stream = .done rh ∧
      getU32 rh.nif = some (count, rest) ∧ s.mRecords.length = count ∧ i ≤ count ∧
      (e = .hashedRecordTypes → i = 0) ∧ (e ≠ .hashedRecordTypes → i < count) ∧
      (∀ j, e = .blankRecordType j → j = i) ∧
      (∀ rec, e = .unknownRecordType rec → s.calls.getLast? = some (Call.find i rec)) ∧
      (e = .recordRead → s.calls.getLast? = some (Call.read i)) ∧
      (∀ k, k < i → ∃ record, s.mRecords[k]? = some (some record)) ∧
      (∀ k, i ≤ k → s.mRecords[k]? = (resize r.mRecords count none)[k]?) := by
  have hne : (∀ head, e ≠ .invalidHeader head) ∧ e ≠ .truncatedStream ∧
      (∀ v, e ≠ .unsupportedVersion v) ∧ e ≠ .bigEndian ∧ e ≠ .recordPost ∧
      e ≠ .undefinedBehaviour := by
    rcases he with he | ⟨j, he⟩ | ⟨rec, he⟩ | he <;> subst he <;> simp
  obtain ⟨n1, n2, n3, n4, n5, n6⟩ := hne
  unfold parse at h
  rcases Outcome.andThen_eq_thrown.mp h with h1 | ⟨rh, h1, h⟩
  · have h2 := congrArg Outcome.error h1
    rw [Outcome.error_thrown] at h2
    rcases decodeHeader_error h2 with ⟨head, h3⟩ | h3 | ⟨v, h3⟩ | h3
    · exact absurd h3 (n1 head)
    · exact absurd h3 n2
    · exact absurd h3 (n3 v)
    · exact absurd h3 n4
  obtain ⟨_, _, _, _, _, _, _, hframe⟩ := decodeHeader_done h1
  have hrecs0 : rh.mRecords = r.mRecords := by rw [hframe]
  rcases Outcome.andThen_eq_thrown.mp h with h2 | ⟨rc, h2, h⟩
  · have h3 := congrArg Outcome.error h2
    rw [Outcome.error_thrown] at h3
    exact absurd (readRecordCount_error h3) n2
  obtain ⟨count, rest, hcount, hrc⟩ := readRecordCount_done h2
  have hrecs1 : rc.mRecords = resize r.mRecords count none := by rw [hrc, ← hrecs0]
  rcases Outcome.andThen_eq_thrown.mp h with h3 | ⟨rs, h3, h⟩
  · have h4 := congrArg Outcome.error h3
    rw [Outcome.error_thrown] at h4
    have h5 : e = .hashedRecordTypes := by
      rcases decodeSections_error h4 with h5 | h5
      · exact absurd h5 n2
      · exact h5
    have h6 := decodeSections_frame K rc
    rw [h3] at h6
    obtain ⟨_, _, _, _, _, h6⟩ := h6
    simp only [Outcome.state_thrown] at h6
    have hrecs2 : s.mRecords = resize r.mRecords count none := by rw [h6]; exact hrecs1
    refine ⟨rh, count, rest, 0, h1, hcount, ?_, Nat.zero_le _, fun _ => rfl,
      fun h7 => absurd h5 h7, ?_, ?_, ?_, ?_, ?_⟩
    · rw [hrecs2, length_resize]
    · intro j hj
      rw [h5] at hj
      cases hj
    · intro rec hj
      rw [h5] at hj
      cases hj
    · intro hj
      rw [h5] at hj
      cases hj
    · intro k hk
      omega
    · intro k _
      rw [hrecs2]
  obtain ⟨_, _, _, _, _, hsec⟩ := decodeSections_done h3
  have hrecs2 : rs.mRecords = resize r.mRecords count none := by rw [hsec]; exact hrecs1
  have hlen2 : rs.mRecords.length = count := by rw [hrecs2, length_resize]
  rcases Outcome.andThen_eq_thrown.mp h with h4 | ⟨rr, h4, h⟩
  · unfold decodeRecords at h4
    obtain ⟨j, -, hj2, hfilled, hkept, hblank, hfind, hread⟩ :=
      recordLoop_thrown h4 (by omega)
    have h5 := recordLoop_frame K d rs.mRecords.length 0 rs
    rw [h4] at h5
    obtain ⟨_, _, _, _, h5, h6⟩ := h5
    simp only [Outcome.state_thrown] at h5
    have hlen3 : s.mRecords.length = count := by
      rw [h5]
      exact h6.trans hlen2
    have hnot : e ≠ .hashedRecordTypes := by
      have h7 := congrArg Outcome.error h4
      rw [Outcome.error_thrown] at h7
      rcases recordLoop_error h7 with h8 | h8 | ⟨idx, h8⟩ | ⟨rec, h8⟩ | h8 <;> rw [h8] <;> simp
    refine ⟨rh, count, rest, j, h1, hcount, hlen3, by omega, fun h7 => absurd h7 hnot,
      fun _ => by omega, hblank, hfind, hread, ?_, ?_⟩
    · intro k hk
      exact hfilled k (Nat.zero_le k) hk
    · intro k hk
      rw [hkept k (Or.inr hk), hrecs2]
  · have h5 := congrArg Outcome.error h
    rw [Outcome.error_thrown] at h5
    rcases Outcome.error_andThen h5 with h6 | ⟨rt, -, h6⟩
    · exact absurd (readRoots_error h6) n2
    · rcases postLoop_error h6 with h7 | h7
      · exact absurd h7 n5
      · exact absurd h7 n6

/-- A failure past the header check either is the short read of the version itself, which leaves
the NIFFile as it was, or leaves the version read from the input in place. -/
theorem parse_thrown_after_header {K : Env} {l d : Bool} {r s : Reader} {stream : Bytes}
    {e : NifError} (h : parse K l d r stream = .thrown e s)
    (h1 : ∀ head, e ≠ .invalidHeader head) :
    (getU32 (getVersionString stream).2 = none ∧ e = .truncatedStream ∧
      s.mVersion = r.mVersion ∧ s.mUserVersion = r.mUserVersion ∧
      s.mBethVersion = r.mBethVersion ∧ s.mRecords = r.mRecords ∧ s.mRoots = r.mRoots) ∨
    ∃ v rest, getU32 (getVersionString stream).2 = some (v, rest) ∧ s.mVersion = v := by
  by_cases h2 : e = .truncatedStream
  · cases hv : getU32 (getVersionString stream).2 with
    | none =>
      left
      rw [parse_eq, readHeader_eq] at h
      dsimp only at h
      split at h
      · rw [Outcome.andThen_done] at h
        have h3 : readVersion K l d
            { r with nif := (getVersionString stream).2, recTypes := [], recTypeIndices := [],
                     mHash := r.mHash ++ K.getHash r.mFilename stream }
            = .thrown .truncatedStream
              { r with nif := (getVersionString stream).2, recTypes := [], recTypeIndices := [],
                       mHash := r.mHash ++ K.getHash r.mFilename stream } := by
          unfold readVersion
          exact consume_none hv
        rw [h3] at h
        injection h with h4 h5
        subst h5
        exact ⟨rfl, h2, rfl, rfl, rfl, rfl, rfl⟩
      · injection h with h3 h4
        exact absurd h3.symm (h1 _)
    | some p =>
      right
      obtain ⟨v, rest⟩ := p
      refine ⟨v, rest, rfl, ?_⟩
      rw [parse_eq, readHeader_eq] at h
      dsimp only at h
      split at h
      · rw [Outcome.andThen_done] at h
        have h3 := readVersion_of_read (K := K) (l := l) (d := d)
          (r := { r with nif := (getVersionString stream).2, recTypes := [],
                         recTypeIndices := [],
                         mHash := r.mHash ++ K.getHash r.mFilename stream }) hv
        rcases Outcome.andThen_eq_thrown.mp h with h4 | ⟨r2, h4, h5⟩
        · rw [h4] at h3
          exact h3
        · rw [h4] at h3
          have h6 := afterVersion_version K d r2
          rw [h5] at h6
          exact h6.trans h3
      · injection h with h3 h4
        exact absurd h3.symm (h1 _)
  · exact Or.inr (parse_thrown_version h h1 h2)

end Reader

open Reader

/-! ## Claims about the decode driver -/

/-- C3: Reader::getString returns the pool entry s[i] for every index i below the pool size (the pool
size being a 32-bit count), and the empty string for index 2^32-1 whatever the pool holds; for the
pool ["foo", "bar"] it gives "foo" at 0, "bar" at 1 and "" at 0xFFFFFFFF. -/
theorem getString_pool_entry (pool : List String) (i : Nat) (hi : i < pool.length)
    (hsize : pool.length ≤ 4294967295) :
    Reader.getString pool i = some pool[i] ∧
    (∀ any : List String, Reader.getString any 4294967295 = some "") ∧
    Reader.getString ["foo", "bar"] 0 = some "foo" ∧
    Reader.getString ["foo", "bar"] 1 = some "bar" ∧
    Reader.getString ["foo", "bar"] 0xFFFFFFFF = some "" := by
  refine ⟨?_, fun any => by simp [Reader.getString], by decide, by decide, by decide⟩
  unfold Reader.getString
  rw [if_neg (by omega)]
  exact List.getElem?_eq_getElem hi

theorem getString_pool_entry_witness :
    Reader.getString ["foo", "bar"] 1 = some "bar" ∧
    (∀ any : List String, Reader.getString any 4294967295 = some "") ∧
    Reader.getString ["foo", "bar"] 0 = some "foo" ∧
    Reader.getString ["foo", "bar"] 1 = some "bar" ∧
    Reader.getString ["foo", "bar"] 0xFFFFFFFF = some "" :=
  getString_pool_entry ["foo", "bar"] 1 (by decide) (by decide)

/-- C7: Reader::parse fails with the invalid-header error exactly when the header line begins with
neither "NetImmerse File Format" nor "Gamebryo File Format" (character for character, so a banner
in another case is rejected); the toggles play no part, and when it fails this way the version
field is still the one before the call and only the header line has been consumed. -/
theorem parse_invalidHeader_iff (K : Env) (l d : Bool) (r : Reader) (stream : Bytes) :
    ((∃ head, (parse K l d r stream).error = some (.invalidHeader head)) ↔
      ¬ ∃ tail : String, (getVersionString stream).1 = "NetImmerse File Format" ++ tail ∨
          (getVersionString stream).1 = "Gamebryo File Format" ++ tail) ∧
    (∀ head, (parse K l d r stream).error = some (.invalidHeader head) →
      head = (getVersionString stream).1 ∧
      (parse K l d r stream).state.mVersion = r.mVersion ∧
      (parse K l d r stream).state.nif = (getVersionString stream).2) ∧
    supportedHeader "netimmerse file format" = false := by
  rw [← supportedHeader_iff, parse_eq, readHeader_eq]
  dsimp only
  by_cases hs : supportedHeader (getVersionString stream).1 = true
  · rw [if_pos hs]
    have hno : ∀ head, ((readVersion K l d
        { r with nif := (getVersionString stream).2, recTypes := [], recTypeIndices := [],
                 mHash := r.mHash ++ K.getHash r.mFilename stream }).andThen
          (afterVersion K d)).error ≠ some (.invalidHeader head) := by
      intro head h
      rcases Outcome.error_andThen h with h1 | ⟨r1, -, h1⟩
      · rcases readVersion_error h1 with h2 | ⟨v, h2⟩ <;> simp at h2
      · rcases afterVersion_error h1 with h2 | h2 | h2 | h2 | ⟨j, h2⟩ | ⟨rec, h2⟩ | h2 | h2 <;>
          simp at h2
    refine ⟨?_, ?_, by decide⟩
    · simp only [Outcome.andThen_done, hs, not_true_eq_false, iff_false, not_exists]
      exact hno
    · intro head h
      exact absurd h (hno head)
  · rw [if_neg hs]
    refine ⟨?_, ?_, by decide⟩
    · simp [hs]
    · intro head h
      simp only [Outcome.andThen_thrown, Outcome.error_thrown, Option.some.injEq,
        NifError.invalidHeader.injEq] at h
      exact ⟨h.symm, rfl, rfl⟩

/-- What parse does with a recognised banner and a readable version: the version check, then the
rest of the decode on the state holding that version. -/
theorem parse_of_version {K : Env} {l d : Bool} {r : Reader} {stream : Bytes} {v : Nat}
    {rest : Bytes} (hbanner : supportedHeader (getVersionString stream).1 = true)
    (hversion : getU32 (getVersionString stream).2 = some (v, rest)) :
    parse K l d r stream =
      (readVersion K l d
        { r with nif := (getVersionString stream).2, recTypes := [], recTypeIndices := [],
                 mHash := r.mHash ++ K.getHash r.mFilename stream }).andThen (afterVersion K d) ∧
    readVersion K l d
        { r with nif := (getVersionString stream).2, recTypes := [], recTypeIndices := [],
                 mHash := r.mHash ++ K.getHash r.mFilename stream } =
      (if supportedVersion K v = true then
        .done { r with nif := rest, recTypes := [], recTypeIndices := [], mVersion := v,
                       mHash := r.mHash ++ K.getHash r.mFilename stream }
      else if l = false then
        .thrown (.unsupportedVersion (versionToString v))
          { r with nif := rest, recTypes := [], recTypeIndices := [], mVersion := v,
                   mHash := r.mHash ++ K.getHash r.mFilename stream }
      else
        .done { r with nif := rest, recTypes := [], recTypeIndices := [], mVersion := v,
                       mHash := r.mHash ++ K.getHash r.mFilename stream,
                       log := if d = true then
                         r.log ++ [LogLine.unsupportedVersion (versionToString v)] else r.log }) := by
  constructor
  · rw [parse_eq, readHeader_eq]
    dsimp only
    rw [if_pos hbanner]
    rfl
  · unfold readVersion
    rw [consume_some hversion]
    dsimp only
    by_cases hs : supportedVersion K v = true
    · rw [if_pos hs, if_pos hs]
    · rw [if_neg hs, if_neg hs]
      cases l <;> cases d <;> simp

theorem supportedVersion_iff (K : Env) (v : Nat) :
    supportedVersion K v = true ↔ v = generateVersion 4 0 0 0 ∨ v = K.VER_MW := by
  unfold supportedVersion supportedVers
  simp

/-- C6: with a recognised banner and a readable version v, Reader::parse fails with the
unsupported-version error exactly when the permissive-load toggle is off and v is neither 4.0.0.0
nor VER_MW, the error then naming v; with the toggle on no value of v gives that error, and parse
goes on with the statements after the version check on the state holding v. -/
theorem parse_unsupportedVersion_iff (K : Env) (l d : Bool) (r : Reader) (stream : Bytes)
    (v : Nat) (rest : Bytes) (hbanner : supportedHeader (getVersionString stream).1 = true)
    (hversion : getU32 (getVersionString stream).2 = some (v, rest)) :
    ((∃ t, (parse K l d r stream).error = some (.unsupportedVersion t)) ↔
      l = false ∧ v ≠ generateVersion 4 0 0 0 ∧ v ≠ K.VER_MW) ∧
    (l = false → v ≠ generateVersion 4 0 0 0 → v ≠ K.VER_MW →
      (parse K l d r stream).error = some (.unsupportedVersion (versionToString v))) ∧
    (l = true → ∃ log, parse K l d r stream = afterVersion K d
      { r with nif := rest, recTypes := [], recTypeIndices := [], mVersion := v,
               mHash := r.mHash ++ K.getHash r.mFilename stream, log := log }) := by
  obtain ⟨h1, h2⟩ := parse_of_version (K := K) (l := l) (d := d) (r := r) hbanner hversion
  have hno : ∀ (r1 : Reader) (t : String),
      (afterVersion K d r1).error ≠ some (.unsupportedVersion t) := by
    intro r1 t h
    rcases afterVersion_error h with h3 | h3 | h3 | h3 | ⟨j, h3⟩ | ⟨rec, h3⟩ | h3 | h3 <;>
      simp at h3
  rw [h1, h2]
  by_cases hs : supportedVersion K v = true
  · rw [if_pos hs]
    have hs1 := (supportedVersion_iff K v).mp hs
    refine ⟨?_, ?_, ?_⟩
    · simp only [Outcome.andThen_done]
      constructor
      · rintro ⟨t, h⟩
        exact absurd h (hno _ t)
      · rintro ⟨-, h3, h4⟩
        rcases hs1 with h5 | h5
        · exact absurd h5 h3
        · exact absurd h5 h4
    · intro _ h3 h4
      rcases hs1 with h5 | h5
      · exact absurd h5 h3
      · exact absurd h5 h4
    · intro _
      exact ⟨r.log, rfl⟩
  · rw [if_neg hs]
    have hs1 : ¬ (v = generateVersion 4 0 0 0 ∨ v = K.VER_MW) :=
      fun h => hs ((supportedVersion_iff K v).mpr h)
    cases l with
    | false =>
      rw [if_pos rfl, Outcome.andThen_thrown, Outcome.error_thrown]
      refine ⟨?_, fun _ _ _ => rfl, fun h => absurd h (by decide)⟩
      constructor
      · intro _
        exact ⟨rfl, fun h => hs1 (Or.inl h), fun h => hs1 (Or.inr h)⟩
      · intro _
        exact ⟨_, rfl⟩
    | true =>
      simp only [Bool.true_eq_false, if_false, Outcome.andThen_done, false_and, iff_false,
        not_exists]
      exact ⟨fun t => hno _ t, fun h => by simp at h, fun _ => ⟨_, rfl⟩⟩

theorem parse_unsupportedVersion_iff_witness :
    ((∃ t, (parse plainEnv false false freshReader bigEndianFile).error
        = some (.unsupportedVersion t)) ↔
      false = false ∧ generateVersion 20 0 0 4 ≠ generateVersion 4 0 0 0 ∧
        generateVersion 20 0 0 4 ≠ plainEnv.VER_MW) ∧
    (false = false → generateVersion 20 0 0 4 ≠ generateVersion 4 0 0 0 →
      generateVersion 20 0 0 4 ≠ plainEnv.VER_MW →
      (parse plainEnv false false freshReader bigEndianFile).error
        = some (.unsupportedVersion (versionToString (generateVersion 20 0 0 4)))) ∧
    (false = true → ∃ log, parse plainEnv false false freshReader bigEndianFile =
      afterVersion plainEnv false
      { freshReader with
          nif := [0], recTypes := [], recTypeIndices := [], mVersion := generateVersion 20 0 0 4,
          mHash := freshReader.mHash ++ plainEnv.getHash freshReader.mFilename bigEndianFile,
          log := log }) :=
  parse_unsupportedVersion_iff plainEnv false false freshReader bigEndianFile
    (generateVersion 20 0 0 4) [0] (by decide) (by decide)

theorem afterVersion_bigEndian {K : Env} {d : Bool} {r : Reader} {rest : Bytes}
    (hv : hasEndianness r.mVersion = true) (hb : getU8 r.nif = some (0, rest)) :
    (afterVersion K d r).error = some .bigEndian := by
  unfold afterVersion readEndianness
  have hb1 : (fun s => if hasEndianness r.mVersion = true then getU8 s else some (1, s)) r.nif
      = some (0, rest) := by
    simp only [hv, if_true]
    exact hb
  rw [consume_some hb1]
  simp

/-- C5 (as the code has it): for an input with a recognised banner, a version v at or above 20.0.0.4
and an endianness byte 0, Reader::parse fails with the big-endian error when the permissive-load
toggle is on; when the toggle is off the version check comes first and, VER_MW lying below
20.0.0.4, the failure is the unsupported-version error for v. -/
theorem parse_bigEndian (K : Env) (d : Bool) (r : Reader) (stream : Bytes) (v : Nat)
    (rest rest1 : Bytes) (hbanner : supportedHeader (getVersionString stream).1 = true)
    (hversion : getU32 (getVersionString stream).2 = some (v, rest))
    (hend : v ≥ generateVersion 20 0 0 4) (hbyte : getU8 rest = some (0, rest1))
    (hmw : K.VER_MW < generateVersion 20 0 0 4) :
    (parse K true d r stream).error = some .bigEndian ∧
    (parse K false d r stream).error = some (.unsupportedVersion (versionToString v)) := by
  have hv : hasEndianness v = true := by
    unfold hasEndianness
    exact decide_eq_true hend
  have hs : ¬ supportedVersion K v = true := by
    rw [supportedVersion_iff]
    have h4 : generateVersion 4 0 0 0 < generateVersion 20 0 0 4 := by decide
    omega
  constructor
  · obtain ⟨h1, h2⟩ := parse_of_version (K := K) (l := true) (d := d) (r := r) hbanner hversion
    rw [h1, h2, if_neg hs, if_neg (by decide), Outcome.andThen_done]
    exact afterVersion_bigEndian hv hbyte
  · obtain ⟨h1, h2⟩ := parse_of_version (K := K) (l := false) (d := d) (r := r) hbanner hversion
    rw [h1, h2, if_neg hs, if_pos rfl]
    rfl

theorem parse_bigEndian_witness :
    (parse plainEnv true false freshReader bigEndianFile).error = some .bigEndian ∧
    (parse plainEnv false false freshReader bigEndianFile).error
      = some (.unsupportedVersion (versionToString (generateVersion 20 0 0 4))) :=
  parse_bigEndian plainEnv false freshReader bigEndianFile (generateVersion 20 0 0 4) [0] []
    (by decide) (by decide) (by decide) (by decide) (by decide)

/-- C5 fails as stated: with the toggle off, a recognised banner, version 20.0.0.4 and endianness
byte 0, parse does not fail with the big-endian error but with the unsupported-version error. -/
theorem parse_bigEndian_strict_counterexample :
    supportedHeader (getVersionString bigEndianFile).1 = true ∧
    getU32 (getVersionString bigEndianFile).2 = some (generateVersion 20 0 0 4, [0]) ∧
    hasEndianness (generateVersion 20 0 0 4) = true ∧
    getU8 [0] = some (0, []) ∧
    (parse plainEnv false false freshReader bigEndianFile).error ≠ some .bigEndian ∧
    (parse plainEnv false false freshReader bigEndianFile).error
      = some (.unsupportedVersion "20.0.0.4") := by
  decide

/-- C1: when Reader::parse accepts an input, the record sequence has exactly as many records as the
32-bit count read right after the header, and the record at every position i below that count
carries recIndex = i; nothing here depends on the log, so it holds with warnings emitted too. -/
theorem parse_record_count_and_indices (K : Env) (l d : Bool) (r f : Reader) (stream : Bytes)
    (h : parse K l d r stream = .done f) :
    ∃ rh count rest, decodeHeader K l d r stream = .done rh ∧
      getU32 rh.nif = some (count, rest) ∧ f.mRecords.length = count ∧
      ∀ i, i < count → ∃ record, f.mRecords[i]? = some (some record) ∧ record.recIndex = i := by
  obtain ⟨rh, rc, rs, rr, rt, h1, h2, h3, h4, h5, h6⟩ := parse_done h
  obtain ⟨count, rest, h7, rfl⟩ := readRecordCount_done h2
  obtain ⟨_, _, _, _, _, rfl⟩ := decodeSections_done h3
  have hlen : (resize rh.mRecords count (none : Option Record)).length = count :=
    length_resize _ _ _
  obtain ⟨h8, h9, -, -⟩ := recordLoop_done (i := 0) h4 (by simp)
  obtain ⟨_, _, _, _, h10⟩ := readRoots_state rr
  rw [h5] at h10
  simp only [Outcome.state_done] at h10
  obtain ⟨⟨_, _, h11⟩, -⟩ := postRecords_done h6
  have h12 : f.mRecords = rr.mRecords := by rw [h11, h10]
  refine ⟨rh, count, rest, h1, h7, ?_, ?_⟩
  · rw [h12, h8]
    exact hlen
  · intro i hi
    rw [h12]
    exact h9 i (Nat.zero_le i) (by simpa [hlen] using hi)

theorem parse_record_count_and_indices_witness :
    (parse plainEnv true true freshReader separatorFile).error = none ∧
    (parse plainEnv true true freshReader separatorFile).state.log =
      [LogLine.unsupportedVersion "10.0.1.0", LogLine.nonZeroSeparator "NiNode" 0,
        LogLine.readingRecord "NiNode" 0, LogLine.rootNotRecord 1 5] ∧
    ∃ rh count rest, decodeHeader plainEnv true true freshReader separatorFile = .done rh ∧
      getU32 rh.nif = some (count, rest) ∧
      (parse plainEnv true true freshReader separatorFile).state.mRecords.length = count ∧
      ∀ i, i < count → ∃ record,
        (parse plainEnv true true freshReader separatorFile).state.mRecords[i]?
          = some (some record) ∧ record.recIndex = i :=
  ⟨by decide, by decide,
    parse_record_count_and_indices plainEnv true true freshReader
      (parse plainEnv true true freshReader separatorFile).state separatorFile (by decide)⟩

/-- C2: when Reader::parse accepts an input with N records, the root list has exactly as many entries
as the root count read after the record loop, and the entry for each signed 32-bit root index idx
read from the file is record idx when 0 <= idx < N and null otherwise (so for every negative idx);
whenever the root count and the root indices can be read the root stage returns, whatever the
indices, and parse goes on to post-processing; for N >= 3 the indices [0, N, 2] give
[record 0, null, record 2]. -/
theorem parse_roots (K : Env) (l d : Bool) (r f : Reader) (stream : Bytes)
    (h : parse K l d r stream = .done f) :
    (∃ (rr : Reader) (count : Nat) (rest : Bytes) (idxs : List Int) (rest1 : Bytes),
      decodeGraph K l d r stream = .done rr ∧
      getU32 rr.nif = some (count, rest) ∧ readVector getI32 count rest = some (idxs, rest1) ∧
      f.mRecords.length = rr.mRecords.length ∧ f.mRoots.length = count ∧
      f.mRoots = idxs.map (rootEntry f.mRecords.length) ∧
      ∀ (j : Nat) (idx : Int), idxs[j]? = some idx →
        (0 ≤ idx → idx < f.mRecords.length → f.mRoots[j]? = some (some idx.toNat)) ∧
        (idx < 0 ∨ (f.mRecords.length : Int) ≤ idx → f.mRoots[j]? = some none)) ∧
    (∀ (rr : Reader) (count : Nat) (rest rest1 : Bytes) (idxs : List Int),
      decodeGraph K l d r stream = .done rr → getU32 rr.nif = some (count, rest) →
      readVector getI32 count rest = some (idxs, rest1) →
      ∃ rt, readRoots rr = .done rt ∧ rt.mRoots = idxs.map (rootEntry rr.mRecords.length) ∧
        parse K l d r stream = postRecords K rt) ∧
    (∀ N : Nat, 3 ≤ N → [0, (N : Int), 2].map (rootEntry N) = [some 0, none, some 2]) := by
  refine ⟨?_, ?_, ?_⟩
  · obtain ⟨rh, rc, rs, rr, rt, h1, h2, h3, h4, h5, h6⟩ := parse_done h
    obtain ⟨count, rest, idxs, rest1, h7, h8⟩ := readRoots_done h5
    obtain ⟨rt1, h9, h10, -, h11, -⟩ := readRoots_of_read h7 h8
    rw [h5] at h9
    injection h9 with h9
    subst h9
    obtain ⟨⟨_, _, h12⟩, -⟩ := postRecords_done h6
    have hrecs : f.mRecords = rr.mRecords := by rw [h12]; exact h11
    have hroots : f.mRoots = idxs.map (rootEntry f.mRecords.length) := by
      rw [hrecs, h12]; exact h10
    refine ⟨rr, count, rest, idxs, rest1, decodeGraph_of_stages h1 h2 h3 h4, h7, h8,
      by rw [hrecs], ?_, hroots, ?_⟩
    · rw [hroots]
      simp [readVector_length h8]
    · intro j idx hj
      have hj1 : f.mRoots[j]? = some (rootEntry f.mRecords.length idx) := by
        rw [hroots, List.getElem?_map, hj]
        rfl
      constructor
      · intro h13 h14
        rw [hj1, rootEntry_inRange h13 h14]
      · intro h13
        rw [hj1, rootEntry_outOfRange h13]
  · intro rr count rest rest1 idxs h1 h2 h3
    obtain ⟨rt, h4, h5, -⟩ := readRoots_of_read h2 h3
    refine ⟨rt, h4, h5, ?_⟩
    rw [parse_eq_decodeGraph, h1, Outcome.andThen_done, h4, Outcome.andThen_done]
  · intro N hN
    have h1 : rootEntry N 0 = some 0 := rootEntry_inRange (le_refl 0) (by omega)
    have h2 : rootEntry N (N : Int) = none := rootEntry_outOfRange (Or.inr (le_refl _))
    have h3 : rootEntry N 2 = some 2 := rootEntry_inRange (by omega) (by omega)
    simp [h1, h2, h3]

theorem parse_roots_witness :
    (parse plainEnv false false freshReader rootsFile).state.mRoots = [some 0, none, some 2] ∧
    ((∃ (rr : Reader) (count : Nat) (rest : Bytes) (idxs : List Int) (rest1 : Bytes),
      decodeGraph plainEnv false false freshReader rootsFile = .done rr ∧
      getU32 rr.nif = some (count, rest) ∧ readVector getI32 count rest = some (idxs, rest1) ∧
      (parse plainEnv false false freshReader rootsFile).state.mRecords.length
        = rr.mRecords.length ∧
      (parse plainEnv false false freshReader rootsFile).state.mRoots.length = count ∧
      (parse plainEnv false false freshReader rootsFile).state.mRoots
        = idxs.map (rootEntry
            (parse plainEnv false false freshReader rootsFile).state.mRecords.length) ∧
      ∀ (j : Nat) (idx : Int), idxs[j]? = some idx →
        (0 ≤ idx → idx < (parse plainEnv false false freshReader rootsFile).state.mRecords.length →
          (parse plainEnv false false freshReader rootsFile).state.mRoots[j]?
            = some (some idx.toNat)) ∧
        (idx < 0 ∨
            ((parse plainEnv false false freshReader rootsFile).state.mRecords.length : Int) ≤ idx →
          (parse plainEnv false false freshReader rootsFile).state.mRoots[j]? = some none)) ∧
    (∀ (rr : Reader) (count : Nat) (rest rest1 : Bytes) (idxs : List Int),
      decodeGraph plainEnv false false freshReader rootsFile = .done rr →
      getU32 rr.nif = some (count, rest) →
      readVector getI32 count rest = some (idxs, rest1) →
      ∃ rt, readRoots rr = .done rt ∧ rt.mRoots = idxs.map (rootEntry rr.mRecords.length) ∧
        parse plainEnv false false freshReader rootsFile = postRecords plainEnv rt) ∧
    (∀ N : Nat, 3 ≤ N → [0, (N : Int), 2].map (rootEntry N) = [some 0, none, some 2])) :=
  ⟨by decide,
    parse_roots plainEnv false false freshReader
      (parse plainEnv false false freshReader rootsFile).state rootsFile (by decide)⟩

/-- C9: in every successful Reader::parse of N records, the calls parse adds are the calls of the
record loop, whose record hooks are read(0), ..., read(N-1) in this order, then the resolution of
each root entry, then post(0), ..., post(N-1) and nothing else; so the hooks run as read(0..N-1)
followed by post(0..N-1), each post hook once, in increasing index order, and none before every
record has been read and every root resolved. -/
theorem parse_hook_order (K : Env) (l d : Bool) (r f : Reader) (stream : Bytes)
    (h : parse K l d r stream = .done f) :
    ∃ (N R : Nat) (decode : List Call),
      f.mRecords.length = N ∧ f.mRoots.length = R ∧
      f.calls = r.calls ++ decode ++ (List.range R).map Call.root
        ++ (List.range N).map Call.post ∧
      decode.filter Call.isHook = (List.range N).map Call.read ∧
      (f.calls.drop r.calls.length).filter Call.isHook
        = (List.range N).map Call.read ++ (List.range N).map Call.post := by
  obtain ⟨rh, rc, rs, rr, rt, h1, h2, h3, h4, h5, h6⟩ := parse_done h
  obtain ⟨_, _, _, _, _, _, _, rfl⟩ := decodeHeader_done h1
  obtain ⟨count, rest, h7, rfl⟩ := readRecordCount_done h2
  obtain ⟨_, _, _, _, _, rfl⟩ := decodeSections_done h3
  obtain ⟨h8, -, -, tr, h9, h10⟩ := recordLoop_done (i := 0) h4 (by simp)
  obtain ⟨rcount, rrest, idxs, rest1, h11, h12⟩ := readRoots_done h5
  obtain ⟨rt1, h13, h14, h15, h16, -⟩ := readRoots_of_read h11 h12
  rw [h5] at h13
  injection h13 with h13
  subst h13
  obtain ⟨⟨_, _, h17⟩, h18⟩ := postRecords_done h6
  have hrecs : f.mRecords.length = rt.mRecords.length := by rw [h17]
  have hroots : f.mRoots.length = rcount := by
    rw [h17]
    simp [h14, readVector_length h12]
  have hcalls : f.calls = r.calls ++ tr ++ (List.range rcount).map Call.root
      ++ (List.range rt.mRecords.length).map Call.post := by
    rw [h18, h15, h9]
  have hN : rt.mRecords.length
      = (resize r.mRecords count (none : Option Record)).length := by
    rw [h16, h8]
  rw [← hN, ← List.range_eq_range'] at h10
  refine ⟨rt.mRecords.length, rcount, tr, hrecs, hroots, hcalls, h10, ?_⟩
  rw [hcalls]
  simp only [List.append_assoc, List.drop_left, List.filter_append, h10]
  congr 1
  have e1 : ((List.range rcount).map Call.root).filter Call.isHook = [] := by
    rw [List.filter_eq_nil_iff]
    intro c hc
    obtain ⟨j, -, rfl⟩ := List.mem_map.mp hc
    simp [Call.isHook]
  have e2 : ((List.range rt.mRecords.length).map Call.post).filter Call.isHook
      = (List.range rt.mRecords.length).map Call.post := by
    rw [List.filter_eq_self]
    intro c hc
    obtain ⟨j, -, rfl⟩ := List.mem_map.mp hc
    rfl
  rw [e1, e2]
  rfl

theorem parse_hook_order_witness :
    (parse plainEnv false false freshReader rootsFile).state.calls.filter Call.isHook =
      [Call.read 0, Call.read 1, Call.read 2, Call.post 0, Call.post 1, Call.post 2] ∧
    ∃ (N R : Nat) (decode : List Call),
      (parse plainEnv false false freshReader rootsFile).state.mRecords.length = N ∧
      (parse plainEnv false false freshReader rootsFile).state.mRoots.length = R ∧
      (parse plainEnv false false freshReader rootsFile).state.calls
        = freshReader.calls ++ decode ++ (List.range R).map Call.root
          ++ (List.range N).map Call.post ∧
      decode.filter Call.isHook = (List.range N).map Call.read ∧
      ((parse plainEnv false false freshReader rootsFile).state.calls.drop
          freshReader.calls.length).filter Call.isHook
        = (List.range N).map Call.read ++ (List.range N).map Call.post :=
  ⟨by decide,
    parse_hook_order plainEnv false false freshReader
      (parse plainEnv false false freshReader rootsFile).state rootsFile (by decide)⟩

/-- C10: when the record loop reaches index i and the type name resolved for record i is empty,
Reader::parse fails with the blank-record-type error whose message carries i; the state it fails
in is the one in which the pass for i started, advanced past the type name only, so no record
separator has been read and no registry lookup made for record i. -/
theorem parse_blankRecordType (K : Env) (l d : Bool) (r ri : Reader) (stream : Bytes) (i : Nat)
    (rest : Bytes) (h : decodeUpTo K l d r stream i = .done ri) (hi : i < ri.mRecords.length)
    (hname : recordTypeName i ri = .ok ("", rest)) :
    parse K l d r stream = .thrown (.blankRecordType i) { ri with nif := rest } ∧
    (NifError.blankRecordType i).message = "Record type is blank (index " ++ toString i ++ ")" ∧
    ∃ tr, (parse K l d r stream).state.calls = r.calls ++ tr ∧
      ∀ c ∈ tr, c ≠ Call.separator i ∧ ∀ rec, c ≠ Call.find i rec := by
  have hstep : readRecord K d i ri = .thrown (.blankRecordType i) { ri with nif := rest } := by
    unfold readRecord
    rw [hname]
    simp
  have hparse := parse_of_decodeUpTo h hi hstep
  refine ⟨hparse, rfl, ?_⟩
  obtain ⟨rs, -, h2, h3, -, -⟩ := decodeUpTo_done h
  obtain ⟨tr, h4, h5⟩ := recordLoop_calls h2
  refine ⟨tr, by rw [hparse, Outcome.state_thrown]; show ri.calls = _; rw [h4, h3], ?_⟩
  intro c hc
  obtain ⟨j, -, hj, h6⟩ := h5 c hc
  have hji : j ≠ i := by omega
  rcases h6 with rfl | ⟨rec, rfl⟩ | rfl
  · exact ⟨fun h7 => hji (by injection h7), fun rec h7 => by cases h7⟩
  · exact ⟨fun h7 => (by cases h7), fun rec1 h7 => hji (by injection h7)⟩
  · exact ⟨fun h7 => (by cases h7), fun rec h7 => (by cases h7)⟩

theorem parse_blankRecordType_witness :
    parse plainEnv false false freshReader blankFile = .thrown (.blankRecordType 1)
      { (decodeUpTo plainEnv false false freshReader blankFile 1).state with nif := [0, 0, 0, 0] } ∧
    (NifError.blankRecordType 1).message = "Record type is blank (index " ++ toString 1 ++ ")" ∧
    ∃ tr, (parse plainEnv false false freshReader blankFile).state.calls
        = freshReader.calls ++ tr ∧
      ∀ c ∈ tr, c ≠ Call.separator 1 ∧ ∀ rec, c ≠ Call.find 1 rec :=
  parse_blankRecordType plainEnv false false freshReader
    (decodeUpTo plainEnv false false freshReader blankFile 1).state blankFile 1 [0, 0, 0, 0]
    (by decide) (by decide) (by rfl)

/-- C4 (as the code has it): when the record loop reaches index i and the type name resolved for
record i is not empty and not a key of the record type registry, Reader::parse fails, provided
the record separator can be read where one is due, with the unknown-record-type error, which
carries the offending type name (its message is "Unknown record type " followed by the name);
the record index is not part of the error. -/
theorem parse_unknownRecordType (K : Env) (l d : Bool) (r ri : Reader) (stream : Bytes) (i : Nat)
    (rec : String) (rest : Bytes) (h : decodeUpTo K l d r stream i = .done ri)
    (hi : i < ri.mRecords.length) (hname : recordTypeName i ri = .ok (rec, rest))
    (hrec : rec ≠ "") (hmiss : factories.lookup rec = none)
    (hsep : (hasRecordSeparators ri.mVersion && !startsWith rec "bhk") = true →
      ∃ v rest1, getI32 rest = some (v, rest1)) :
    (parse K l d r stream).error = some (.unknownRecordType rec) ∧
    (NifError.unknownRecordType rec).message = "Unknown record type " ++ rec := by
  obtain ⟨s, hstep⟩ := readRecord_unknown (K := K) (d := d) hname hrec hmiss hsep
  rw [parse_of_decodeUpTo h hi hstep]
  exact ⟨rfl, rfl⟩

theorem parse_unknownRecordType_witness :
    (parse plainEnv false false freshReader unknownSecondFile).error
      = some (.unknownRecordType "NotARealRecordType") ∧
    (NifError.unknownRecordType "NotARealRecordType").message
      = "Unknown record type " ++ "NotARealRecordType" :=
  parse_unknownRecordType plainEnv false false freshReader
    (decodeUpTo plainEnv false false freshReader unknownSecondFile 1).state unknownSecondFile 1
    "NotARealRecordType" [0, 0, 0, 0] (by decide) (by decide) (by rfl) (by decide) (by decide)
    (fun h => absurd h (by decide))

/-- C4 fails as stated: the sole record named NotARealRecordType (index 0) and the same name at
index 1 of another file make parse throw one and the same error, whose message is
"Unknown record type NotARealRecordType"; nothing in it refers to the index. -/
theorem parse_unknownRecordType_counterexample :
    (parse plainEnv false false freshReader unknownFile).error
      = some (.unknownRecordType "NotARealRecordType") ∧
    (parse plainEnv false false freshReader unknownSecondFile).error
      = (parse plainEnv false false freshReader unknownFile).error ∧
    (parse plainEnv false false freshReader unknownFile).error.map NifError.message
      = some "Unknown record type NotARealRecordType" ∧
    (parse plainEnv false false freshReader unknownFile).state.calls
      = [Call.find 0 "NotARealRecordType"] ∧
    (parse plainEnv false false freshReader unknownSecondFile).state.calls
      = [Call.find 0 "NiNode", Call.read 0, Call.find 1 "NotARealRecordType"] := by
  decide

/-- C8 (as the code has it): when Reader::parse fails the exception is all the caller gets, and the
NIFFile the Reader writes through keeps what was written before the throw. After the
invalid-header error the version, user version, Bethesda version, record sequence and root list
are the same as before the call. After the unsupported-version and the big-endian error the user
version, Bethesda version, record sequence and root list are the same as before the call, while
the version is the one read from the input. After the hashed-record-types, blank-record-type,
unknown-record-type and record-decode failures the root list is the same as before the call, the
version is the one read, and the record sequence is left resized to the declared count: with i
the index of the failing record (0 for the hashed-record-types error, the index the blank-type
error carries, the index of the last lookup or read hook called otherwise) the entries below i
are filled and the entries from i on are as the resize left them, so unfilled wherever the
sequence had no entry before the call. After every failure other than the invalid-header error
(so also after a short read or a failing post-processing hook) the version is the one read from
the input, unless the failure is the short read of the version itself, which leaves the five as
they were before the call. -/
theorem parse_failure_state (K : Env) (l d : Bool) (r s : Reader) (stream : Bytes) (e : NifError)
    (h : parse K l d r stream = .thrown e s) :
    ((∃ head, e = .invalidHeader head) →
      s.mVersion = r.mVersion ∧ s.mUserVersion = r.mUserVersion ∧
      s.mBethVersion = r.mBethVersion ∧ s.mRecords = r.mRecords ∧ s.mRoots = r.mRoots) ∧
    ((∃ v, e = .unsupportedVersion v) ∨ e = .bigEndian →
      (∃ v rest, getU32 (getVersionString stream).2 = some (v, rest) ∧ s.mVersion = v) ∧
      s.mUserVersion = r.mUserVersion ∧ s.mBethVersion = r.mBethVersion ∧
      s.mRecords = r.mRecords ∧ s.mRoots = r.mRoots) ∧
    (e = .hashedRecordTypes ∨ (∃ j, e = .blankRecordType j) ∨ (∃ rec, e = .unknownRecordType rec) ∨
        e = .recordRead →
      s.mRoots = r.mRoots ∧
      (∃ v rest, getU32 (getVersionString stream).2 = some (v, rest) ∧ s.mVersion = v) ∧
      ∃ rh count rest i, decodeHeader K l d r stream = .done rh ∧
        getU32 rh.nif = some (count, rest) ∧ s.mRecords.length = count ∧ i ≤ count ∧
        (e = .hashedRecordTypes → i = 0) ∧ (e ≠ .hashedRecordTypes → i < count) ∧
        (∀ j, e = .blankRecordType j → j = i) ∧
        (∀ rec, e = .unknownRecordType rec → s.calls.getLast? = some (Call.find i rec)) ∧
        (e = .recordRead → s.calls.getLast? = some (Call.read i)) ∧
        (∀ k, k < i → ∃ record, s.mRecords[k]? = some (some record)) ∧
        (∀ k, i ≤ k → s.mRecords[k]? = (resize r.mRecords count none)[k]?) ∧
        (∀ k, i ≤ k → k < count → r.mRecords.length ≤ k → s.mRecords[k]? = some none)) ∧
    ((∀ head, e ≠ .invalidHeader head) →
      (getU32 (getVersionString stream).2 = none ∧ e = .truncatedStream ∧
        s.mVersion = r.mVersion ∧ s.mUserVersion = r.mUserVersion ∧
        s.mBethVersion = r.mBethVersion ∧ s.mRecords = r.mRecords ∧ s.mRoots = r.mRoots) ∨
      ∃ v rest, getU32 (getVersionString stream).2 = some (v, rest) ∧ s.mVersion = v) := by
  have hlate : ∀ r1, afterEndianness K d r1 = .thrown e s →
      (∀ head, e ≠ .invalidHeader head) ∧ (∀ v, e ≠ .unsupportedVersion v) ∧ e ≠ .bigEndian := by
    intro r1 h1
    have h2 := congrArg Outcome.error h1
    rw [Outcome.error_thrown] at h2
    rcases afterEndianness_error h2 with h3 | h3 | h3 | ⟨j, h3⟩ | ⟨rec, h3⟩ | h3 | h3 <;>
      subst h3 <;> simp
  refine ⟨?_, ?_, ?_, fun hne => parse_thrown_after_header h hne⟩
  · rintro ⟨head, rfl⟩
    rcases parse_thrown_cases h with ⟨-, hash, nif, rfl⟩ | ⟨h1, -⟩ | ⟨r1, h1⟩
    · exact ⟨rfl, rfl, rfl, rfl, rfl⟩
    · rcases h1 with h1 | ⟨v, h1⟩ | h1 <;> simp at h1
    · exact absurd rfl ((hlate r1 h1).1 head)
  · intro he
    have hversion : ∃ v rest, getU32 (getVersionString stream).2 = some (v, rest) ∧
        s.mVersion = v := by
      apply parse_thrown_version h
      · intro head hh
        rcases he with ⟨v, he⟩ | he <;> rw [he] at hh <;> cases hh
      · intro hh
        rcases he with ⟨v, he⟩ | he <;> rw [he] at hh <;> cases hh
    refine ⟨hversion, ?_⟩
    rcases parse_thrown_cases h with ⟨⟨head, h1⟩, -⟩ | ⟨-, hash, nif, version, log, rfl⟩ | ⟨r1, h1⟩
    · rcases he with ⟨v, he⟩ | he <;> rw [he] at h1 <;> simp at h1
    · exact ⟨rfl, rfl, rfl, rfl⟩
    · rcases he with ⟨v, he⟩ | he
      · exact absurd he ((hlate r1 h1).2.1 v)
      · exact absurd he (hlate r1 h1).2.2
  · intro he
    have hversion : ∃ v rest, getU32 (getVersionString stream).2 = some (v, rest) ∧
        s.mVersion = v := by
      apply parse_thrown_version h
      · intro head hh
        rcases he with he | ⟨j, he⟩ | ⟨rec, he⟩ | he <;> rw [he] at hh <;> cases hh
      · intro hh
        rcases he with he | ⟨j, he⟩ | ⟨rec, he⟩ | he <;> rw [he] at hh <;> cases hh
    obtain ⟨rh, count, rest, i, h1, h2, h3, h4, h5, h6, h7, h8, h9, h10, h11⟩ :=
      parse_thrown_records h he
    have hroots : s.mRoots = r.mRoots := by
      have h := h
      rw [parse_eq_decodeGraph, Outcome.andThen_eq_thrown] at h
      rcases h with h | ⟨r1, -, h⟩
      · have h12 := decodeGraph_roots K l d r stream
        rw [h] at h12
        exact h12
      · have h12 := congrArg Outcome.error h
        rw [Outcome.error_thrown] at h12
        rcases Outcome.error_andThen h12 with h13 | ⟨r2, -, h13⟩
        · have h14 := readRoots_error h13
          subst h14
          rcases he with he | ⟨j, he⟩ | ⟨rec, he⟩ | he <;> simp at he
        · rcases postLoop_error h13 with h14 | h14 <;> subst h14 <;>
            rcases he with he | ⟨j, he⟩ | ⟨rec, he⟩ | he <;> simp at he
    refine ⟨hroots, hversion, rh, count, rest, i, h1, h2, h3, h4, h5, h6, h7, h8, h9, h10, h11,
      ?_⟩
    intro k hk1 hk2 hk3
    rw [h11 k hk1]
    exact getElem?_resize_pad _ _ _ hk3 hk2

theorem parse_failure_state_witness :
    (parse plainEnv false false freshReader unknownFile).state.mRoots = freshReader.mRoots ∧
    (∃ v rest, getU32 (getVersionString unknownFile).2 = some (v, rest) ∧
      (parse plainEnv false false freshReader unknownFile).state.mVersion = v) ∧
    ∃ rh count rest i, decodeHeader plainEnv false false freshReader unknownFile = .done rh ∧
      getU32 rh.nif = some (count, rest) ∧
      (parse plainEnv false false freshReader unknownFile).state.mRecords.length = count ∧
      i ≤ count ∧
      (NifError.unknownRecordType "NotARealRecordType" = .hashedRecordTypes → i = 0) ∧
      (NifError.unknownRecordType "NotARealRecordType" ≠ .hashedRecordTypes → i < count) ∧
      (∀ j, NifError.unknownRecordType "NotARealRecordType" = .blankRecordType j → j = i) ∧
      (∀ rec, NifError.unknownRecordType "NotARealRecordType" = .unknownRecordType rec →
        (parse plainEnv false false freshReader unknownFile).state.calls.getLast?
          = some (Call.find i rec)) ∧
      (NifError.unknownRecordType "NotARealRecordType" = .recordRead →
        (parse plainEnv false false freshReader unknownFile).state.calls.getLast?
          = some (Call.read i)) ∧
      (∀ k, k < i → ∃ record,
        (parse plainEnv false false freshReader unknownFile).state.mRecords[k]?
          = some (some record)) ∧
      (∀ k, i ≤ k →
        (parse plainEnv false false freshReader unknownFile).state.mRecords[k]?
          = (resize freshReader.mRecords count none)[k]?) ∧
      (∀ k, i ≤ k → k < count → freshReader.mRecords.length ≤ k →
        (parse plainEnv false false freshReader unknownFile).state.mRecords[k]? = some none) :=
  (parse_failure_state plainEnv false false freshReader
    (parse plainEnv false false freshReader unknownFile).state unknownFile
    (.unknownRecordType "NotARealRecordType") (by decide)).2.2.1
    (Or.inr (Or.inr (Or.inl ⟨"NotARealRecordType", rfl⟩)))

/-- C8 fails as stated: on the file whose sole record is named NotARealRecordType parse fails, and
the NIFFile is left with the version read from the file instead of the one before the call and
with the record sequence resized to the declared count, its one entry unfilled. -/
theorem parse_failure_state_counterexample :
    (parse plainEnv false false freshReader unknownFile).error
      = some (.unknownRecordType "NotARealRecordType") ∧
    freshReader.mVersion = 0 ∧
    (parse plainEnv false false freshReader unknownFile).state.mVersion
      = generateVersion 4 0 0 2 ∧
    freshReader.mRecords = [] ∧
    (parse plainEnv false false freshReader unknownFile).state.mRecords = [none] := by
  decide

/-! ## Claims about the header sections, the registry and the string table -/

/-- C13: for every version v, Reader::versionToString(v) is d3.d2.d1.d0 where d3, d2, d1, d0 are the
decimal renderings, without padding or leading zeros, of the four bytes of v from the most to the
least significant; 0x04000002 renders as "4.0.0.2" and 0x14020007 as "20.2.0.7". -/
theorem versionToString_bytes (v : Nat) :
    versionToString v =
      decimalOfByte (v / 16777216 % 256) ++ "." ++ decimalOfByte (v / 65536 % 256) ++ "." ++
        decimalOfByte (v / 256 % 256) ++ "." ++ decimalOfByte (v % 256) ∧
    (v < 4294967296 → v / 16777216 % 256 = v / 16777216) ∧
    versionToString 0x04000002 = "4.0.0.2" ∧
    versionToString 0x14020007 = "20.2.0.7" := by
  refine ⟨?_, fun h => Nat.mod_eq_of_lt (by omega), by decide, by decide⟩
  unfold versionToString
  simp only [mask_byte, Nat.shiftRight_eq_div_pow]
  have e24 : (2 : Nat) ^ 24 = 16777216 := by norm_num
  have e16 : (2 : Nat) ^ 16 = 65536 := by norm_num
  have e8 : (2 : Nat) ^ 8 = 256 := by norm_num
  rw [e24, e16, e8]
  have h3 := toString_byte (v / 16777216 % 256) (Nat.mod_lt _ (by decide))
  have h2 := toString_byte (v / 65536 % 256) (Nat.mod_lt _ (by decide))
  have h1 := toString_byte (v / 256 % 256) (Nat.mod_lt _ (by decide))
  have h0 := toString_byte (v % 256) (Nat.mod_lt _ (by decide))
  rw [h3, h2, h1, h0]

/-- C19: Reader::getString(i) fails (the out-of-range error of vector::at) exactly when i is not
2^32-1 and i is at or beyond the number of strings in the table; whenever it returns, the result
is the empty string for 2^32-1 and otherwise the table entry at i, so it never reads outside the
table. -/
theorem getString_fails_iff (pool : List String) (i : Nat) :
    (Reader.getString pool i = none ↔ i ≠ 4294967295 ∧ pool.length ≤ i) ∧
    (∀ s, Reader.getString pool i = some s →
      (i = 4294967295 ∧ s = "") ∨ (i ≠ 4294967295 ∧ ∃ h : i < pool.length, s = pool[i])) := by
  unfold Reader.getString
  by_cases hi : i = 4294967295
  · rw [if_pos hi]
    refine ⟨by simp [hi], fun s h => Or.inl ⟨hi, ?_⟩⟩
    simpa using h.symm
  · rw [if_neg hi]
    refine ⟨by simp [hi], fun s h => Or.inr ⟨hi, ?_⟩⟩
    obtain ⟨hlt, hs⟩ := List.getElem?_eq_some_iff.mp h
    exact ⟨hlt, hs.symm⟩

/-- C14: each capability flag of Reader::parse is decided by the packed version alone: endianness
byte iff version >= 20.0.0.4, user version iff >= 10.0.1.8, record-type table iff >= 5.0.0.1,
hashed record types iff = 20.3.1.2, per-record sizes iff >= 20.2.0.5, groups iff >= 5.0.0.6,
string table iff >= 20.1.0.1, record separators iff 10.0.0.0 <= version < 10.2.0.0; and the
statement guarded by a flag is skipped, whatever the other fields of the reader hold, when the
flag of the reader's version is false. -/
theorem capability_flags (v : Nat) :
    ((hasEndianness v = true ↔ 0x14000004 ≤ v) ∧
     (hasUserVersion v = true ↔ 0x0A000108 ≤ v) ∧
     (hasRecTypeListings v = true ↔ 0x05000001 ≤ v) ∧
     (hasRecTypeHashes v = true ↔ v = 0x14030102) ∧
     (hasRecordSizes v = true ↔ 0x14020005 ≤ v) ∧
     (hasGroups v = true ↔ 0x05000006 ≤ v) ∧
     (hasStringTable v = true ↔ 0x14010001 ≤ v) ∧
     (hasRecordSeparators v = true ↔ 0x0A000000 ≤ v ∧ v < 0x0A020000)) ∧
    (generateVersion 20 0 0 4 = 0x14000004 ∧ generateVersion 10 0 1 8 = 0x0A000108 ∧
     generateVersion 5 0 0 1 = 0x05000001 ∧ generateVersion 20 3 1 2 = 0x14030102 ∧
     generateVersion 20 2 0 5 = 0x14020005 ∧ generateVersion 5 0 0 6 = 0x05000006 ∧
     generateVersion 20 1 0 1 = 0x14010001 ∧ generateVersion 10 0 0 0 = 0x0A000000 ∧
     generateVersion 10 2 0 0 = 0x0A020000) ∧
    (∀ r : Reader, r.mVersion = v →
      (hasEndianness v = false → readEndianness r = .done r) ∧
      (hasUserVersion v = false → readUserVersion r = .done r) ∧
      (hasRecTypeListings v = false → readRecTypes r = .done r) ∧
      (hasRecordSizes v = false → readRecordSizes r = .done r) ∧
      (hasStringTable v = false → readStringTable r = .done r) ∧
      (hasGroups v = false → readGroups r = .done r) ∧
      (hasRecordSeparators v = false →
        ∀ (i : Nat) (rec : String) (k : Reader → Outcome), recordSeparator i rec k r = k r)) := by
  refine ⟨?_, by decide, ?_⟩
  · simp only [hasEndianness, hasUserVersion, hasRecTypeListings, hasRecTypeHashes,
      hasRecordSizes, hasGroups, hasStringTable, hasRecordSeparators, generateVersion,
      decide_eq_true_eq, Bool.and_eq_true, ge_iff_le]
    norm_num
  · rintro r rfl
    refine ⟨?_, ?_, ?_, ?_, ?_, ?_, ?_⟩
    · intro h
      unfold readEndianness consume
      simp [h]
    · intro h
      unfold readUserVersion
      simp [h]
    · intro h
      unfold readRecTypes
      simp [h]
    · intro h
      unfold readRecordSizes
      simp [h]
    · intro h
      unfold readStringTable
      simp [h]
    · intro h
      unfold readGroups
      simp [h]
    · intro h i rec k
      unfold recordSeparator
      simp [h]

/-- C18: the registry maps each of BSBlastNode, BSDamageStage, BSFadeNode, BSLeafAnimNode,
BSMultiBoundNode, BSOrderedNode, BSRangeNode, BSTreeNode and BSValueNode to a factory whose record
carries RC_NiNode, the discriminant of the record made for "NiNode"; and a pass of the record loop
that decodes a record under such a name stores it with that discriminant and with the name found
in the file as its recName. -/
theorem vendor_node_discriminant (name : String) (hname : name ∈ vendorNodeNames) :
    (∃ entry ninode, factories.lookup name = some entry ∧
      factories.lookup "NiNode" = some ninode ∧ (construct entry).recType = RC_NiNode ∧
      (construct entry).recType = (construct ninode).recType) ∧
    (∀ (K : Env) (d : Bool) (i : Nat) (r r1 : Reader) (rest : Bytes),
      recordTypeName i r = .ok (name, rest) → readRecord K d i r = .done r1 →
      ∃ record, r1.mRecords = r.mRecords.set i (some record) ∧ record.recType = RC_NiNode ∧
        record.recName = name ∧ record.recIndex = i) := by
  have h1 : ∃ entry ninode, factories.lookup name = some entry ∧
      factories.lookup "NiNode" = some ninode ∧ (construct entry).recType = RC_NiNode ∧
      (construct entry).recType = (construct ninode).recType := by
    simp only [vendorNodeNames, List.mem_cons, List.mem_singleton, List.mem_nil_iff,
      or_false] at hname
    rcases hname with rfl | rfl | rfl | rfl | rfl | rfl | rfl | rfl | rfl
    all_goals exact ⟨_, _, rfl, rfl, rfl, rfl⟩
  refine ⟨h1, ?_⟩
  intro K d i r r1 rest hn hdone
  obtain ⟨rec, rest1, entry, hn1, hl, hrecs⟩ := readRecord_stored hdone
  rw [hn] at hn1
  injection hn1 with hn1
  injection hn1 with hn2 hn3
  subst hn2
  obtain ⟨entry1, -, hl1, -, ht, -⟩ := h1
  rw [hl] at hl1
  injection hl1 with hl1
  subst hl1
  exact ⟨_, hrecs, ht, rfl, rfl⟩

theorem vendor_node_discriminant_witness :
    (parse plainEnv false false freshReader fadeNodeFile).state.mRecords
      = [some (Record.mk "NiNode" RC_NiNode "BSFadeNode" 0)] ∧
    ((∃ entry ninode, factories.lookup "BSFadeNode" = some entry ∧
      factories.lookup "NiNode" = some ninode ∧ (construct entry).recType = RC_NiNode ∧
      (construct entry).recType = (construct ninode).recType) ∧
    (∀ (K : Env) (d : Bool) (i : Nat) (r r1 : Reader) (rest : Bytes),
      recordTypeName i r = .ok ("BSFadeNode", rest) → readRecord K d i r = .done r1 →
      ∃ record, r1.mRecords = r.mRecords.set i (some record) ∧ record.recType = RC_NiNode ∧
        record.recName = "BSFadeNode" ∧ record.recIndex = i)) :=
  ⟨by decide, vendor_node_discriminant "BSFadeNode" (by decide)⟩

/-- C20: with references resolved as the spec describes, a second post-processing pass leaves every
resolved reference as the first pass made it: for NiCollisionObject and bhkCollisionObject, post
applied twice gives the same record, hence the same target and body links, as post applied once,
and so does a pass over a whole list of such records. -/
theorem collisionObject_post_idempotent (nif : Reader) :
    (∀ o : NiCollisionObject, (o.post nif).post nif = o.post nif) ∧
    (∀ o : bhkCollisionObject, (o.post nif).post nif = o.post nif) ∧
    (∀ o : bhkCollisionObject,
      ((o.post nif).post nif).mTarget.link = (o.post nif).mTarget.link ∧
      ((o.post nif).post nif).mBody.link = (o.post nif).mBody.link) ∧
    (∀ os : List bhkCollisionObject,
      (os.map (bhkCollisionObject.post nif)).map (bhkCollisionObject.post nif)
        = os.map (bhkCollisionObject.post nif)) := by
  have h1 : ∀ o : NiCollisionObject, (o.post nif).post nif = o.post nif := fun o => rfl
  have h2 : ∀ o : bhkCollisionObject, (o.post nif).post nif = o.post nif := fun o => rfl
  refine ⟨h1, h2, fun o => ⟨by rw [h2], by rw [h2]⟩, fun os => ?_⟩
  rw [List.map_map]
  apply List.map_congr_left
  intro o _
  exact h2 o

/-- C15: with rc the state right after the record count, Reader::parse reads the Bethesda stream
header exactly when version = VER_OB_OLD, or userVersion >= 3 and version >= 10.1.0.0 and
(version <= VER_OB or version = VER_BGS) and (userVersion <= 11 or version >= VER_OB). When the
condition holds the header is read in full (Bethesda version into mBethVersion, then the
author, process and export strings, which are dropped) and a missing header is a short read; in
every other case parse continues with the record type table on the same state, so the Bethesda
version is the one before the call and no byte is consumed. -/
theorem parse_bsStreamHeader (K : Env) (l d : Bool) (r rc : Reader) (stream : Bytes)
    (hstart : decodeToSections K l d r stream = .done rc) :
    (hasBSStreamHeader K rc.mVersion rc.mUserVersion = true ↔
      rc.mVersion = K.VER_OB_OLD ∨
        (rc.mUserVersion ≥ 3 ∧ rc.mVersion ≥ generateVersion 10 1 0 0 ∧
          (rc.mVersion ≤ K.VER_OB ∨ rc.mVersion = K.VER_BGS) ∧
          (rc.mUserVersion ≤ 11 ∨ rc.mVersion ≥ K.VER_OB))) ∧
    (hasBSStreamHeader K rc.mVersion rc.mUserVersion = false →
      readBSStreamHeader K rc = .done rc ∧
      parse K l d r stream = afterBSStreamHeader K d rc ∧
      (parse K l d r stream).state.mBethVersion = r.mBethVersion) ∧
    (hasBSStreamHeader K rc.mVersion rc.mUserVersion = true →
      (getU32 rc.nif = none → parse K l d r stream = .thrown .truncatedStream rc) ∧
      (∀ (b : Nat) (author script : String) (s1 s2 s3 s4 s5 : Bytes),
        getU32 rc.nif = some (b, s1) → getExportString s1 = some (author, s2) →
        (if b ≥ 131 then (getU32 s2).map (fun p => ((), p.2))
          else (getExportString s2).map (fun p => ((), p.2))) = some ((), s3) →
        getExportString s3 = some (script, s4) →
        (if b ≥ 103 then (getExportString s4).map (fun p => p.2) else some s4) = some s5 →
        readBSStreamHeader K rc = .done { rc with mBethVersion := b, nif := s5 } ∧
        parse K l d r stream = afterBSStreamHeader K d { rc with mBethVersion := b, nif := s5 } ∧
        (parse K l d r stream).state.mBethVersion = b)) := by
  have hparse := parse_eq_sections K l d r stream
  rw [hstart, Outcome.andThen_done] at hparse
  refine ⟨hasBSStreamHeader_iff K _ _, ?_, ?_⟩
  · intro hflag
    have h1 : readBSStreamHeader K rc = .done rc := by
      unfold readBSStreamHeader
      simp [hflag]
    rw [h1, Outcome.andThen_done] at hparse
    refine ⟨h1, hparse, ?_⟩
    obtain ⟨_, _, _, _, _, _, _, _, _, h2⟩ := afterBSStreamHeader_late K d rc
    obtain ⟨-, v, rest, -, -, -, h3, -⟩ := decodeToSections_done hstart
    rw [hparse, h2]
    exact h3
  · intro hflag
    constructor
    · intro hnone
      have h1 : readBSStreamHeader K rc = .thrown .truncatedStream rc := by
        unfold readBSStreamHeader
        rw [if_pos hflag, consume_none hnone]
      rw [hparse, h1]
      rfl
    · intro b author script s1 s2 s3 s4 s5 h1 h2 h3 h4 h5
      have h6 := readBSStreamHeader_of_read hflag h1 h2 h3 h4 h5
      rw [h6, Outcome.andThen_done] at hparse
      refine ⟨h6, hparse, ?_⟩
      obtain ⟨_, _, _, _, _, _, _, _, _, h7⟩ :=
        afterBSStreamHeader_late K d { rc with mBethVersion := b, nif := s5 }
      rw [hparse, h7]

theorem parse_bsStreamHeader_witness :
    (parse plainEnv true false freshReader bethesdaFile).error = none ∧
    (parse plainEnv true false freshReader bethesdaFile).state.mBethVersion = 100 ∧
    hasBSStreamHeader plainEnv (generateVersion 20 2 0 7) 12 = true ∧
    (decodeToSections plainEnv true false freshReader bethesdaFile).state.mUserVersion = 12 ∧
    (parse plainEnv false false freshReader rootsFile).state.mBethVersion = 0 :=
  ⟨by decide,
    ((parse_bsStreamHeader plainEnv true false freshReader
      (decodeToSections plainEnv true false freshReader bethesdaFile).state bethesdaFile
      (by decide)).2.2 (by decide)).2 100 "" "" (List.replicate 21 0) (List.replicate 20 0)
      (List.replicate 19 0) (List.replicate 18 0) (List.replicate 18 0) (by decide) (by decide)
      (by decide) (by decide) (by decide) |>.2.2,
    by decide, by decide,
    ((parse_bsStreamHeader plainEnv false false freshReader
      (decodeToSections plainEnv false false freshReader rootsFile).state rootsFile
      (by decide)).2.1 (by decide)).2.2⟩

/-- C11: with the permissive-load toggle on and rs the state in which the string table is due (its
version being the packed version of the input), Reader::parse consumes the string-pool section
(string count, maximal length, then that many strings) exactly when version >= 20.1.0.1. Below
the threshold parse goes on with the groups on the same state, so no string-pool byte is needed
and the string table stays as it was before the call; from the threshold on the three reads are
made, their strings become the string table, and a parse that returns has found them. -/
theorem parse_stringTable_gate (K : Env) (d : Bool) (r rs : Reader) (stream : Bytes)
    (hstart : decodeToStringTable K true d r stream = .done rs) :
    (∃ v rest, getU32 (getVersionString stream).2 = some (v, rest) ∧ rs.mVersion = v) ∧
    (rs.mVersion < generateVersion 20 1 0 1 →
      readStringTable rs = .done rs ∧
      parse K true d r stream = afterStringTable K d rs ∧
      (parse K true d r stream).state.mStrings = r.mStrings) ∧
    (rs.mVersion ≥ generateVersion 20 1 0 1 →
      (∀ (n m : Nat) (strings : List String) (s1 s2 s3 : Bytes),
        getU32 rs.nif = some (n, s1) → getU32 s1 = some (m, s2) →
        getSizedStrings n s2 = some (strings, s3) →
        parse K true d r stream = afterStringTable K d { rs with mStrings := strings, nif := s3 } ∧
        (parse K true d r stream).state.mStrings = strings) ∧
      ((parse K true d r stream).error = none →
        ∃ (n m : Nat) (strings : List String) (s1 s2 s3 : Bytes),
          getU32 rs.nif = some (n, s1) ∧ getU32 s1 = some (m, s2) ∧
          getSizedStrings n s2 = some (strings, s3))) := by
  have hparse := parse_eq_stringTable K true d r stream
  rw [hstart, Outcome.andThen_done] at hparse
  obtain ⟨v, rest, hv, hver, hstr⟩ := decodeToStringTable_done hstart
  refine ⟨⟨v, rest, hv, hver⟩, ?_, ?_⟩
  · intro hlt
    have hflag : hasStringTable rs.mVersion = false := by
      unfold hasStringTable
      exact decide_eq_false (by omega)
    have h1 : readStringTable rs = .done rs := by
      unfold readStringTable
      simp [hflag]
    rw [h1, Outcome.andThen_done] at hparse
    refine ⟨h1, hparse, ?_⟩
    rw [hparse, (afterStringTable_keeps K d rs).1]
    exact hstr
  · intro hge
    have hflag : hasStringTable rs.mVersion = true := by
      unfold hasStringTable
      exact decide_eq_true hge
    constructor
    · intro n m strings s1 s2 s3 h1 h2 h3
      rw [readStringTable_of_read hflag h1 h2 h3, Outcome.andThen_done] at hparse
      refine ⟨hparse, ?_⟩
      rw [hparse, (afterStringTable_keeps K d _).1]
    · intro hok
      rw [hparse] at hok
      cases h1 : readStringTable rs with
      | done r1 =>
        obtain ⟨n, m, strings, s1, s2, s3, h2, h3, h4, -⟩ := readStringTable_done h1 hflag
        exact ⟨n, m, strings, s1, s2, s3, h2, h3, h4⟩
      | thrown e r1 =>
        rw [h1] at hok
        simp at hok

theorem parse_stringTable_gate_witness :
    (parse plainEnv true false freshReader (stringGateFile (generateVersion 20 1 0 0) [])).error
      = none ∧
    (parse plainEnv true false freshReader (stringGateFile (generateVersion 20 1 0 1) [])).error
      = some .truncatedStream ∧
    (parse plainEnv true false freshReader
      (stringGateFile (generateVersion 20 1 0 1) fooBarPool)).state.mStrings = ["foo", "bar"] ∧
    (parse plainEnv true false freshReader
      (stringGateFile (generateVersion 20 1 0 0) [])).state.mStrings = freshReader.mStrings :=
  ⟨by decide, by decide, by decide,
    ((parse_stringTable_gate plainEnv false freshReader
      (decodeToStringTable plainEnv true false freshReader
        (stringGateFile (generateVersion 20 1 0 0) [])).state
      (stringGateFile (generateVersion 20 1 0 0) []) (by decide)).2.1 (by decide)).2.2⟩

/-- C12: with the permissive-load toggle on, a recognised banner, packed version 20.3.1.2, a non-zero
endianness byte and the bytes of the user version and of the record count, Reader::parse fails
with the hashed-record-types error before any record is decoded (no call of the record loop has
been made), the constants of niffile.hpp being such that 20.3.1.2 has no Bethesda stream header;
and whatever the toggles, an input that ends in this error has packed version 20.3.1.2. -/
theorem parse_hashedRecordTypes (K : Env) (d : Bool) (r : Reader) (stream : Bytes)
    (e u n : Nat) (rest rest1 rest2 rest3 : Bytes)
    (hbanner : supportedHeader (getVersionString stream).1 = true)
    (hversion : getU32 (getVersionString stream).2 = some (generateVersion 20 3 1 2, rest))
    (hend : getU8 rest = some (e, rest1)) (he : e ≠ 0)
    (huser : getU32 rest1 = some (u, rest2)) (hcount : getU32 rest2 = some (n, rest3))
    (hold : K.VER_OB_OLD ≠ generateVersion 20 3 1 2) (hob : K.VER_OB < generateVersion 20 3 1 2)
    (hbgs : K.VER_BGS ≠ generateVersion 20 3 1 2) :
    (parse K true d r stream).error = some .hashedRecordTypes ∧
    (parse K true d r stream).state.calls = r.calls ∧
    (parse K true d r stream).state.mRecords = resize r.mRecords n none ∧
    (∀ (l1 d1 : Bool) (r1 : Reader) (stream1 : Bytes),
      (parse K l1 d1 r1 stream1).error = some .hashedRecordTypes →
      ∃ rest4, getU32 (getVersionString stream1).2 = some (generateVersion 20 3 1 2, rest4)) := by
  obtain ⟨h1, h2⟩ := parse_of_version (K := K) (l := true) (d := d) (r := r) hbanner hversion
  have key : ∀ x : Reader, x.mVersion = generateVersion 20 3 1 2 → x.nif = rest →
      x.calls = r.calls → x.mRecords = r.mRecords →
      (afterVersion K d x).error = some .hashedRecordTypes ∧
      (afterVersion K d x).state.calls = r.calls ∧
      (afterVersion K d x).state.mRecords = resize r.mRecords n none := by
    intro x hx hnif hcalls hrecs
    rw [afterVersion_hashed hx (by rw [hnif]; exact hend) he huser hcount hold hob hbgs]
    exact ⟨rfl, hcalls, by rw [← hrecs]; rfl⟩
  have hparse : ∃ x : Reader, parse K true d r stream = afterVersion K d x ∧
      x.mVersion = generateVersion 20 3 1 2 ∧ x.nif = rest ∧ x.calls = r.calls ∧
      x.mRecords = r.mRecords := by
    rw [h1, h2]
    by_cases hs : supportedVersion K (generateVersion 20 3 1 2) = true
    · rw [if_pos hs, Outcome.andThen_done]
      exact ⟨_, rfl, rfl, rfl, rfl, rfl⟩
    · rw [if_neg hs, if_neg (by decide), Outcome.andThen_done]
      exact ⟨_, rfl, rfl, rfl, rfl, rfl⟩
  obtain ⟨x, hx, hx1, hx2, hx3, hx4⟩ := hparse
  rw [hx]
  obtain ⟨k1, k2, k3⟩ := key x hx1 hx2 hx3 hx4
  exact ⟨k1, k2, k3, fun l1 d1 r1 stream1 h => parse_hashed_version h⟩

theorem parse_hashedRecordTypes_witness :
    (parse plainEnv true false freshReader hashedFile).error = some .hashedRecordTypes ∧
    (parse plainEnv true false freshReader hashedFile).state.calls = freshReader.calls ∧
    (parse plainEnv true false freshReader hashedFile).state.mRecords
      = resize freshReader.mRecords 3 none ∧
    (∀ (l1 d1 : Bool) (r1 : Reader) (stream1 : Bytes),
      (parse plainEnv l1 d1 r1 stream1).error = some .hashedRecordTypes →
      ∃ rest4, getU32 (getVersionString stream1).2 = some (generateVersion 20 3 1 2, rest4)) :=
  parse_hashedRecordTypes plainEnv false freshReader hashedFile 1 12 3
    ([1] ++ le32 12 ++ le32 3) (le32 12 ++ le32 3) (le32 3) [] (by decide) (by decide)
    (by decide) (by decide) (by decide) (by decide) (by decide) (by decide) (by decide)

/-- C17: with rb the state in which the record type table is due. When the table is present (version
>= 5.0.0.1 and not 20.3.1.2) parse reads a 16-bit count, that many type names and exactly N
16-bit indices (N the record count), and in the record loop the type name of record i is
names[indices[i]], resolved without consuming any input; when the table is absent (version below
5.0.0.1) nothing is read here and the type name of record i is the inline length-prefixed string
at the start of record i. -/
theorem parse_recordTypeTable (K : Env) (l d : Bool) (r rb : Reader) (stream : Bytes)
    (hstart : decodeToRecTypes K l d r stream = .done rb) :
    (rb.mVersion ≥ generateVersion 5 0 0 1 → rb.mVersion ≠ generateVersion 20 3 1 2 →
      ∀ (count : Nat) (names : List String) (idxs : List Nat) (s1 s2 s3 : Bytes),
        getU16 rb.nif = some (count, s1) → getSizedStrings count s1 = some (names, s2) →
        readVector getU16 rb.mRecords.length s2 = some (idxs, s3) →
        names.length = count ∧ idxs.length = rb.mRecords.length ∧
        parse K l d r stream
          = afterRecTypes K d { rb with recTypes := names, recTypeIndices := idxs, nif := s3 } ∧
        ∀ (i : Nat) (ri : Reader), decodeUpTo K l d r stream i = .done ri →
          ri.recTypes = names ∧ ri.recTypeIndices = idxs ∧
          ∀ (t : Nat) (name : String), idxs[i]? = some t → names[t]? = some name →
            recordTypeName i ri = .ok (name, ri.nif)) ∧
    (rb.mVersion < generateVersion 5 0 0 1 →
      parse K l d r stream = afterRecTypes K d rb ∧
      ∀ (i : Nat) (ri : Reader), decodeUpTo K l d r stream i = .done ri →
        (∀ (name : String) (rest : Bytes), getSizedString ri.nif = some (name, rest) →
          recordTypeName i ri = .ok (name, rest)) ∧
        (getSizedString ri.nif = none → recordTypeName i ri = .error .truncatedStream)) := by
  have hparse := parse_eq_recTypes K l d r stream
  rw [hstart, Outcome.andThen_done] at hparse
  constructor
  · intro hge hne count names idxs s1 s2 s3 h1 h2 h3
    have f1 : hasRecTypeListings rb.mVersion = true := by
      unfold hasRecTypeListings
      exact decide_eq_true hge
    have f2 : hasRecTypeHashes rb.mVersion = false := by
      unfold hasRecTypeHashes
      exact decide_eq_false hne
    have h4 := readRecTypes_of_read f1 f2 h1 h2 h3
    rw [h4, Outcome.andThen_done] at hparse
    refine ⟨readVector_length h2, readVector_length h3, hparse, ?_⟩
    intro i ri hi
    obtain ⟨rt, h5, h6, h7, h8⟩ := decodeUpTo_recTypes hstart hi
    rw [h4] at h5
    injection h5 with h5
    subst h5
    refine ⟨h6, h7, ?_⟩
    intro t name ht hname
    exact recordTypeName_table (by rw [h8]; exact f1) (by rw [h7]; exact ht)
      (by rw [h6]; exact hname)
  · intro hlt
    have f1 : hasRecTypeListings rb.mVersion = false := by
      unfold hasRecTypeListings
      exact decide_eq_false (by omega)
    have h4 : readRecTypes rb = .done rb := by
      unfold readRecTypes
      rw [f1]
      rfl
    rw [h4, Outcome.andThen_done] at hparse
    refine ⟨hparse, ?_⟩
    intro i ri hi
    obtain ⟨rt, -, -, -, h8⟩ := decodeUpTo_recTypes hstart hi
    exact recordTypeName_inline (by rw [h8]; exact f1)

theorem parse_recordTypeTable_witness :
    recordTypeName 0 (decodeUpTo plainEnv true false freshReader separatorFile 0).state
      = .ok ("NiNode", le32 7 ++ le32 1 ++ le32 5) ∧
    recordTypeName 1 (decodeUpTo plainEnv false false freshReader rootsFile 1).state
      = .ok ("NiCamera", sized "NiNode" ++ le32 3 ++ le32 0 ++ le32 3 ++ le32 2) :=
  ⟨((parse_recordTypeTable plainEnv true false freshReader
      (decodeToRecTypes plainEnv true false freshReader separatorFile).state separatorFile
      (by decide)).1 (by decide) (by decide) 1 ["NiNode"] [0]
      (sized "NiNode" ++ le16 0 ++ le32 0 ++ le32 7 ++ le32 1 ++ le32 5)
      (le16 0 ++ le32 0 ++ le32 7 ++ le32 1 ++ le32 5) (le32 0 ++ le32 7 ++ le32 1 ++ le32 5)
      (by decide) (by decide) (by decide)).2.2.2 0
      (decodeUpTo plainEnv true false freshReader separatorFile 0).state (by decide)
      |>.2.2 0 "NiNode" (by decide) (by decide),
    (((parse_recordTypeTable plainEnv false false freshReader
        (decodeToRecTypes plainEnv false false freshReader rootsFile).state rootsFile
        (by decide)).2 (by decide)).2 1
        (decodeUpTo plainEnv false false freshReader rootsFile 1).state (by decide)).1
      "NiCamera" (sized "NiNode" ++ le32 3 ++ le32 0 ++ le32 3 ++ le32 2) (by decide)⟩

/-- C16: in the pass of the record loop for a record of type name rec, Reader::parse consumes a 4-byte
separator, before the registry lookup and the record body, exactly when 10.0.0.0 <= version <
10.2.0.0 and rec does not start with "bhk"; the value read only decides whether a warning is
logged: two inputs that differ in the separator of record i alone end in the same outcome of the
rest of parse (same records, roots, calls and error, or the same exception) up to the log. -/
theorem parse_recordSeparator (K : Env) (d : Bool) (i : Nat) (rec : String) (r : Reader) :
    ((hasRecordSeparators r.mVersion && !startsWith rec "bhk") = true ↔
      (generateVersion 10 0 0 0 ≤ r.mVersion ∧ r.mVersion < generateVersion 10 2 0 0) ∧
        startsWith rec "bhk" = false) ∧
    (∀ rest : Bytes, recordTypeName i r = .ok (rec, rest) → rec ≠ "" →
      readRecord K d i r
        = recordSeparator i rec (storeRecord K d i rec) { r with nif := rest }) ∧
    (∀ k : Reader → Outcome,
      (hasRecordSeparators r.mVersion && !startsWith rec "bhk") = false →
      recordSeparator i rec k r = k r) ∧
    (∀ (k : Reader → Outcome) (v : Int) (rest : Bytes),
      (hasRecordSeparators r.mVersion && !startsWith rec "bhk") = true →
      getI32 r.nif = some (v, rest) →
      recordSeparator i rec k r =
        k { r with nif := rest, calls := r.calls ++ [Call.separator i],
                   log := if v ≠ 0 then r.log ++ [LogLine.nonZeroSeparator rec i]
                          else r.log }) ∧
    (∀ k : Reader → Outcome,
      (hasRecordSeparators r.mVersion && !startsWith rec "bhk") = true →
      getI32 r.nif = none → recordSeparator i rec k r = .thrown .truncatedStream r) ∧
    (∀ (n t : Nat) (a b : Int) (s s1 rest : Bytes),
      (hasRecordSeparators r.mVersion && !startsWith rec "bhk") = true → rec ≠ "" →
      r.recTypeIndices[i]? = some t → r.recTypes[t]? = some rec →
      getI32 s = some (a, rest) → getI32 s1 = some (b, rest) →
      (decodeFrom K d (n + 1) i { r with nif := s }).eraseLog
        = (decodeFrom K d (n + 1) i { r with nif := s1 }).eraseLog) ∧
    (∀ (l : Bool) (r0 ri : Reader) (stream : Bytes),
      decodeUpTo K l d r0 stream i = .done ri → i ≤ ri.mRecords.length →
      parse K l d r0 stream = decodeFrom K d (ri.mRecords.length - i) i ri) ∧
    ((parse plainEnv true false freshReader (separatorFileWith 7)).eraseLog
        = (parse plainEnv true false freshReader (separatorFileWith 0)).eraseLog ∧
      (parse plainEnv true false freshReader (separatorFileWith 7)).state.log
        = [LogLine.nonZeroSeparator "NiNode" 0, LogLine.rootNotRecord 1 5] ∧
      (parse plainEnv true false freshReader (separatorFileWith 0)).state.log
        = [LogLine.rootNotRecord 1 5]) := by
  refine ⟨?_, fun rest hn hrec => readRecord_eq_store hn hrec,
    fun k h => recordSeparator_skip h, fun k v rest h hv => recordSeparator_read h hv,
    fun k h hv => recordSeparator_short h hv,
    fun n t a b s s1 rest hc hrec ht hname ha hb =>
      decodeFrom_separator_value hc hrec ht hname ha hb,
    fun l r0 ri stream h hi => parse_eq_decodeFrom h hi, by decide⟩
  unfold hasRecordSeparators
  simp only [Bool.and_eq_true, decide_eq_true_eq, Bool.not_eq_true', ge_iff_le]

/-! ## Claims about the layout, the flags and the toggles -/

/-- C23: the capability flags are nested by their thresholds, for every version: hashed types implies
per-record sizes implies string table implies endianness byte implies user version implies groups
implies record-type table; record separators imply groups and the record-type table and exclude
the endianness byte, the string table and per-record sizes. -/
theorem flags_nested_by_threshold (version : Nat) :
    (hasRecTypeHashes version = true → hasRecordSizes version = true) ∧
    (hasRecordSizes version = true → hasStringTable version = true) ∧
    (hasStringTable version = true → hasEndianness version = true) ∧
    (hasEndianness version = true → hasUserVersion version = true) ∧
    (hasUserVersion version = true → hasGroups version = true) ∧
    (hasGroups version = true → hasRecTypeListings version = true) ∧
    (hasRecordSeparators version = true →
      hasGroups version = true ∧ hasRecTypeListings version = true ∧
      hasEndianness version = false ∧ hasStringTable version = false ∧
      hasRecordSizes version = false) := by
  unfold hasRecTypeHashes hasRecordSizes hasStringTable hasEndianness hasUserVersion hasGroups
    hasRecTypeListings hasRecordSeparators generateVersion
  simp only [decide_eq_true_eq, decide_eq_false_iff_not, Bool.and_eq_true, ge_iff_le]
  refine ⟨?_, ?_, ?_, ?_, ?_, ?_, ?_⟩ <;> omega

/-- C26: Reader::versionToString is injective on 32-bit versions: two versions below 2^32 with the
same textual form are equal. The bound is needed, the bits from 32 on are not rendered. -/
theorem versionToString_injective (v w : Nat) (hv : v < 4294967296) (hw : w < 4294967296)
    (h : versionToString v = versionToString w) :
    v = w ∧ versionToString 4294967296 = versionToString 0 := by
  refine ⟨?_, by decide⟩
  obtain ⟨h3, h2, h1, h0⟩ := versionToString_inj_parts h
  omega

theorem versionToString_injective_witness :
    generateVersion 4 0 0 2 = 67108866 ∧ versionToString 4294967296 = versionToString 0 :=
  versionToString_injective (generateVersion 4 0 0 2) 67108866 (by decide) (by decide)
    (by decide)

/-- C25: for every name in the record type registry the factory makes a record (construct is total,
there is no null) whose discriminant is the one paired with that name in makeFactory and is not
RC_MISSING; the record a pass of the record loop stores is made this way, so every record of an
accepted input carries the discriminant of its type name, which is not RC_MISSING. -/
theorem factory_records_known :
    makeFactory.length = 164 ∧
    (∀ p ∈ makeFactory,
      (construct p.2).recType = p.2.recordType ∧ (construct p.2).recType ≠ RC_MISSING) ∧
    (∀ (name : String) (entry : CreateRecord), factories.lookup name = some entry →
      (name, entry) ∈ makeFactory ∧ (construct entry).recType = entry.recordType ∧
        (construct entry).recType ≠ RC_MISSING) ∧
    (∀ (K : Env) (d : Bool) (i : Nat) (r r1 : Reader), readRecord K d i r = .done r1 →
      ∃ name entry, factories.lookup name = some entry ∧
        r1.mRecords =
          r.mRecords.set i (some { construct entry with recName := name, recIndex := i })) ∧
    (∀ (K : Env) (l d : Bool) (r f : Reader) (stream : Bytes), parse K l d r stream = .done f →
      ∀ i, i < f.mRecords.length → ∃ record entry, f.mRecords[i]? = some (some record) ∧
        factories.lookup record.recName = some entry ∧ record.recType = entry.recordType ∧
        record.recType ≠ RC_MISSING) ∧
    (parse plainEnv true true freshReader separatorFile).state.mRecords
      = [some (Record.mk "NiNode" RC_NiNode "NiNode" 0)] := by
  refine ⟨makeFactory_length, ?_, ?_, ?_, ?_, by decide⟩
  · intro p hp
    have hknown : p.2.recordType ≠ RC_MISSING := by
      obtain ⟨name, c⟩ := p
      exact makeFactory_known hp
    exact ⟨rfl, hknown⟩
  · intro name entry h
    exact ⟨mem_of_lookup h, rfl, lookup_known h⟩
  · intro K d i r r1 h
    obtain ⟨name, rest, entry, -, hentry, hrecs⟩ := readRecord_stored h
    exact ⟨name, entry, hentry, hrecs⟩
  · intro K l d r f stream h i hi
    obtain ⟨name, entry, hentry, hrec⟩ := parse_made h i hi
    exact ⟨_, entry, hrec, hentry, rfl, lookup_known hentry⟩

/-- C24: the type index of a record is not checked against the type table. A pass of the record loop
whose type index is at or beyond the number of type names performs the lookup outside the table,
for every state with a type table; the input tableIndexFile, with one type name and the type index
5, leads parse to that lookup. -/
theorem parse_typeIndex_unchecked :
    (∀ (K : Env) (d : Bool) (i t : Nat) (r : Reader), hasRecTypeListings r.mVersion = true →
      r.recTypeIndices[i]? = some t → r.recTypes.length ≤ t →
      readRecord K d i r = .thrown .undefinedBehaviour r) ∧
    (parse plainEnv true false freshReader tableIndexFile).error = some .undefinedBehaviour ∧
    (parse plainEnv true false freshReader tableIndexFile).state.recTypes = ["NiNode"] ∧
    (parse plainEnv true false freshReader tableIndexFile).state.recTypeIndices = [5] ∧
    (parse plainEnv true false freshReader tableIndexFile).state.mRecords = [none] :=
  ⟨fun _ _ _ _ _ h1 h2 h3 => readRecord_unchecked h1 h2 h3, by decide, by decide, by decide,
    by decide⟩

/-- C21 as worded fails: in bethesdaNodeFile the record count 1 stands before the Bethesda stream
header. When parse has read the count (one record slot exists) the header is still unread: it is
the next input and the Bethesda version is still 0; parse then reads it and returns. -/
theorem parse_count_after_bsHeader_counterexample :
    ∃ rh rc, decodeHeader plainEnv true false freshReader bethesdaNodeFile = .done rh ∧
      rh.nif = le32 1 ++ bethesdaHeader ++ bethesdaNodeTail ∧
      readRecordCount rh = .done rc ∧ rc.mRecords.length = 1 ∧
      hasBSStreamHeader plainEnv rc.mVersion rc.mUserVersion = true ∧
      rc.nif = bethesdaHeader ++ bethesdaNodeTail ∧ rc.mBethVersion = 0 ∧
      (parse plainEnv true false freshReader bethesdaNodeFile).error = none ∧
      (parse plainEnv true false freshReader bethesdaNodeFile).state.mBethVersion = 100 ∧
      (parse plainEnv true false freshReader bethesdaNodeFile).state.mRecords
        = [some (Record.mk "NiNode" RC_NiNode "NiNode" 0)] :=
  ⟨(decodeHeader plainEnv true false freshReader bethesdaNodeFile).state,
    (decodeToSections plainEnv true false freshReader bethesdaNodeFile).state,
    by decide, by decide, by decide, by decide, by decide, by decide, by decide, by decide,
    by decide, by decide⟩

/-- C21, amended: Reader::parse reads the declared record count right after the banner line, the
packed version, the endianness byte and the user version, before the Bethesda stream header: with
rh the state after the user version, the count is the next 32-bit value, the Bethesda version is
still the one before the call, and what parse does next is the Bethesda stream header on the input
that follows the count; when the header is present its first value is read there. -/
theorem parse_count_before_bsHeader (K : Env) (l d : Bool) (r rh : Reader) (stream : Bytes)
    (count : Nat) (rest : Bytes) (hhead : decodeHeader K l d r stream = .done rh)
    (hcount : getU32 rh.nif = some (count, rest)) :
    rh.mBethVersion = r.mBethVersion ∧ rh.mRecords = r.mRecords ∧
    decodeToSections K l d r stream =
      .done { rh with mRecords := resize rh.mRecords count none, nif := rest } ∧
    parse K l d r stream =
      (readBSStreamHeader K { rh with mRecords := resize rh.mRecords count none, nif := rest }).andThen
        (afterBSStreamHeader K d) ∧
    (hasBSStreamHeader K rh.mVersion rh.mUserVersion = true →
      (getU32 rest = none → parse K l d r stream = .thrown .truncatedStream
        { rh with mRecords := resize rh.mRecords count none, nif := rest }) ∧
      ∀ (b : Nat) (s1 : Bytes), getU32 rest = some (b, s1) →
        (parse K l d r stream).state.mBethVersion = b) := by
  have hc : readRecordCount rh =
      .done { rh with mRecords := resize rh.mRecords count none, nif := rest } := by
    unfold readRecordCount
    rw [consume_some hcount]
  have hs : decodeToSections K l d r stream =
      .done { rh with mRecords := resize rh.mRecords count none, nif := rest } := by
    unfold decodeToSections
    rw [hhead, Outcome.andThen_done, hc]
  have hparse := parse_eq_sections K l d r stream
  rw [hs, Outcome.andThen_done] at hparse
  obtain ⟨_, _, _, _, _, _, _, hframe⟩ := decodeHeader_done hhead
  refine ⟨by rw [hframe], by rw [hframe], hs, hparse, ?_⟩
  intro hflag
  constructor
  · intro hnone
    rw [hparse]
    unfold readBSStreamHeader
    rw [if_pos hflag, consume_none hnone]
    rfl
  · intro b s1 hb
    rw [hparse]
    have h1 := readBSStreamHeader_beth (K := K)
      (r := { rh with mRecords := resize rh.mRecords count none, nif := rest }) hflag hb
    cases h2 : readBSStreamHeader K
        { rh with mRecords := resize rh.mRecords count none, nif := rest } with
    | done s =>
      rw [h2] at h1
      simp only [Outcome.state_done] at h1
      rw [Outcome.andThen_done]
      obtain ⟨_, _, _, _, _, _, _, _, _, h3⟩ := afterBSStreamHeader_late K d s
      rw [h3]
      exact h1
    | thrown e s =>
      rw [h2] at h1
      exact h1

theorem parse_count_before_bsHeader_witness :
    (decodeHeader plainEnv true false freshReader bethesdaNodeFile).state.mBethVersion
      = freshReader.mBethVersion ∧
    (decodeHeader plainEnv true false freshReader bethesdaNodeFile).state.mRecords
      = freshReader.mRecords ∧
    decodeToSections plainEnv true false freshReader bethesdaNodeFile =
      .done { (decodeHeader plainEnv true false freshReader bethesdaNodeFile).state with
        mRecords := resize
          (decodeHeader plainEnv true false freshReader bethesdaNodeFile).state.mRecords 1 none,
        nif := bethesdaHeader ++ bethesdaNodeTail } ∧
    parse plainEnv true false freshReader bethesdaNodeFile =
      (readBSStreamHeader plainEnv
        { (decodeHeader plainEnv true false freshReader bethesdaNodeFile).state with
          mRecords := resize
            (decodeHeader plainEnv true false freshReader bethesdaNodeFile).state.mRecords 1 none,
          nif := bethesdaHeader ++ bethesdaNodeTail }).andThen
        (afterBSStreamHeader plainEnv false) ∧
    (hasBSStreamHeader plainEnv
        (decodeHeader plainEnv true false freshReader bethesdaNodeFile).state.mVersion
        (decodeHeader plainEnv true false freshReader bethesdaNodeFile).state.mUserVersion = true →
      (getU32 (bethesdaHeader ++ bethesdaNodeTail) = none →
        parse plainEnv true false freshReader bethesdaNodeFile = .thrown .truncatedStream
          { (decodeHeader plainEnv true false freshReader bethesdaNodeFile).state with
            mRecords := resize
              (decodeHeader plainEnv true false freshReader bethesdaNodeFile).state.mRecords 1 none,
            nif := bethesdaHeader ++ bethesdaNodeTail }) ∧
      ∀ (b : Nat) (s1 : Bytes), getU32 (bethesdaHeader ++ bethesdaNodeTail) = some (b, s1) →
        (parse plainEnv true false freshReader bethesdaNodeFile).state.mBethVersion = b) :=
  parse_count_before_bsHeader plainEnv true false freshReader
    (decodeHeader plainEnv true false freshReader bethesdaNodeFile).state bethesdaNodeFile 1
    (bethesdaHeader ++ bethesdaNodeTail) (by decide) (by decide)

/-- C22: with the version constants where niffile.hpp has them (VER_MW below 5.0.0.1, VER_OB_OLD from
5.0.0.1 on), every version that passes the version check has all eight capability flags false and
no Bethesda stream header whatever the user version, and Reader::parse with the permissive-load
toggle off is the strict layout on every input: banner line, packed version, 32-bit record count,
the records each starting with an inline type name, 32-bit root count, root indices. -/
theorem parse_strict_layout (K : Env) (hmw : K.VER_MW < generateVersion 5 0 0 1)
    (hob : generateVersion 5 0 0 1 ≤ K.VER_OB_OLD) :
    (∀ v : Nat, supportedVersion K v = true →
      hasEndianness v = false ∧ hasUserVersion v = false ∧ hasRecTypeListings v = false ∧
      hasRecTypeHashes v = false ∧ hasRecordSizes v = false ∧ hasGroups v = false ∧
      hasStringTable v = false ∧ hasRecordSeparators v = false ∧
      ∀ u : Nat, hasBSStreamHeader K v u = false) ∧
    (∀ (d : Bool) (r rv : Reader) (stream : Bytes),
      (readHeader K { r with nif := stream, recTypes := [], recTypeIndices := [] }).andThen
        (readVersion K false d) = .done rv → supportedVersion K rv.mVersion = true) ∧
    (∀ (d : Bool) (r : Reader) (stream : Bytes),
      parse K false d r stream = strictLayout K d r stream) := by
  refine ⟨?_, ?_, fun d r stream => parse_strict hmw hob d r stream⟩
  · intro v hv
    have hlt := supportedVersion_below hmw hv
    obtain ⟨f1, f2, f3, f4, f5, f6, f7, f8⟩ := flags_below hlt
    exact ⟨f1, f2, f3, f4, f5, f6, f7, f8, fun u => hasBSStreamHeader_below u hob hlt⟩
  · intro d r rv stream h
    obtain ⟨r1, -, h2⟩ := Outcome.andThen_eq_done.mp h
    obtain ⟨v, rest, log, -, hr2, hsup⟩ := readVersion_done h2
    rcases hsup with hsup | hsup
    · rw [hr2]; exact hsup
    · cases hsup

theorem parse_strict_layout_witness :
    ((strictLayout plainEnv false freshReader rootsFile).error = none ∧
      (strictLayout plainEnv false freshReader rootsFile).state.mRoots
        = [some 0, none, some 2]) ∧
    (∀ v : Nat, supportedVersion plainEnv v = true →
      hasEndianness v = false ∧ hasUserVersion v = false ∧ hasRecTypeListings v = false ∧
      hasRecTypeHashes v = false ∧ hasRecordSizes v = false ∧ hasGroups v = false ∧
      hasStringTable v = false ∧ hasRecordSeparators v = false ∧
      ∀ u : Nat, hasBSStreamHeader plainEnv v u = false) ∧
    (∀ (d : Bool) (r rv : Reader) (stream : Bytes),
      (readHeader plainEnv { r with nif := stream, recTypes := [], recTypeIndices := [] }).andThen
        (readVersion plainEnv false d) = .done rv → supportedVersion plainEnv rv.mVersion = true) ∧
    (∀ (d : Bool) (r : Reader) (stream : Bytes),
      parse plainEnv false d r stream = strictLayout plainEnv d r stream) :=
  ⟨by decide, parse_strict_layout plainEnv (by decide) (by decide)⟩

/-- C27: the debug-log toggle does not influence decoding. For every input, every starting state and
either setting of the permissive-load toggle, Reader::parse with the debug-log toggle on and with
it off end in the same outcome up to the log: the same error or none, the same input left
unconsumed, the same records, roots and version fields, and the same state otherwise; the log can
differ, as it does on separatorFile. -/
theorem parse_debugLog_independent (K : Env) (l : Bool) (r : Reader) (stream : Bytes) :
    (parse K l true r stream).eraseLog = (parse K l false r stream).eraseLog ∧
    (parse K l true r stream).error = (parse K l false r stream).error ∧
    (parse K l true r stream).state.nif = (parse K l false r stream).state.nif ∧
    (parse K l true r stream).state.mRecords = (parse K l false r stream).state.mRecords ∧
    (parse K l true r stream).state.mRoots = (parse K l false r stream).state.mRoots ∧
    (parse K l true r stream).state.mVersion = (parse K l false r stream).state.mVersion ∧
    (parse K l true r stream).state.mUserVersion
      = (parse K l false r stream).state.mUserVersion ∧
    (parse K l true r stream).state.mBethVersion
      = (parse K l false r stream).state.mBethVersion ∧
    (parse plainEnv true true freshReader separatorFile).state.log
      ≠ (parse plainEnv true false freshReader separatorFile).state.log := by
  have h := parse_debugLog K l r stream
  obtain ⟨h1, h2⟩ := eraseLog_eq_parts h
  refine ⟨h, h1, ?_, ?_, ?_, ?_, ?_, ?_, by decide⟩
  · have h3 := congrArg (fun s : Reader => s.nif) h2
    exact h3
  · have h3 := congrArg (fun s : Reader => s.mRecords) h2
    exact h3
  · have h3 := congrArg (fun s : Reader => s.mRoots) h2
    exact h3
  · have h3 := congrArg (fun s : Reader => s.mVersion) h2
    exact h3
  · have h3 := congrArg (fun s : Reader => s.mUserVersion) h2
    exact h3
  · have h3 := congrArg (fun s : Reader => s.mBethVersion) h2
    exact h3

end Nif

namespace MWWorld

/-! ## The crime ids -/

/-- A sequence of crime id calls whose increments stay in range issues consecutive ids, starting
right above the current one, and keeps the paid id at or below the current id. -/
theorem crimeCalls_issued (calls : List CrimeCall) :
    ∀ p : Player, p.mCurrentCrimeId + calls.count .getNewCrimeId ≤ 2147483647 →
      ∃ q, crimeCalls calls p =
          some ((List.range (calls.count .getNewCrimeId)).map
            (fun j : Nat => p.mCurrentCrimeId + 1 + j), q) ∧
        q.mCurrentCrimeId = p.mCurrentCrimeId + calls.count .getNewCrimeId ∧
        (p.mPaidCrimeId ≤ p.mCurrentCrimeId → q.mPaidCrimeId ≤ q.mCurrentCrimeId) := by
  induction calls with
  | nil =>
    intro p _
    exact ⟨p, rfl, by simp, fun h => h⟩
  | cons c calls ih =>
    intro p hp
    cases c with
    | getNewCrimeId =>
      have hcount : (CrimeCall.getNewCrimeId :: calls).count .getNewCrimeId
          = calls.count .getNewCrimeId + 1 := List.count_cons_self _ _
      rw [hcount] at hp ⊢
      have hlt : p.mCurrentCrimeId < 2147483647 := by omega
      have hnew : p.getNewCrimeId
          = some (p.mCurrentCrimeId + 1, { p with mCurrentCrimeId := p.mCurrentCrimeId + 1 }) := by
        unfold Player.getNewCrimeId
        rw [if_pos hlt]
      obtain ⟨q, h1, h2, h3⟩ := ih { p with mCurrentCrimeId := p.mCurrentCrimeId + 1 }
        (by show p.mCurrentCrimeId + 1 + _ ≤ _; push_cast at hp ⊢; omega)
      refine ⟨q, ?_, ?_, ?_⟩
      · unfold crimeCalls
        rw [hnew]
        dsimp only
        rw [h1]
        dsimp only
        rw [List.range_succ_eq_map]
        simp only [List.map_cons, List.map_map, Nat.cast_zero, add_zero]
        congr 3
        apply List.map_congr_left
        intro j _
        simp only [Function.comp, Nat.cast_succ]
        omega
      · rw [h2]
        show p.mCurrentCrimeId + 1 + _ = _
        push_cast
        omega
      · intro hle
        apply h3
        show p.mPaidCrimeId ≤ p.mCurrentCrimeId + 1
        omega
    | recordCrimeId =>
      have hcount : (CrimeCall.recordCrimeId :: calls).count .getNewCrimeId
          = calls.count .getNewCrimeId := by
        rw [List.count_cons_of_ne (by simp)]
      rw [hcount] at hp ⊢
      obtain ⟨q, h1, h2, h3⟩ := ih p.recordCrimeId hp
      refine ⟨q, ?_, h2, fun _ => h3 (le_refl _)⟩
      unfold crimeCalls
      exact h1

/-- C28: getNewCrimeId stores and returns the current id plus one (when the increment stays in the
range of int), recordCrimeId makes getCrimeId return the current id, so the id last issued; in a
sequence of getNewCrimeId and recordCrimeId calls started from a freshly constructed or a cleared
Player (both ids -1) the ids returned are 0, 1, 2 and so on, the k-th call returning k-1; and both
functions keep the paid id at or below the current id. -/
theorem crimeId_sequence (p : Player) (calls : List CrimeCall)
    (hcount : calls.count .getNewCrimeId ≤ 2147483648) :
    (p.mCurrentCrimeId < 2147483647 →
      p.getNewCrimeId
        = some (p.mCurrentCrimeId + 1, { p with mCurrentCrimeId := p.mCurrentCrimeId + 1 })) ∧
    p.recordCrimeId.getCrimeId = p.mCurrentCrimeId ∧
    (∀ (id : Int) (q : Player), p.getNewCrimeId = some (id, q) →
      q.recordCrimeId.getCrimeId = id) ∧
    (Player.new.mCurrentCrimeId = -1 ∧ Player.new.mPaidCrimeId = -1 ∧
      p.clear.mCurrentCrimeId = -1 ∧ p.clear.mPaidCrimeId = -1) ∧
    (∀ start : Player, start = Player.new ∨ start = p.clear →
      ∃ q, crimeCalls calls start =
          some ((List.range (calls.count .getNewCrimeId)).map (fun j : Nat => (j : Int)), q) ∧
        q.mPaidCrimeId ≤ q.mCurrentCrimeId) ∧
    (p.mPaidCrimeId ≤ p.mCurrentCrimeId →
      ∀ (id : Int) (q : Player), p.getNewCrimeId = some (id, q) →
        q.mPaidCrimeId ≤ q.mCurrentCrimeId) ∧
    p.recordCrimeId.mPaidCrimeId ≤ p.recordCrimeId.mCurrentCrimeId := by
  have hnew : ∀ (id : Int) (q : Player), p.getNewCrimeId = some (id, q) →
      id = p.mCurrentCrimeId + 1 ∧ q = { p with mCurrentCrimeId := p.mCurrentCrimeId + 1 } := by
    intro id q h
    unfold Player.getNewCrimeId at h
    split at h
    · simp only [Option.some.injEq, Prod.mk.injEq] at h
      exact ⟨h.1.symm, h.2.symm⟩
    · cases h
  refine ⟨?_, rfl, ?_, ⟨rfl, rfl, rfl, rfl⟩, ?_, ?_, le_refl _⟩
  · intro hlt
    unfold Player.getNewCrimeId
    rw [if_pos hlt]
  · intro id q h
    obtain ⟨h1, h2⟩ := hnew id q h
    rw [h1, h2]
    rfl
  · intro start hstart
    have hs : start.mCurrentCrimeId = -1 ∧ start.mPaidCrimeId = -1 := by
      rcases hstart with h | h <;> rw [h] <;> exact ⟨rfl, rfl⟩
    obtain ⟨q, h1, -, h3⟩ := crimeCalls_issued calls start (by rw [hs.1]; omega)
    refine ⟨q, ?_, h3 (by rw [hs.1, hs.2])⟩
    rw [h1, hs.1]
    have hf : (fun j : Nat => (-1 : Int) + 1 + j) = fun j : Nat => (j : Int) := by
      funext j
      omega
    rw [hf]
  · intro hle id q h
    obtain ⟨-, h2⟩ := hnew id q h
    rw [h2]
    show p.mPaidCrimeId ≤ p.mCurrentCrimeId + 1
    omega

theorem crimeId_sequence_witness :
    ∃ q, crimeCalls [.getNewCrimeId, .recordCrimeId, .getNewCrimeId, .getNewCrimeId] Player.new
        = some ([0, 1, 2], q) ∧ q.mPaidCrimeId ≤ q.mCurrentCrimeId :=
  (crimeId_sequence Player.new
    [.getNewCrimeId, .recordCrimeId, .getNewCrimeId, .getNewCrimeId] (by decide)).2.2.2.2.1
    Player.new (Or.inl rfl)

/-! ## The forward movement -/

/-- C29: the forward movement written by setAutoMove(false) is not the value last passed to
setForwardBackward but that value with its fraction dropped, because setAutoMove takes it through
an int (player.cpp:177). setForwardBackward itself writes its argument unchanged when auto-move is
off and 1 when it is on, and setAutoMove(true) writes 1; from every Player, setForwardBackward(0.5)
followed by setAutoMove(false) leaves auto-move off and the component 0, not 0.5; for a whole
number the component is the value passed. -/
theorem forwardBackward_truncated (p : Player) (m : Movement) :
    (∀ v : CFloat, (p.setForwardBackward v m).2.mPosition 1 = if p.mAutoMove then 1 else v) ∧
    (∀ enable : Bool, (p.setAutoMove enable m).2.mPosition 1
      = if enable then 1 else ofInt (toInt p.mForwardBackward)) ∧
    (∀ v : CFloat, ((p.setForwardBackward v m).1.setAutoMove false
        (p.setForwardBackward v m).2).2.mPosition 1 = ofInt (toInt v)) ∧
    (∀ n : Int, ((p.setForwardBackward (ofInt n) m).1.setAutoMove false
        (p.setForwardBackward (ofInt n) m).2).2.mPosition 1 = ofInt n) ∧
    (moveCalls [.setForwardBackward (mkRat 1 2), .setAutoMove false] (p, m)).1.mAutoMove = false ∧
    (moveCalls [.setForwardBackward (mkRat 1 2), .setAutoMove false] (p, m)).2.mPosition 1 = 0 ∧
    (0 : CFloat) ≠ mkRat 1 2 := by
  refine ⟨?_, ?_, ?_, ?_, rfl, ?_, by decide⟩
  · intro v
    simp only [Player.setForwardBackward, Function.update_same]
  · intro enable
    simp only [Player.setAutoMove, Function.update_same]
    cases enable <;> simp [ofInt]
  · intro v
    simp only [Player.setAutoMove, Player.setForwardBackward, Function.update_same]
    simp
  · intro n
    have h : toInt (ofInt n) = n := by
      unfold toInt ofInt
      rw [Rat.num_intCast, Rat.den_intCast]
      simp
    simp only [Player.setAutoMove, Player.setForwardBackward, Function.update_same]
    simp [h]
  · simp only [moveCalls, List.foldl, MoveCall.run, Player.setAutoMove,
      Player.setForwardBackward, Function.update_same]
    have h : toInt (mkRat 1 2) = 0 := by decide
    simp [h, ofInt]

/-! ## The previous-item map -/

theorem lookup_erase_self (m : ItemMap) (k : String) : (m.erase k).lookup k = none := by
  induction m with
  | nil => rfl
  | cons e m ih =>
    obtain ⟨key, v⟩ := e
    unfold ItemMap.erase at ih ⊢
    by_cases h : key = k
    · have hf : List.filter (fun p : String × String => p.1 != k) ((key, v) :: m)
          = List.filter (fun p => p.1 != k) m := List.filter_cons_of_neg (by simp [h])
      rw [hf]
      exact ih
    · have hf : List.filter (fun p : String × String => p.1 != k) ((key, v) :: m)
          = (key, v) :: List.filter (fun p => p.1 != k) m :=
        List.filter_cons_of_pos (by simpa using h)
      rw [hf]
      have hk : (k == key) = false := by simpa using fun h1 : k = key => h h1.symm
      simp only [List.lookup_cons, hk]
      exact ih

theorem lookup_erase_ne (m : ItemMap) {k other : String} (h : other ≠ k) :
    (m.erase k).lookup other = m.lookup other := by
  induction m with
  | nil => rfl
  | cons e m ih =>
    obtain ⟨key, v⟩ := e
    unfold ItemMap.erase at ih ⊢
    by_cases hk : key = k
    · have hf : List.filter (fun p : String × String => p.1 != k) ((key, v) :: m)
          = List.filter (fun p => p.1 != k) m := List.filter_cons_of_neg (by simp [hk])
      rw [hf]
      have ho : (other == key) = false := by simpa [hk] using h
      simp only [List.lookup_cons, ho]
      exact ih
    · have hf : List.filter (fun p : String × String => p.1 != k) ((key, v) :: m)
          = (key, v) :: List.filter (fun p => p.1 != k) m :=
        List.filter_cons_of_pos (by simpa using hk)
      rw [hf]
      simp only [List.lookup_cons]
      rw [ih]

theorem lookup_assign_self (m : ItemMap) (k v : String) : (m.assign k v).lookup k = some v := by
  unfold ItemMap.assign
  simp only [List.lookup_cons, beq_self_eq_true]

theorem lookup_assign_ne (m : ItemMap) (v : String) {k other : String} (h : other ≠ k) :
    (m.assign k v).lookup other = m.lookup other := by
  unfold ItemMap.assign
  have ho : (other == k) = false := by simpa using h
  simp only [List.lookup_cons, ho]
  exact lookup_erase_ne m h

/-- What getPreviousItem returns: the mapped string, or the empty string for a missing key. -/
theorem getPreviousItem_value (p : Player) (k : String) :
    (p.getPreviousItem k).1 = (p.mPreviousItems.lookup k).getD "" := by
  unfold Player.getPreviousItem ItemMap.subscript
  cases p.mPreviousItems.lookup k <;> rfl

/-- The entry a key has after getPreviousItem has been called for some key. -/
theorem getPreviousItem_lookup (p : Player) (k other : String) :
    ((p.getPreviousItem other).2.mPreviousItems.lookup k).getD ""
      = (p.mPreviousItems.lookup k).getD "" := by
  unfold Player.getPreviousItem ItemMap.subscript
  cases h : p.mPreviousItems.lookup other with
  | some v => rfl
  | none =>
    dsimp only
    by_cases hk : k = other
    · subst hk
      simp only [List.lookup_cons, beq_self_eq_true, h]
      rfl
    · have hb : (k == other) = false := by simpa using hk
      simp only [List.lookup_cons, hb]

/-- A call that does not set the key k keeps an empty reading of k empty. -/
theorem run_keeps_empty (c : ItemCall) (p : Player) (k : String) (hc : c.sets k = false)
    (h : (p.mPreviousItems.lookup k).getD "" = "") :
    ((c.run p).mPreviousItems.lookup k).getD "" = "" := by
  cases c with
  | setPreviousItem key v =>
    have hk : k ≠ key := by
      intro hk
      simp [ItemCall.sets, hk] at hc
    show ((p.mPreviousItems.assign key v).lookup k).getD "" = ""
    rw [lookup_assign_ne _ _ hk]
    exact h
  | getPreviousItem key =>
    show (((p.getPreviousItem key).2.mPreviousItems.lookup k)).getD "" = ""
    rw [getPreviousItem_lookup]
    exact h
  | erasePreviousItem key =>
    show ((p.mPreviousItems.erase key).lookup k).getD "" = ""
    by_cases hk : k = key
    · rw [hk, lookup_erase_self]
      rfl
    · rw [lookup_erase_ne _ hk]
      exact h
  | clear => rfl

theorem itemCalls_keep_empty (calls : List ItemCall) (k : String) :
    ∀ p : Player, calls.all (fun c => !c.sets k) = true →
      (p.mPreviousItems.lookup k).getD "" = "" →
      ((itemCalls calls p).mPreviousItems.lookup k).getD "" = "" := by
  induction calls with
  | nil => exact fun p _ h => h
  | cons c calls ih =>
    intro p hall h
    simp only [List.all_cons, Bool.and_eq_true, Bool.not_eq_true'] at hall
    exact ih (c.run p) hall.2 (run_keeps_empty c p k hall.1 h)

/-- C30: after setPreviousItem(k, v), getPreviousItem(k) returns v and getPreviousItem of any other
key returns what it returned before; after erasePreviousItem(k) getPreviousItem(k) returns the
empty string, and so it does for a key never set, that is after any sequence of calls since the
construction or a clear none of which sets k; clear() empties the map. Reading a key does not
change what a later reading returns. -/
theorem previousItem_map (p : Player) (k v other : String) (calls : List ItemCall) :
    ((p.setPreviousItem k v).getPreviousItem k).1 = v ∧
    (other ≠ k →
      ((p.setPreviousItem k v).getPreviousItem other).1 = (p.getPreviousItem other).1) ∧
    ((p.erasePreviousItem k).getPreviousItem k).1 = "" ∧
    (calls.all (fun c => !c.sets k) = true →
      ((itemCalls calls Player.new).getPreviousItem k).1 = "" ∧
      ((itemCalls calls p.clear).getPreviousItem k).1 = "") ∧
    p.clear.mPreviousItems = [] ∧
    ((p.getPreviousItem other).2.getPreviousItem k).1 = (p.getPreviousItem k).1 ∧
    ((p.setPreviousItem "bound_longsword" "iron dagger").getPreviousItem "bound_longsword").1
      = "iron dagger" := by
  refine ⟨?_, ?_, ?_, ?_, rfl, ?_, ?_⟩
  · rw [getPreviousItem_value]
    show ((p.mPreviousItems.assign k v).lookup k).getD "" = v
    rw [lookup_assign_self]
    rfl
  · intro h
    rw [getPreviousItem_value, getPreviousItem_value]
    show ((p.mPreviousItems.assign k v).lookup other).getD "" = _
    rw [lookup_assign_ne _ _ h]
  · rw [getPreviousItem_value]
    show ((p.mPreviousItems.erase k).lookup k).getD "" = ""
    rw [lookup_erase_self]
    rfl
  · intro hall
    rw [getPreviousItem_value, getPreviousItem_value]
    exact ⟨itemCalls_keep_empty calls k Player.new hall rfl,
      itemCalls_keep_empty calls k p.clear hall rfl⟩
  · rw [getPreviousItem_value, getPreviousItem_value, getPreviousItem_lookup]
  · rw [getPreviousItem_value]
    show ((p.mPreviousItems.assign "bound_longsword" "iron dagger").lookup
      "bound_longsword").getD "" = "iron dagger"
    rw [lookup_assign_self]
    rfl

end MWWorld
